import Mathlib

/-! # michi: a verification development

A shallow embedding of `router.go` and `path.go`, with the helpers of
`router_test.go`.

* Go strings are lists of characters (`Str`).
* A `http.Handler` is a value of the inductive type `Handler`: a function
  literal, a function literal that captured a `next` handler, a `*Router` or a
  `*http.ServeMux`.  Pointers are indices into a `Heap`.
* Go slices are slice headers (`Slice`: backing array, length, capacity) over
  backing arrays that live in the heap, and `append` writes in place whenever
  the capacity allows it, as the Go runtime does.
* What the program takes from outside the repository (the capacity chosen by
  the runtime when a slice is reallocated, and the behaviour of
  `http.ServeMux`) is collected in `Env`.
* A Go panic is `Except.error`.
* A callback is a function on the heap; the callbacks written with the
  operations of the router are the registration blocks `Prog`.

The definitions come first (the embedding of the source, then what the
statements need), the lemmas and the claims after them.
-/

namespace Michi

/-! # Definitions -/

/-! ## Strings, requests, observable effects -/

/-- Go strings, as lists of characters. -/
abbrev Str := List Char

/-- The part of `*http.Request` the program and the table look at. -/
structure Request where
  method : Str
  host : Str
  path : Str
deriving DecidableEq, Repr

/-- One observable effect of serving a request: a string recorded by a handler
or middleware (the tests append to `result`), or a status code written by the
table itself (not found, method not allowed, redirect). -/
inductive Event where
  | note (s : String)
  | status (code : Nat)
deriving DecidableEq, Repr

/-- The behaviour of `ServeHTTP(w, req)`: from the effects so far to the effects
after the call; `none` when the call does not return normally. -/
abbrev Serve := Request → List Event → Option (List Event)

/-! ## Handlers and middlewares -/

/-- The values of the interface `http.Handler` that occur in the program. -/
inductive Handler where
  /-- A `http.HandlerFunc` that calls no other handler. -/
  | func (f : Serve)
  /-- A `http.HandlerFunc` whose body captured `next` and calls
  `next.ServeHTTP`; `body` maps the behaviour of `next` to its own. -/
  | closure (body : Serve → Serve) (next : Handler)
  /-- A `*Router`. -/
  | router (id : Nat)
  /-- A `*http.ServeMux`. -/
  | serveMux (id : Nat)

/-- The type `func(http.Handler) http.Handler`. -/
abbrev Middleware := Handler → Handler

/-- The usual shape of a middleware: it returns a function literal around
`next`. -/
def wrap (body : Serve → Serve) : Middleware := fun next => Handler.closure body next

/-- Source: `router.go`, `chain`.  The loop runs `i` over
`0 .. len(middlewares)-1` and applies `middlewares[len(middlewares)-1-i]`. -/
def chain (middlewares : List Middleware) (handler : Handler) : Handler :=
  (List.range middlewares.length).foldl
    (fun handler i =>
      match middlewares[middlewares.length - 1 - i]? with
      | some mw => mw handler
      | none => handler)
    handler

/-! ## `path.go` -/

/-- Go `strings.IndexAny(s, chars)`: the index of the first character of `s`
that is in `chars`, if any. -/
def indexAny (chars : List Char) : Str → Option Nat
  | [] => none
  | c :: cs => if c ∈ chars then some 0 else (indexAny chars cs).map (· + 1)

/-- Go `strings.TrimLeft(s, cutset)`. -/
def trimLeft (cutset : List Char) : Str → Str
  | [] => []
  | c :: cs => if c ∈ cutset then trimLeft cutset cs else c :: cs

/-- Go `strings.ReplaceAll(s, old, new)` for a non-empty `old`: scanning from
the left, each non-overlapping occurrence of `old` is replaced by `new`.
`skip` counts the characters of a matched occurrence still to be dropped. -/
def replaceAllFrom (old new : Str) : Nat → Str → Str
  | _, [] => []
  | skip + 1, _ :: cs => replaceAllFrom old new skip cs
  | 0, c :: cs =>
    if old.isPrefixOf (c :: cs) then new ++ replaceAllFrom old new (old.length - 1) cs
    else c :: replaceAllFrom old new 0 cs

/-- Go `strings.ReplaceAll`. -/
def replaceAll (s old new : Str) : Str := replaceAllFrom old new 0 s

/-- The cutset `" \t"`. -/
def spaceTab : List Char := [Char.ofNat 32, Char.ofNat 9]

/-- Source: `path.go`, `methodAndPath`. -/
def methodAndPath (pattern : Str) : Str × Str :=
  match indexAny spaceTab pattern with
  | some i => (pattern.take i, trimLeft spaceTab (pattern.drop (i + 1)))
  | none => ([], pattern)

/-- Source: `path.go`, `joinMethodAndPath`. -/
def joinMethodAndPath (method path : Str) : Str :=
  if method = [] then path else method ++ [Char.ofNat 32] ++ path

/-- Source: `path.go`, `joinPathAndPattern`. -/
def joinPathAndPattern (path pattern : Str) : Str :=
  replaceAll (path ++ pattern) ['/', '/'] ['/']

/-! ## The heap: routers, tables, backing arrays -/

/-- A Go slice header of type `[]func(http.Handler) http.Handler`: the backing
array it points to, its length and its capacity.  The program never reslices,
so every slice starts at index 0 of its backing array. -/
structure Slice where
  arr : Nat
  len : Nat
  cap : Nat
deriving DecidableEq, Repr

/-- The `nil` slice. -/
def Slice.nil : Slice := { arr := 0, len := 0, cap := 0 }

/-- Source: `router.go`, `type Router struct`. -/
structure Router where
  path : Str
  handlerMiddlewares : Slice
  subRouterMiddlewares : Slice
  serveMux : Nat
  executedRouteOrHandle : Bool
  inGroupOrWith : Bool
deriving DecidableEq, Repr

/-- The table of a `http.ServeMux`: the registered patterns with their
handlers, in registration order. -/
abbrev Table := List (Str × Handler)

/-- The memory of the program: `*Router` and `*http.ServeMux` are indices into
`routers` and `muxes`; `arrays` holds the backing arrays of the slices (each
with the elements written so far). -/
structure Heap where
  routers : List Router
  muxes : List Table
  arrays : List (List Middleware)

/-- The heap before anything is allocated. -/
def Heap.empty : Heap := { routers := [], muxes := [], arrays := [] }

/-- What `http.ServeMux` answers for a request. -/
inductive Outcome where
  /-- The entry at this index of the table is selected. -/
  | entry (i : Nat)
  /-- No handler is selected; the table replies itself with this status. -/
  | reply (code : Nat)
deriving DecidableEq, Repr

/-- What the program takes from outside the repository.

* `nextslicecap oldCap newLen`: the capacity the Go runtime gives the new
  backing array when `append` has to reallocate; it is at least `newLen`.
* `muxAccepts keys key`: whether `(*http.ServeMux).Handle` accepts the pattern
  `key` when `keys` are registered already (it panics otherwise).
* `muxFind keys req`: the dispatch decision of the table for a request. -/
structure Env where
  nextslicecap : Nat → Nat → Nat
  nextslicecap_ge : ∀ oldCap newLen, newLen ≤ nextslicecap oldCap newLen
  muxAccepts : List Str → Str → Bool
  muxFind : List Str → Request → Outcome

/-- The message of the runtime panic on a nil or dangling pointer. -/
def nilDeref : String := "runtime error: invalid memory address or nil pointer dereference"

/-- The elements of a slice: the first `len` elements of its backing array. -/
def Heap.elems (w : Heap) (s : Slice) : List Middleware :=
  (w.arrays.getD s.arr []).take s.len

/-- Writing `xs` into a backing array from index `off` on. -/
def overwrite (a : List Middleware) (off : Nat) (xs : List Middleware) : List Middleware :=
  a.take off ++ xs ++ a.drop (off + xs.length)

/-- Go `append(s, xs...)`: when the capacity suffices the elements are written
into the backing array of `s` and the result shares it; otherwise a new array
is allocated, the elements of `s` are copied and `xs` is written after them. -/
def Heap.append (E : Env) (w : Heap) (s : Slice) (xs : List Middleware) : Slice × Heap :=
  if s.len + xs.length ≤ s.cap then
    ({ s with len := s.len + xs.length },
     { w with arrays := w.arrays.set s.arr (overwrite (w.arrays.getD s.arr []) s.len xs) })
  else
    ({ arr := w.arrays.length, len := s.len + xs.length,
       cap := E.nextslicecap s.cap (s.len + xs.length) },
     { w with arrays := w.arrays ++ [w.elems s ++ xs] })

/-- Storing a router value through a pointer. -/
def Heap.setRouter (w : Heap) (r : Nat) (R : Router) : Heap :=
  { w with routers := w.routers.set r R }

/-- Storing a table through a pointer. -/
def Heap.setMux (w : Heap) (mux : Nat) (es : Table) : Heap :=
  { w with muxes := w.muxes.set mux es }

/-- Source: `(*http.ServeMux).Handle(pattern, handler)`: the entry is added to
the table, or the call panics when the table does not accept the pattern. -/
def muxHandle (E : Env) (w : Heap) (mux : Nat) (key : Str) (h : Handler) : Except String Heap :=
  match w.muxes[mux]? with
  | none => .error nilDeref
  | some es =>
    if E.muxAccepts (es.map Prod.fst) key then
      .ok (w.setMux mux (es ++ [(key, h)]))
    else .error "http: invalid or conflicting pattern"

/-! ## `router.go` -/

/-- Source: `router.go`, `newRouter`: a new table and a new router value. -/
def newRouter (path : Str) (w : Heap) : Nat × Heap :=
  (w.routers.length,
   { w with
     muxes := w.muxes ++ [[]]
     routers := w.routers ++
      [{ path := path, handlerMiddlewares := Slice.nil, subRouterMiddlewares := Slice.nil,
         serveMux := w.muxes.length, executedRouteOrHandle := false, inGroupOrWith := false }] })

/-- Source: `router.go`, `NewRouter`. -/
def NewRouter (w : Heap) : Nat × Heap := newRouter [] w

/-- Source: `router.go`, `cloneForWith`: a new router value with the slice
headers and the table pointer of `r`. -/
def cloneForWith (r : Nat) (w : Heap) : Except String (Nat × Heap) :=
  match w.routers[r]? with
  | none => .error nilDeref
  | some R =>
    .ok (w.routers.length,
      { w with routers := w.routers ++
        [{ path := R.path, subRouterMiddlewares := R.subRouterMiddlewares,
           handlerMiddlewares := R.handlerMiddlewares, serveMux := R.serveMux,
           executedRouteOrHandle := false, inGroupOrWith := true }] })

/-- The message of the panic in `Use`. -/
def usePanic : String := "michi: all middlewares must be defined before routes on a mux"

/-- Source: `router.go`, `Use`. -/
def Use (E : Env) (r : Nat) (middlewares : List Middleware) (w : Heap) : Except String Heap :=
  match w.routers[r]? with
  | none => .error nilDeref
  | some R =>
    if R.executedRouteOrHandle then .error usePanic
    else if R.inGroupOrWith then
      let p := w.append E R.handlerMiddlewares middlewares
      .ok (p.2.setRouter r { R with handlerMiddlewares := p.1 })
    else
      let p := w.append E R.subRouterMiddlewares middlewares
      .ok (p.2.setRouter r { R with subRouterMiddlewares := p.1 })

/-- Source: `router.go`, `With`. -/
def With (E : Env) (r : Nat) (middlewares : List Middleware) (w : Heap) :
    Except String (Nat × Heap) :=
  match cloneForWith r w with
  | .error e => .error e
  | .ok (withRouter, w1) =>
    match w1.routers[withRouter]? with
    | none => .error nilDeref
    | some R =>
      let p := w1.append E R.handlerMiddlewares middlewares
      .ok (withRouter, p.2.setRouter withRouter { R with handlerMiddlewares := p.1 })

/-- The type `func(sub *Router)`: a callback receives a router pointer and
works on the heap; it may panic.  `none` is the `nil` function. -/
abbrev Callback := Nat → Heap → Except String Heap

/-- Source: `router.go`, `Group`. -/
def Group (E : Env) (r : Nat) (fn : Option Callback) (w : Heap) : Except String Heap :=
  match With E r [] w with
  | .error e => .error e
  | .ok (r2, w1) =>
    match fn with
    | none => .ok w1
    | some f => f r2 w1

/-- Source: `router.go`, `Handle`. -/
def Handle (E : Env) (r : Nat) (pattern : Str) (handler : Handler) (w : Heap) :
    Except String Heap :=
  match w.routers[r]? with
  | none => .error nilDeref
  | some R =>
    let mp := methodAndPath pattern
    let fullPath := joinPathAndPattern R.path mp.2
    match muxHandle E w R.serveMux (joinMethodAndPath mp.1 fullPath)
        (chain (w.elems R.handlerMiddlewares) handler) with
    | .error e => .error e
    | .ok w1 =>
      match w1.routers[r]? with
      | none => .error nilDeref
      | some R1 => .ok (w1.setRouter r { R1 with executedRouteOrHandle := true })

/-- Source: `router.go`, `HandleFunc`. -/
def HandleFunc (E : Env) (r : Nat) (pattern : Str) (handlerFunc : Serve) (w : Heap) :
    Except String Heap :=
  Handle E r pattern (Handler.func handlerFunc) w

/-- The message of the panic of `Route` on a nil callback. -/
def routePanic (pattern : Str) : String :=
  "michi: sub router function cannot be nil on '" ++ String.mk pattern ++ "'"

/-- Source: `router.go`, `Route`, the statement
`if string(pattern[len(pattern)-1]) != "/" { pattern += "/" }`, where `last` is
the last character of `pattern`. -/
def addSlash (last : Char) (pattern : Str) : Str :=
  if last ≠ '/' then pattern ++ ['/'] else pattern

/-- Source: `router.go`, `Route`. -/
def Route (E : Env) (r : Nat) (pattern : Str) (fn : Option Callback) (w : Heap) :
    Except String Heap :=
  match fn with
  | none => .error (routePanic pattern)
  | some f =>
    match pattern.getLast? with
    | none => .error "runtime error: index out of range [-1]"
    | some c =>
      let pattern := addSlash c pattern
      match w.routers[r]? with
      | none => .error nilDeref
      | some R =>
        let p := newRouter (joinPathAndPattern R.path pattern) w
        match f p.1 p.2 with
        | .error e => .error e
        | .ok w2 =>
          match w2.routers[r]?, w2.routers[p.1]? with
          | some R2, some S =>
            match muxHandle E w2 R2.serveMux S.path (Handler.router p.1) with
            | .error e => .error e
            | .ok w3 =>
              match w3.routers[r]? with
              | none => .error nilDeref
              | some R3 => .ok (w3.setRouter r { R3 with executedRouteOrHandle := true })
          | _, _ => .error nilDeref

/-! ## Serving -/

/-- The behaviour of a handler, given the behaviour of the routers and tables
it may point to. -/
def serveWith (routerServe muxServe : Nat → Serve) : Handler → Serve
  | .func f => f
  | .closure body next => body (serveWith routerServe muxServe next)
  | .router id => routerServe id
  | .serveMux id => muxServe id

/-- Source: `(*http.ServeMux).ServeHTTP`: the selected entry serves the
request, or the table replies with a status itself. `serveEntry` is the
behaviour of the handlers in the table. -/
def muxServe (E : Env) (w : Heap) (serveEntry : Handler → Serve) (id : Nat) : Serve :=
  fun req t =>
    match w.muxes[id]? with
    | none => none
    | some es =>
      match E.muxFind (es.map Prod.fst) req with
      | .reply code => some (t ++ [Event.status code])
      | .entry i =>
        match es[i]? with
        | none => none
        | some e => serveEntry e.2 req t

/-- Source: `router.go`, `ServeHTTP`, for every kind of handler.  A router
serves with `chain(r.subRouterMiddlewares, r.serveMux)`.  `fuel` bounds the
depth of nested routers and tables; a call that needs more does not return. -/
def ServeHTTP (E : Env) (w : Heap) : Nat → Handler → Serve
  | 0 => serveWith (fun _ _ _ => none) (fun _ _ _ => none)
  | fuel + 1 =>
    serveWith
      (fun id req t =>
        match w.routers[id]? with
        | none => none
        | some R =>
          ServeHTTP E w fuel
            (chain (w.elems R.subRouterMiddlewares) (Handler.serveMux R.serveMux)) req t)
      (muxServe E w (ServeHTTP E w fuel))

/-! ## A concrete environment for examples -/

/-- Go runtime, `nextslicecap`, the loop for slices of 256 elements or more:
the capacity grows by a quarter plus 192 until it reaches `newLen`. -/
def growLoop : Nat → Nat → Nat → Nat
  | 0, newcap, _ => newcap
  | fuel + 1, newcap, newLen =>
    if newLen ≤ newcap + (newcap + 3 * 256) / 4 then newcap + (newcap + 3 * 256) / 4
    else growLoop fuel (newcap + (newcap + 3 * 256) / 4) newLen

/-- Go runtime, `nextslicecap`: the new length when it exceeds twice the old
capacity, twice the old capacity for small slices, the loop otherwise.  (The
runtime then rounds the size up to an allocation class; for slices of function
values with capacity 1, 2 and 4 the size is a class already.) -/
def goNextslicecap (oldCap newLen : Nat) : Nat :=
  if oldCap + oldCap < newLen then newLen
  else if oldCap < 256 then oldCap + oldCap
  else growLoop newLen oldCap newLen

/-- Whether a registered pattern matches a request in the example table: the
method, when the pattern has one, is the method of the request, and the path
is the path of the request, or a subtree pattern (ending in a slash) that the
path of the request starts with. -/
def keyMatches (req : Request) (key : Str) : Bool :=
  (decide ((methodAndPath key).1 = []) || decide ((methodAndPath key).1 = req.method)) &&
  (decide ((methodAndPath key).2 = req.path) ||
    (decide ((methodAndPath key).2.getLast? = some '/') &&
      (methodAndPath key).2.isPrefixOf req.path))

/-- The dispatch of the example table: the first matching pattern, or 404. -/
def exampleFind (keys : List Str) (req : Request) : Outcome :=
  match keys.findIdx? (keyMatches req) with
  | some i => Outcome.entry i
  | none => Outcome.reply 404

/-- An environment for examples: the growth of the Go runtime, and a table that
accepts every non-empty pattern not registered yet. -/
def exampleEnv : Env :=
  { nextslicecap := goNextslicecap
    nextslicecap_ge := fun oldCap newLen => by
      have key : ∀ fuel newcap, newLen ≤ newcap + fuel →
          newLen ≤ growLoop fuel newcap newLen := by
        intro fuel
        induction fuel with
        | zero => intro newcap hle; simpa [growLoop] using hle
        | succ fuel ih =>
          intro newcap hle
          unfold growLoop
          split
          · assumption
          · apply ih
            have : 192 ≤ (newcap + 3 * 256) / 4 := by omega
            omega
      unfold goNextslicecap
      split
      · exact le_refl _
      · split
        · omega
        · exact key newLen oldCap (by omega)
    muxAccepts := fun keys key => decide (key ≠ []) && !keys.contains key
    muxFind := exampleFind }

/-- A `GET` request for a path on `example.com`. -/
def get (path : String) : Request :=
  { method := "GET".toList, host := "example.com".toList, path := path.toList }

/-! ## The helpers of `router_test.go` -/

/-- Source: `router_test.go`, `TestServeHTTP`, helper `h`: the handler records
`name + "h"`. -/
def h (name : String) : Handler :=
  Handler.func (fun _ t => some (t ++ [Event.note (name ++ "h")]))

/-- Source: `router_test.go`, `TestServeHTTP`, helper `m`: the middleware
records `name + "1"`, calls `next` once, then records `name + "2"`. -/
def m (name : String) : Middleware :=
  wrap (fun next req t =>
    match next req (t ++ [Event.note (name ++ "1")]) with
    | none => none
    | some t1 => some (t1 ++ [Event.note (name ++ "2")]))

/-! ## The records of the logging middlewares -/

/-- The records of the enters of the middlewares `m name`, in order. -/
def enters (names : List String) : List Event := names.map (fun n => Event.note (n ++ "1"))

/-- The records of the exits of the middlewares `m name`, innermost first. -/
def exits (names : List String) : List Event :=
  names.reverse.map (fun n => Event.note (n ++ "2"))

/-! ## Slices in the heap -/

/-- A slice header is in order in a heap: its length is within its capacity,
the elements up to its length have been written, and a slice with capacity
points to an allocated array. -/
def Heap.ok (w : Heap) (s : Slice) : Prop :=
  s.len ≤ s.cap ∧ s.len ≤ (w.arrays.getD s.arr []).length ∧ (0 < s.cap → s.arr < w.arrays.length)

instance (w : Heap) (s : Slice) : Decidable (w.ok s) := by
  unfold Heap.ok; infer_instance

/-! ## Routers in the heap -/

/-- What a router value stands for: its fields, with the two slices read as
the lists of their elements. -/
structure RouterView where
  path : Str
  handlerMiddlewares : List Middleware
  subRouterMiddlewares : List Middleware
  serveMux : Nat
  executedRouteOrHandle : Bool
  inGroupOrWith : Bool

/-- The view of a router value in a heap. -/
def Heap.view (w : Heap) (R : Router) : RouterView :=
  { path := R.path
    handlerMiddlewares := w.elems R.handlerMiddlewares
    subRouterMiddlewares := w.elems R.subRouterMiddlewares
    serveMux := R.serveMux
    executedRouteOrHandle := R.executedRouteOrHandle
    inGroupOrWith := R.inGroupOrWith }

/-- The two slices of a router value are in order and do not share a backing
array that one of them could write to. -/
def Heap.okRouter (w : Heap) (R : Router) : Prop :=
  w.ok R.handlerMiddlewares ∧ w.ok R.subRouterMiddlewares ∧
    (R.handlerMiddlewares.arr ≠ R.subRouterMiddlewares.arr ∨
      R.handlerMiddlewares.cap = 0 ∨ R.subRouterMiddlewares.cap = 0)

instance (w : Heap) (R : Router) : Decidable (w.okRouter R) := by
  unfold Heap.okRouter; infer_instance

/-! ## Auxiliary definitions for the operations -/

/-- The router value `cloneForWith` allocates for a router value `R`. -/
def cloneOf (R : Router) : Router :=
  { path := R.path, subRouterMiddlewares := R.subRouterMiddlewares,
    handlerMiddlewares := R.handlerMiddlewares, serveMux := R.serveMux,
    executedRouteOrHandle := false, inGroupOrWith := true }

/-- The key under which `Handle` registers a pattern on a router mounted at
`path`. -/
def handleKey (path pattern : Str) : Str :=
  joinMethodAndPath (methodAndPath pattern).1
    (joinPathAndPattern path (methodAndPath pattern).2)

/-! ### Tables only grow -/

/-- Every table of `w` is still there in `w1`, with the same entries at the
same places and possibly more entries after them. -/
def tableGrows (w w1 : Heap) : Prop :=
  ∀ (k : Nat) (es : Table), w.muxes[k]? = some es → ∃ extra, w1.muxes[k]? = some (es ++ extra)

/-- A callback that only adds entries to tables. -/
def Callback.grows (f : Callback) : Prop :=
  ∀ sub w w1, f sub w = .ok w1 → tableGrows w w1

/-- The entry at place `i` of table `mux`. -/
def Heap.entry (w : Heap) (mux i : Nat) : Option (Str × Handler) :=
  match w.muxes[mux]? with
  | some es => es[i]?
  | none => none

/-! ### Frames -/

/-- The slice `Use` appends to. -/
def useTarget (R : Router) : Slice :=
  if R.inGroupOrWith then R.handlerMiddlewares else R.subRouterMiddlewares

/-- The router value `newRouter` allocates. -/
def freshRouter (path : Str) (mux : Nat) : Router :=
  { path := path, handlerMiddlewares := Slice.nil, subRouterMiddlewares := Slice.nil,
    serveMux := mux, executedRouteOrHandle := false, inGroupOrWith := false }

/-! ### A root, a `Route` child and a handler registered through `With` -/

/-- The callback `func(sub) { sub.Use(C...); sub.With(B...).Handle(pattern, h) }`. -/
def registerInChild (E : Env) (C B : List Middleware) (pattern : Str) (h0 : Handler) :
    Callback :=
  fun sub w =>
    match Use E sub C w with
    | .error e => .error e
    | .ok w1 =>
      match With E sub B w1 with
      | .error e => .error e
      | .ok (c, w2) => Handle E c pattern h0 w2

/-- The registration
`r := NewRouter(); r.Use(A...); r.Route(routePattern, func(sub) { sub.Use(C...);
sub.With(B...).Handle(handlePattern, h) })`; the result is the root and the
heap. -/
def buildTree (E : Env) (A C B : List Middleware) (routePattern handlePattern : Str)
    (h0 : Handler) (w0 : Heap) : Except String (Nat × Heap) :=
  match Use E (NewRouter w0).1 A (NewRouter w0).2 with
  | .error e => .error e
  | .ok w1 =>
    match Route E (NewRouter w0).1 routePattern
        (some (registerInChild E C B handlePattern h0)) w1 with
    | .error e => .error e
    | .ok w2 => .ok ((NewRouter w0).1, w2)

/-! ### Middlewares that pass the request on -/

/-- What a middleware does before or after calling `next`. -/
abbrev Step := Request → List Event → Option (List Event)

/-- A middleware that runs `pre`, calls `next` once with the request it
received, and then runs `post`. -/
def around (p : Step × Step) : Middleware :=
  wrap (fun next req t => (p.1 req t).bind fun t1 => (next req t1).bind (p.2 req))

/-- The behaviour of nested `around` middlewares around an inner behaviour
`k`, for one request. -/
def onion (ps : List (Step × Step)) (req : Request)
    (k : List Event → Option (List Event)) : List Event → Option (List Event) :=
  ps.foldr (fun p acc t => (p.1 req t).bind fun t1 => (acc t1).bind (p.2 req)) k

/-- The test middleware `m(name)` is of this kind. -/
def logSteps (name : String) : Step × Step :=
  (fun _ t => some (t ++ [Event.note (name ++ "1")]),
   fun _ t => some (t ++ [Event.note (name ++ "2")]))

/-! ### The invariant of the heaps the operations build -/

/-- The slices of all routers are in order, and no handler-scoped slice shares
a writable backing array with a subtree-scoped slice. -/
def Heap.inv (w : Heap) : Prop :=
  (∀ R ∈ w.routers, w.ok R.handlerMiddlewares ∧ w.ok R.subRouterMiddlewares) ∧
  (∀ R ∈ w.routers, ∀ R2 ∈ w.routers,
    R.handlerMiddlewares.arr ≠ R2.subRouterMiddlewares.arr ∨
      R.handlerMiddlewares.cap = 0 ∨ R2.subRouterMiddlewares.cap = 0)

/-- A callback that keeps the invariant. -/
def Callback.keepsInv (f : Callback) : Prop :=
  ∀ sub w w1, w.inv → f sub w = .ok w1 → w1.inv

/-! ## Example heaps -/

/-- The heap of a registration that did not panic. -/
def heapOf (x : Except String Heap) : Heap :=
  match x with
  | .ok w => w
  | .error _ => Heap.empty

/-- Source: `router_test.go`, "root handler with / not found":
`r := NewRouter(); r.Use(m("a")); r.Handle("/a/{$}", h("a"))`; the root is
router 0. -/
def notFoundHeap : Heap :=
  heapOf ((Use exampleEnv 0 [m "a"] (NewRouter Heap.empty).2).bind
    (Handle exampleEnv 0 "/a/{$}".toList (h "a")))

/-- `r := NewRouter(); c := r.With(); c.Handle("/a", h("a"))`: the root is
router 0, the clone is router 1. -/
def cloneAfterHandle : Heap :=
  heapOf ((With exampleEnv 0 [] (NewRouter Heap.empty).2).bind
    (fun p => Handle exampleEnv p.1 "/a".toList (h "a") p.2))

/-- `r := NewRouter(); c := r.With(m("a"))`: the root is router 0, the clone
is router 1. -/
def cloneHeap : Heap :=
  heapOf ((With exampleEnv 0 [m "a"] (NewRouter Heap.empty).2).map Prod.snd)

/-- The clone of `cloneAfterHandle`, router 1: a scoped clone on which `Handle`
has been executed. -/
def registeredClone : Router :=
  { path := [], handlerMiddlewares := Slice.nil, subRouterMiddlewares := Slice.nil,
    serveMux := 0, executedRouteOrHandle := true, inGroupOrWith := true }

/-- `r := NewRouter(); r.Handle("POST   /a", h("a"))`, from the test "Handler
POST and multi spaces, request POST". -/
def postHeap : Heap :=
  heapOf (Handle exampleEnv 0 "POST   /a".toList (h "a") (NewRouter Heap.empty).2)

/-- `r := NewRouter(); g := r.With(); g.Use(m("a")); g.Use(m("b"));
g.Use(m("c"))`: the root is router 0, the clone `g` is router 1, and the
handler-scoped slice of `g` was built by three separate `Use` calls. -/
def spareHeap : Heap :=
  heapOf ((With exampleEnv 0 [] (NewRouter Heap.empty).2).bind fun p =>
    (Use exampleEnv p.1 [m "a"] p.2).bind fun w =>
    (Use exampleEnv p.1 [m "b"] w).bind fun w =>
    Use exampleEnv p.1 [m "c"] w)

/-- After `spareHeap`, `c1 := g.With(m("x"))`: the clone `c1` is router 2. -/
def firstCloneHeap : Heap :=
  heapOf ((With exampleEnv 1 [m "x"] spareHeap).map Prod.snd)

/-- After `firstCloneHeap`, `c2 := g.With(m("y"))`: the clone `c2` is router 3. -/
def secondCloneHeap : Heap :=
  heapOf ((With exampleEnv 1 [m "y"] firstCloneHeap).map Prod.snd)

/-- After `secondCloneHeap`, `c1.Handle("/one", h("one"))`. -/
def aliasedHandleHeap : Heap :=
  heapOf (Handle exampleEnv 2 "/one".toList (h "one") secondCloneHeap)

/-- The handler-scoped middlewares of router `r`, as names: what the chain of
them around a handler that records nothing records on entering. -/
def handlerNames (w : Heap) (r : Nat) : Option (List Event) :=
  match w.routers[r]? with
  | none => none
  | some R =>
    (ServeHTTP exampleEnv w 0
      (chain (w.elems R.handlerMiddlewares) (Handler.func (fun _ t => some t)))
      (get "/") []).map (fun t => t.take R.handlerMiddlewares.len)

/-- Source: `router_test.go`, "handler not found, exec middleware with Route":
`r := NewRouter(); r.Use(m("/")); r.Route("/a/", func(r) { r.Use(m("a"));
r.With(m("b")).Handle("/b", h("b")) })`; the root is router 0. -/
def routeHeap : Heap :=
  heapOf ((buildTree exampleEnv [m "/"] [m "a"] [m "b"] "/a/".toList "/b".toList (h "b")
    Heap.empty).map Prod.snd)

/-! ## The collapse of doubled separators, in the words of the specification -/

/-- The specification of the path joiner: scanning once from the left, every
non-overlapping occurrence of two consecutive separators becomes one separator;
every other character is kept. -/
def collapsePairs : Str → Str
  | [] => []
  | '/' :: '/' :: rest => '/' :: collapsePairs rest
  | c :: rest => c :: collapsePairs rest

/-! ## What `Route` does after the callback -/

/-- Source: `router.go`, `Route`, the two statements after `fn(subRouter)`:
`r.serveMux.Handle(subRouter.path, subRouter)` and
`r.executedRouteOrHandle = true`. -/
def routeFinish (E : Env) (r sub : Nat) (w2 : Heap) : Except String Heap :=
  match w2.routers[r]?, w2.routers[sub]? with
  | some R2, some S =>
    match muxHandle E w2 R2.serveMux S.path (Handler.router sub) with
    | .error e => .error e
    | .ok w3 =>
      match w3.routers[r]? with
      | none => .error nilDeref
      | some R3 => .ok (w3.setRouter r { R3 with executedRouteOrHandle := true })
  | _, _ => .error nilDeref

/-- Source: `router_test.go`, "/ middleware affect to b handler", up to the
`Group`: `r := NewRouter(); r.Use(m("/")); r.Handle("/a/", h("a"))`; `Handle`
has been executed on the root, router 0. -/
def registeredRootHeap : Heap :=
  heapOf ((Use exampleEnv 0 [m "/"] (NewRouter Heap.empty).2).bind
    (Handle exampleEnv 0 "/a/".toList (h "a")))

/-! ## Registration blocks -/

/-- The body of a callback `func(r *Router) { ... }` that works on the router
it receives: a sequence of `r.Use(...)`, `r.Handle(...)`,
`r.With(...)` followed by a block on the router `With` returns,
`r.Group(func(r) { ... })` and `r.Route(pattern, func(r) { ... })`. -/
inductive Prog where
  | done
  | use (mws : List Middleware) (rest : Prog)
  | handle (pattern : Str) (handler : Handler) (rest : Prog)
  | withDo (mws : List Middleware) (body rest : Prog)
  | group (body rest : Prog)
  | route (pattern : Str) (body rest : Prog)

/-- Running a registration block on a router: the callback it stands for. -/
def Prog.run (E : Env) : Prog → Callback
  | .done => fun _ w => .ok w
  | .use mws rest => fun cur w =>
    match Use E cur mws w with
    | .error e => .error e
    | .ok w1 => rest.run E cur w1
  | .handle pattern handler rest => fun cur w =>
    match Handle E cur pattern handler w with
    | .error e => .error e
    | .ok w1 => rest.run E cur w1
  | .withDo mws body rest => fun cur w =>
    match With E cur mws w with
    | .error e => .error e
    | .ok (c, w1) =>
      match body.run E c w1 with
      | .error e => .error e
      | .ok w2 => rest.run E cur w2
  | .group body rest => fun cur w =>
    match Group E cur (some (body.run E)) w with
    | .error e => .error e
    | .ok w1 => rest.run E cur w1
  | .route pattern body rest => fun cur w =>
    match Route E cur pattern (some (body.run E)) w with
    | .error e => .error e
    | .ok w1 => rest.run E cur w1

/-- An append to the slice `t` cannot change the elements of the slice `p`:
they are in different arrays, one of them has no capacity, or `p` is not
longer than `t`. -/
def safe (p t : Slice) : Prop :=
  p.arr ≠ t.arr ∨ p.cap = 0 ∨ t.cap = 0 ∨ p.len ≤ t.len

/-- The slice `p` is in order, and no append through a router with index `n`
or more can change its elements. -/
def Heap.guards (w : Heap) (n : Nat) (p : Slice) : Prop :=
  w.ok p ∧ ∀ (i : Nat) (X : Router), n ≤ i → w.routers[i]? = some X →
    safe p X.handlerMiddlewares ∧ safe p X.subRouterMiddlewares

/-- What a registration on routers with index `n` or more leaves as it was:
the invariant, the guard and the elements of `p`, the router values below `n`,
the path and the table pointer of every router, and the entries of every
table. -/
def Frame (n : Nat) (p : Slice) (w w1 : Heap) : Prop :=
  w1.inv ∧ w1.guards n p ∧ w1.elems p = w.elems p ∧
  (∀ i, i < n → w1.routers[i]? = w.routers[i]?) ∧
  w.routers.length ≤ w1.routers.length ∧
  (∀ (i : Nat) (X : Router), w.routers[i]? = some X →
    ∃ X1 : Router, w1.routers[i]? = some X1 ∧ X1.path = X.path ∧ X1.serveMux = X.serveMux) ∧
  tableGrows w w1

/-- Source: `router_test.go`, "a not affected by b middleware", the first
block: `r.Use(m("a")); r.Handle("/a/", h("a"))`. -/
def blockA : Prog := Prog.use [m "a"] (Prog.handle "/a/".toList (h "a") Prog.done)

/-- Source: `router_test.go`, "Route /a and Handler /b":
`r := NewRouter(); r.Route("/a", func(r) { r.Handle("/b", h("b")) })`; the
root is router 0, the child is router 1. -/
def routeABHeap : Heap :=
  heapOf (Route exampleEnv 0 "/a".toList
    (some ((Prog.handle "/b".toList (h "b") Prog.done).run exampleEnv))
    (NewRouter Heap.empty).2)

/-! ## `middleware/stripe.go` -/

/-- Source: `middleware/stripe.go`, `StripSlashes`, the value of `r.URL.Path`
when `next` is called: `path[:len(path)-1]` if
`len(path) > 1 && path[len(path)-1] == '/'`, else `path`. -/
def stripPath (path : Str) : Str :=
  if path.length > 1 ∧ path[path.length - 1]? = some '/' then path.take (path.length - 1)
  else path

/-- Source: `middleware/stripe.go`, `StripSlashes`: the returned function
literal sets `r.URL.Path` and calls `next.ServeHTTP(w, r)`. -/
def StripSlashes : Middleware :=
  wrap (fun next req t => next { req with path := stripPath req.path } t)

/-- Source: `router_test.go`, "a handler and middleware.StripSlashes":
`r := NewRouter(); r.Use(middleware.StripSlashes); r.Handle("/a", h("a"))`; the
root is router 0. -/
def stripHeap : Heap :=
  heapOf ((Use exampleEnv 0 [StripSlashes] (NewRouter Heap.empty).2).bind
    (Handle exampleEnv 0 "/a".toList (h "a")))

/-! ## Doubled separators -/

/-- The string contains two consecutive separators. -/
def hasDouble (s : Str) : Prop := ['/', '/'] <:+: s

instance (s : Str) : Decidable (hasDouble s) := by
  unfold hasDouble; infer_instance

/-- A run of `n` separators. -/
def slashes (n : Nat) : Str := List.replicate n '/'

/-! ## `Use`, with the heap at the end of the call -/

/-- Source: `router.go`, `Use`, with the heap as it is when the call ends: at
the return, or at the panic (then with the message of the panic). -/
def UseHeap (E : Env) (r : Nat) (middlewares : List Middleware) (w : Heap) :
    Heap × Option String :=
  match w.routers[r]? with
  | none => (w, some nilDeref)
  | some R =>
    if R.executedRouteOrHandle then (w, some usePanic)
    else if R.inGroupOrWith then
      ((w.append E R.handlerMiddlewares middlewares).2.setRouter r
        { R with handlerMiddlewares := (w.append E R.handlerMiddlewares middlewares).1 }, none)
    else
      ((w.append E R.subRouterMiddlewares middlewares).2.setRouter r
        { R with subRouterMiddlewares := (w.append E R.subRouterMiddlewares middlewares).1 },
       none)

/-! ## `Use` in one call and in two calls -/

/-- `r := NewRouter(); g := r.With(); g.Use(m("a"), m("b")); g.Use(m("c"))`:
the root is router 0, the clone `g` is router 1. -/
def useTwiceHeap : Heap :=
  heapOf ((With exampleEnv 0 [] (NewRouter Heap.empty).2).bind fun p =>
    (Use exampleEnv p.1 [m "a", m "b"] p.2).bind fun w =>
    Use exampleEnv p.1 [m "c"] w)

/-- `r := NewRouter(); g := r.With(); g.Use(m("a"), m("b"), m("c"))`: the root
is router 0, the clone `g` is router 1. -/
def useOnceHeap : Heap :=
  heapOf ((With exampleEnv 0 [] (NewRouter Heap.empty).2).bind fun p =>
    Use exampleEnv p.1 [m "a", m "b", m "c"] p.2)

/-- On a heap with a clone `g` at router 1: `c1 := g.With(m("x"));
c2 := g.With(m("y")); c1.Handle("/one", h("one"))`. -/
def withWithHandle (w : Heap) : Heap :=
  heapOf ((With exampleEnv 1 [m "x"] w).bind fun p1 =>
    (With exampleEnv 1 [m "y"] p1.2).bind fun p2 =>
    Handle exampleEnv p1.1 "/one".toList (h "one") p2.2)

/-! ## `Route`, with the heap at the end of the call -/

/-- The type `func(sub *Router)` with the heap as it is when the callback ends:
at its return, or at its panic (then with the message of the panic). -/
abbrev CallbackHeap := Nat → Heap → Heap × Option String

/-- The result of a call, from the heap at its end: the panic, or else the
heap. -/
def outcome (x : Heap × Option String) : Except String Heap :=
  match x.2 with
  | some e => .error e
  | none => .ok x.1

/-- The callback that `Route` and `Group` take, from a callback with the heap
kept at a panic. -/
def CallbackHeap.result (f : CallbackHeap) : Callback :=
  fun sub w => outcome (f sub w)

/-- Source: `router.go`, `Route`, with the heap as it is when the call ends: at
the return, or at the panic (then with the message of the panic). -/
def RouteHeap (E : Env) (r : Nat) (pattern : Str) (fn : Option CallbackHeap) (w : Heap) :
    Heap × Option String :=
  match fn with
  | none => (w, some (routePanic pattern))
  | some f =>
    match pattern.getLast? with
    | none => (w, some "runtime error: index out of range [-1]")
    | some c =>
      let pattern := addSlash c pattern
      match w.routers[r]? with
      | none => (w, some nilDeref)
      | some R =>
        let p := newRouter (joinPathAndPattern R.path pattern) w
        match f p.1 p.2 with
        | (w2, some e) => (w2, some e)
        | (w2, none) =>
          match w2.routers[r]?, w2.routers[p.1]? with
          | some R2, some S =>
            match muxHandle E w2 R2.serveMux S.path (Handler.router p.1) with
            | .error e => (w2, some e)
            | .ok w3 =>
              match w3.routers[r]? with
              | none => (w3, some nilDeref)
              | some R3 => (w3.setRouter r { R3 with executedRouteOrHandle := true }, none)
          | _, _ => (w2, some nilDeref)

/-! # Theorems -/

/-! ## Lemmas on `chain` -/

theorem chain_loop (ms : List Middleware) (h0 : Handler) :
    ∀ n, n ≤ ms.length →
      (List.range n).foldl
        (fun handler i =>
          match ms[ms.length - 1 - i]? with
          | some mw => mw handler
          | none => handler) h0
      = (ms.drop (ms.length - n)).foldr (fun mw acc => mw acc) h0 := by
  intro n
  induction n with
  | zero => intro _; simp
  | succ n ih =>
    intro hn
    have hlt : ms.length - 1 - n < ms.length := by omega
    have hidx : ms.length - (n + 1) = ms.length - 1 - n := by omega
    have hnext : ms.length - 1 - n + 1 = ms.length - n := by omega
    rw [List.range_succ, List.foldl_append, ih (by omega)]
    simp only [List.foldl_cons, List.foldl_nil]
    rw [List.getElem?_eq_getElem hlt, hidx, List.drop_eq_getElem_cons hlt, hnext]
    simp

theorem chain_eq_foldr (ms : List Middleware) (h0 : Handler) :
    chain ms h0 = ms.foldr (fun mw acc => mw acc) h0 := by
  unfold chain
  rw [chain_loop ms h0 ms.length (le_refl _)]
  simp

theorem chain_nil (h0 : Handler) : chain [] h0 = h0 := by
  simp [chain_eq_foldr]

theorem chain_cons (mw : Middleware) (rest : List Middleware) (h0 : Handler) :
    chain (mw :: rest) h0 = mw (chain rest h0) := by
  simp [chain_eq_foldr]

theorem chain_append (xs ys : List Middleware) (h0 : Handler) :
    chain (xs ++ ys) h0 = chain xs (chain ys h0) := by
  simp [chain_eq_foldr, List.foldr_append]

/-! ## Lemmas on serving -/

theorem ServeHTTP_func (E : Env) (w : Heap) (fuel : Nat) (f : Serve) :
    ServeHTTP E w fuel (Handler.func f) = f := by
  cases fuel <;> rfl

theorem ServeHTTP_closure (E : Env) (w : Heap) (fuel : Nat) (body : Serve → Serve)
    (next : Handler) :
    ServeHTTP E w fuel (Handler.closure body next) = body (ServeHTTP E w fuel next) := by
  cases fuel <;> rfl

theorem ServeHTTP_wrap (E : Env) (w : Heap) (fuel : Nat) (body : Serve → Serve)
    (next : Handler) :
    ServeHTTP E w fuel (wrap body next) = body (ServeHTTP E w fuel next) :=
  ServeHTTP_closure E w fuel body next

theorem ServeHTTP_router (E : Env) (w : Heap) (fuel : Nat) (r : Nat) (R : Router)
    (hr : w.routers[r]? = some R) :
    ServeHTTP E w (fuel + 1) (Handler.router r)
      = ServeHTTP E w fuel
          (chain (w.elems R.subRouterMiddlewares) (Handler.serveMux R.serveMux)) := by
  funext req t
  simp [ServeHTTP, serveWith, hr]

theorem ServeHTTP_serveMux (E : Env) (w : Heap) (fuel : Nat) (id : Nat) :
    ServeHTTP E w (fuel + 1) (Handler.serveMux id) = muxServe E w (ServeHTTP E w fuel) id := by
  rfl

/-- Serving through a chain of wrapping middlewares is the composition of
their bodies around the behaviour of the inner handler. -/
theorem ServeHTTP_chain_wrap (E : Env) (w : Heap) (fuel : Nat) (bodies : List (Serve → Serve))
    (h0 : Handler) :
    ServeHTTP E w fuel (chain (bodies.map wrap) h0)
      = bodies.foldr (fun b acc => b acc) (ServeHTTP E w fuel h0) := by
  induction bodies with
  | nil => simp [chain_nil]
  | cons b bs ih => simp [chain_cons, ServeHTTP_wrap, ih]

theorem ServeHTTP_chain_m (E : Env) (w : Heap) (fuel : Nat) (names : List String)
    (h0 : Handler) (req : Request) (t : List Event) :
    ServeHTTP E w fuel (chain (names.map m) h0) req t
      = (ServeHTTP E w fuel h0 req (t ++ enters names)).map (· ++ exits names) := by
  induction names generalizing t with
  | nil => simp [chain_nil, enters, exits]
  | cons n ns ih =>
    rw [List.map_cons, chain_cons]
    show ServeHTTP E w fuel (wrap _ _) req t = _
    rw [ServeHTTP_wrap, ih]
    have he : t ++ enters (n :: ns) = t ++ [Event.note (n ++ "1")] ++ enters ns := by
      simp [enters]
    have hx : exits (n :: ns) = exits ns ++ [Event.note (n ++ "2")] := by
      simp [exits]
    rw [he, hx]
    cases ServeHTTP E w fuel h0 req (t ++ [Event.note (n ++ "1")] ++ enters ns) with
    | none => rfl
    | some t1 => simp

/-! ## Slices in the heap -/

theorem elems_length (w : Heap) (s : Slice) (hs : w.ok s) : (w.elems s).length = s.len := by
  unfold Heap.elems
  rw [List.length_take]
  exact Nat.min_eq_left hs.2.1

theorem overwrite_take (a xs : List Middleware) (off : Nat) (hoff : off ≤ a.length) :
    (overwrite a off xs).take (off + xs.length) = a.take off ++ xs := by
  unfold overwrite
  have hl : (a.take off ++ xs).length = off + xs.length := by
    simp [List.length_take, Nat.min_eq_left hoff]
  rw [List.take_append_of_le_length (by omega), ← hl, List.take_length]

theorem overwrite_take_le (a xs : List Middleware) (off k : Nat) (hoff : off ≤ a.length)
    (hk : k ≤ off) : (overwrite a off xs).take k = a.take k := by
  unfold overwrite
  have hl : (a.take off).length = off := by simp [List.length_take, Nat.min_eq_left hoff]
  rw [List.append_assoc, List.take_append_of_le_length (by omega), List.take_take,
    Nat.min_eq_left hk]

theorem overwrite_nil (a : List Middleware) (off : Nat) : overwrite a off [] = a := by
  simp [overwrite]

theorem getD_set_self (l : List (List Middleware)) (i : Nat) (a : List Middleware)
    (hi : i < l.length) : (l.set i a).getD i [] = a := by
  simp [List.getD_eq_getElem?_getD, List.getElem?_set, hi]

theorem getD_set_other (l : List (List Middleware)) (i j : Nat) (a : List Middleware)
    (hij : i ≠ j) : (l.set i a).getD j [] = l.getD j [] := by
  simp [List.getD_eq_getElem?_getD, List.getElem?_set, hij]

theorem getD_append_left (l : List (List Middleware)) (j : Nat) (a : List Middleware)
    (hj : j < l.length) : (l ++ [a]).getD j [] = l.getD j [] := by
  simp [List.getD_eq_getElem?_getD, List.getElem?_append_left hj]

theorem getD_append_new (l : List (List Middleware)) (a : List Middleware) :
    (l ++ [a]).getD l.length [] = a := by
  simp [List.getD_eq_getElem?_getD]

/-- After `append`, the returned slice holds the old elements followed by the
new ones. -/
theorem append_elems (E : Env) (w : Heap) (s : Slice) (xs : List Middleware) (hs : w.ok s) :
    (w.append E s xs).2.elems (w.append E s xs).1 = w.elems s ++ xs := by
  unfold Heap.append
  split
  · rename_i hcap
    by_cases hx : xs = []
    · subst hx
      simp only [Heap.elems, overwrite_nil, List.length_nil, Nat.add_zero, List.append_nil]
      by_cases hi : s.arr < w.arrays.length
      · rw [getD_set_self _ _ _ hi]
      · have : w.arrays.set s.arr (w.arrays.getD s.arr []) = w.arrays :=
          List.set_eq_of_length_le (by omega)
        rw [this]
    · have hpos : 0 < s.cap := by
        have : 0 < xs.length := List.length_pos.mpr hx
        omega
      have hi := hs.2.2 hpos
      simp only [Heap.elems]
      rw [getD_set_self _ _ _ hi, overwrite_take _ _ _ hs.2.1]
  · simp only [Heap.elems]
    rw [getD_append_new]
    have : ((w.arrays.getD s.arr []).take s.len ++ xs).length = s.len + xs.length := by
      rw [List.length_append, List.length_take, Nat.min_eq_left hs.2.1]
    rw [← this, List.take_length]

/-- After `append` to `s`, a slice `s2` still holds the same elements when it
points to another array, when one of the two has no capacity, or when it is
not longer than `s`. -/
theorem append_elems_other (E : Env) (w : Heap) (s s2 : Slice) (xs : List Middleware)
    (hs : w.ok s) (hs2 : w.ok s2)
    (hsep : s2.arr ≠ s.arr ∨ s2.cap = 0 ∨ s.cap = 0 ∨ s2.len ≤ s.len) :
    (w.append E s xs).2.elems s2 = w.elems s2 := by
  by_cases hc2 : s2.cap = 0
  · have : s2.len = 0 := by have := hs2.1; omega
    simp [Heap.elems, this]
  have hi2 : s2.arr < w.arrays.length := hs2.2.2 (by omega)
  unfold Heap.append
  split
  · rename_i hcap
    simp only [Heap.elems]
    by_cases ha : s.arr = s2.arr
    · by_cases hc : s.cap = 0
      · have hx : xs = [] := by
          have : xs.length = 0 := by omega
          exact List.length_eq_zero.mp this
        subst hx
        rw [overwrite_nil, ← ha, getD_set_self _ _ _ (ha ▸ hi2)]
      · have hle : s2.len ≤ s.len := by
          rcases hsep with h1 | h1 | h1 | h1
          · exact absurd ha.symm h1
          · exact absurd h1 hc2
          · exact absurd h1 hc
          · exact h1
        rw [← ha, getD_set_self _ _ _ (ha ▸ hi2), overwrite_take_le _ _ _ _ hs.2.1 hle]
    · rw [getD_set_other _ _ _ _ ha]
  · simp only [Heap.elems]
    rw [getD_append_left _ _ _ hi2]

/-- A slice that is in order stays in order after an `append` to `s`. -/
theorem append_ok_other (E : Env) (w : Heap) (s s2 : Slice) (xs : List Middleware)
    (hs2 : w.ok s2) : (w.append E s xs).2.ok s2 := by
  refine ⟨hs2.1, ?_, ?_⟩
  · unfold Heap.append
    split
    · by_cases ha : s.arr = s2.arr
      · by_cases hi : s.arr < w.arrays.length
        · show s2.len ≤ ((w.arrays.set s.arr _).getD s2.arr []).length
          rw [← ha, getD_set_self _ _ _ hi]
          have h2 := hs2.2.1
          rw [← ha] at h2
          simp only [overwrite, List.length_append, List.length_take, List.length_drop]
          omega
        · show s2.len ≤ ((w.arrays.set s.arr _).getD s2.arr []).length
          rw [List.set_eq_of_length_le (by omega)]
          exact hs2.2.1
      · show s2.len ≤ ((w.arrays.set s.arr _).getD s2.arr []).length
        rw [getD_set_other _ _ _ _ ha]
        exact hs2.2.1
    · show s2.len ≤ ((w.arrays ++ [_]).getD s2.arr []).length
      by_cases hi2 : s2.arr < w.arrays.length
      · rw [getD_append_left _ _ _ hi2]
        exact hs2.2.1
      · have h2 := hs2.2.1
        have : w.arrays.getD s2.arr [] = [] := by
          simp [List.getD_eq_getElem?_getD, List.getElem?_eq_none (Nat.le_of_not_lt hi2)]
        rw [this] at h2
        simp at h2
        omega
  · intro hpos
    have := hs2.2.2 hpos
    unfold Heap.append
    split
    · simpa using this
    · simp only [List.length_append, List.length_singleton]
      omega

/-- The slice returned by `append` is in order. -/
theorem append_ok (E : Env) (w : Heap) (s : Slice) (xs : List Middleware) (hs : w.ok s) :
    (w.append E s xs).2.ok (w.append E s xs).1 := by
  unfold Heap.append
  split
  · rename_i hcap
    refine ⟨hcap, ?_, ?_⟩
    · show s.len + xs.length ≤ ((w.arrays.set s.arr _).getD s.arr []).length
      by_cases hi : s.arr < w.arrays.length
      · rw [getD_set_self _ _ _ hi]
        have h2 := hs.2.1
        simp only [overwrite, List.length_append, List.length_take, List.length_drop]
        omega
      · have hc : s.cap = 0 := by
          by_contra hne
          exact hi (hs.2.2 (by omega))
        omega
    · intro hpos
      show s.arr < (w.arrays.set s.arr _).length
      rw [List.length_set]
      exact hs.2.2 hpos
  · refine ⟨E.nextslicecap_ge _ _, ?_, ?_⟩
    · show s.len + xs.length ≤ ((w.arrays ++ [w.elems s ++ xs]).getD w.arrays.length []).length
      rw [getD_append_new, List.length_append, elems_length w s hs]
    · intro _
      show w.arrays.length < (w.arrays ++ [w.elems s ++ xs]).length
      simp

/-! ## Routers in the heap -/

theorem append_routers (E : Env) (w : Heap) (s : Slice) (xs : List Middleware) :
    (w.append E s xs).2.routers = w.routers := by
  unfold Heap.append; split <;> rfl

theorem append_muxes (E : Env) (w : Heap) (s : Slice) (xs : List Middleware) :
    (w.append E s xs).2.muxes = w.muxes := by
  unfold Heap.append; split <;> rfl

theorem setRouter_get (w : Heap) (r : Nat) (R : Router) (hr : r < w.routers.length) :
    (w.setRouter r R).routers[r]? = some R := by
  simp [Heap.setRouter, List.getElem?_set, hr]

theorem setRouter_get_other (w : Heap) (r r2 : Nat) (R : Router) (hne : r ≠ r2) :
    (w.setRouter r R).routers[r2]? = w.routers[r2]? := by
  simp [Heap.setRouter, List.getElem?_set, hne]

theorem lt_of_get {α : Type} (l : List α) (i : Nat) (a : α) (hi : l[i]? = some a) :
    i < l.length := by
  by_contra hge
  rw [List.getElem?_eq_none (Nat.le_of_not_lt hge)] at hi
  exact Option.noConfusion hi

theorem sep_symm_elems (E : Env) (w : Heap) (R : Router) (xs : List Middleware)
    (hok : w.okRouter R) :
    (w.append E R.handlerMiddlewares xs).2.elems R.subRouterMiddlewares
        = w.elems R.subRouterMiddlewares
    ∧ (w.append E R.subRouterMiddlewares xs).2.elems R.handlerMiddlewares
        = w.elems R.handlerMiddlewares := by
  obtain ⟨h1, h2, h3⟩ := hok
  constructor
  · apply append_elems_other E w _ _ xs h1 h2
    rcases h3 with h | h | h
    · exact Or.inl (fun e => h e.symm)
    · exact Or.inr (Or.inr (Or.inl h))
    · exact Or.inr (Or.inl h)
  · apply append_elems_other E w _ _ xs h2 h1
    rcases h3 with h | h | h
    · exact Or.inl h
    · exact Or.inr (Or.inl h)
    · exact Or.inr (Or.inr (Or.inl h))

/-- The slice returned by `append` to `s` points to the array of `s` or to a
newly allocated one, and without capacity in `s` and without new elements it
has no capacity either. -/
theorem append_arr (E : Env) (w : Heap) (s : Slice) (xs : List Middleware) :
    ((w.append E s xs).1.arr = s.arr ∧ (w.append E s xs).1.cap = s.cap)
      ∨ (w.append E s xs).1.arr = w.arrays.length := by
  unfold Heap.append
  split
  · exact Or.inl ⟨rfl, rfl⟩
  · exact Or.inr rfl

/-! ### `Use` -/

theorem Use_registered (E : Env) (w : Heap) (r : Nat) (R : Router) (mws : List Middleware)
    (hr : w.routers[r]? = some R) (hreg : R.executedRouteOrHandle = true) :
    Use E r mws w = .error usePanic := by
  simp [Use, hr, hreg]

theorem Use_clone (E : Env) (w : Heap) (r : Nat) (R : Router) (mws : List Middleware)
    (hr : w.routers[r]? = some R) (hreg : R.executedRouteOrHandle = false)
    (hc : R.inGroupOrWith = true) :
    Use E r mws w = .ok ((w.append E R.handlerMiddlewares mws).2.setRouter r
      { R with handlerMiddlewares := (w.append E R.handlerMiddlewares mws).1 }) := by
  simp [Use, hr, hreg, hc]

theorem Use_origin (E : Env) (w : Heap) (r : Nat) (R : Router) (mws : List Middleware)
    (hr : w.routers[r]? = some R) (hreg : R.executedRouteOrHandle = false)
    (hc : R.inGroupOrWith = false) :
    Use E r mws w = .ok ((w.append E R.subRouterMiddlewares mws).2.setRouter r
      { R with subRouterMiddlewares := (w.append E R.subRouterMiddlewares mws).1 }) := by
  simp [Use, hr, hreg, hc]

/-- What a successful `Use` does to the router it is called on. -/
theorem Use_spec (E : Env) (w w1 : Heap) (r : Nat) (R : Router) (mws : List Middleware)
    (hr : w.routers[r]? = some R) (hok : w.okRouter R) (hU : Use E r mws w = .ok w1) :
    ∃ R1, w1.routers[r]? = some R1 ∧ w1.okRouter R1 ∧ w1.muxes = w.muxes ∧
      R.executedRouteOrHandle = false ∧
      w1.view R1 =
        { path := R.path
          handlerMiddlewares :=
            if R.inGroupOrWith then w.elems R.handlerMiddlewares ++ mws
            else w.elems R.handlerMiddlewares
          subRouterMiddlewares :=
            if R.inGroupOrWith then w.elems R.subRouterMiddlewares
            else w.elems R.subRouterMiddlewares ++ mws
          serveMux := R.serveMux
          executedRouteOrHandle := R.executedRouteOrHandle
          inGroupOrWith := R.inGroupOrWith } ∧
      (R.inGroupOrWith = true → R1.subRouterMiddlewares = R.subRouterMiddlewares) ∧
      (R.inGroupOrWith = false → R1.handlerMiddlewares = R.handlerMiddlewares) := by
  have hlt := lt_of_get _ _ _ hr
  cases hreg : R.executedRouteOrHandle with
  | true => rw [Use_registered E w r R mws hr hreg] at hU; exact Except.noConfusion hU
  | false =>
    obtain ⟨h1, h2, h3⟩ := hok
    have hsep := sep_symm_elems E w R mws ⟨h1, h2, h3⟩
    cases hc : R.inGroupOrWith with
    | true =>
      rw [Use_clone E w r R mws hr hreg hc] at hU
      injection hU with hU
      subst hU
      refine ⟨_, setRouter_get _ _ _ (by rw [append_routers]; exact hlt), ?_, ?_, rfl, ?_, ?_, ?_⟩
      · refine ⟨append_ok E w _ mws h1, append_ok_other E w _ _ mws h2, ?_⟩
        rcases append_arr E w R.handlerMiddlewares mws with ⟨ha, hcap⟩ | ha
        · show (w.append E R.handlerMiddlewares mws).1.arr ≠ _ ∨
            (w.append E R.handlerMiddlewares mws).1.cap = 0 ∨ _
          rw [ha, hcap]; exact h3
        · by_cases hz : R.subRouterMiddlewares.cap = 0
          · exact Or.inr (Or.inr hz)
          · refine Or.inl ?_
            show (w.append E R.handlerMiddlewares mws).1.arr ≠ R.subRouterMiddlewares.arr
            rw [ha]
            have := h2.2.2 (by omega)
            omega
      · exact append_muxes E w _ mws
      · simp only [Heap.view, if_true, hreg, hc]
        have e1 := append_elems E w R.handlerMiddlewares mws h1
        have e2 := hsep.1
        simp only [Heap.elems, Heap.setRouter] at e1 e2 ⊢
        rw [e1, e2]
      · intro _; rfl
      · intro h; exact Bool.noConfusion h
    | false =>
      rw [Use_origin E w r R mws hr hreg hc] at hU
      injection hU with hU
      subst hU
      refine ⟨_, setRouter_get _ _ _ (by rw [append_routers]; exact hlt), ?_, ?_, rfl, ?_, ?_, ?_⟩
      · refine ⟨append_ok_other E w _ _ mws h1, append_ok E w _ mws h2, ?_⟩
        rcases append_arr E w R.subRouterMiddlewares mws with ⟨ha, hcap⟩ | ha
        · show _ ≠ (w.append E R.subRouterMiddlewares mws).1.arr ∨ _ ∨
            (w.append E R.subRouterMiddlewares mws).1.cap = 0
          rw [ha, hcap]; exact h3
        · by_cases hz : R.handlerMiddlewares.cap = 0
          · exact Or.inr (Or.inl hz)
          · refine Or.inl ?_
            show R.handlerMiddlewares.arr ≠ (w.append E R.subRouterMiddlewares mws).1.arr
            rw [ha]
            have := h1.2.2 (by omega)
            omega
      · exact append_muxes E w _ mws
      · simp only [Heap.view, hreg, hc]
        have e1 := append_elems E w R.subRouterMiddlewares mws h2
        have e2 := hsep.2
        simp only [Heap.elems, Heap.setRouter] at e1 e2 ⊢
        rw [e1, e2]
        simp
      · intro h; exact Bool.noConfusion h
      · intro _; rfl

/-! ### `With` -/

theorem cloneForWith_eq (w : Heap) (r : Nat) (R : Router) (hr : w.routers[r]? = some R) :
    cloneForWith r w
      = .ok (w.routers.length, { w with routers := w.routers ++ [cloneOf R] }) := by
  simp [cloneForWith, hr, cloneOf]

theorem With_eq (E : Env) (w : Heap) (r : Nat) (R : Router) (mws : List Middleware)
    (hr : w.routers[r]? = some R) :
    With E r mws w
      = .ok (w.routers.length,
          (({ w with routers := w.routers ++ [cloneOf R] } : Heap).append E
              R.handlerMiddlewares mws).2.setRouter w.routers.length
            { cloneOf R with
              handlerMiddlewares :=
                (({ w with routers := w.routers ++ [cloneOf R] } : Heap).append E
                  R.handlerMiddlewares mws).1 }) := by
  unfold With
  rw [cloneForWith_eq w r R hr]
  simp [cloneOf]

theorem ok_of_arrays (w w1 : Heap) (s : Slice) (ha : w1.arrays = w.arrays) (hs : w.ok s) :
    w1.ok s := by
  unfold Heap.ok at *
  rw [ha]; exact hs

theorem elems_of_arrays (w w1 : Heap) (s : Slice) (ha : w1.arrays = w.arrays) :
    w1.elems s = w.elems s := by
  unfold Heap.elems
  rw [ha]

/-- What `With` does: the clone it returns and the frame it leaves. -/
theorem With_spec (E : Env) (w : Heap) (r : Nat) (R : Router) (mws : List Middleware)
    (hr : w.routers[r]? = some R) (hok : w.okRouter R) :
    ∃ w1 Rc, With E r mws w = .ok (w.routers.length, w1) ∧
      w1.routers[w.routers.length]? = some Rc ∧
      w1.routers.length = w.routers.length + 1 ∧
      (∀ i, i < w.routers.length → w1.routers[i]? = w.routers[i]?) ∧
      w1.muxes = w.muxes ∧
      Rc.path = R.path ∧ Rc.serveMux = R.serveMux ∧
      Rc.subRouterMiddlewares = R.subRouterMiddlewares ∧
      Rc.executedRouteOrHandle = false ∧ Rc.inGroupOrWith = true ∧
      w1.elems Rc.handlerMiddlewares = w.elems R.handlerMiddlewares ++ mws ∧
      w1.elems R.handlerMiddlewares = w.elems R.handlerMiddlewares ∧
      w1.elems R.subRouterMiddlewares = w.elems R.subRouterMiddlewares ∧
      w1.okRouter Rc ∧ w1.okRouter R := by
  obtain ⟨h1, h2, h3⟩ := hok
  let w0 : Heap := { w with routers := w.routers ++ [cloneOf R] }
  have h1' : w0.ok R.handlerMiddlewares := ok_of_arrays w w0 _ rfl h1
  have h2' : w0.ok R.subRouterMiddlewares := ok_of_arrays w w0 _ rfl h2
  have hsep := sep_symm_elems E w0 R mws ⟨h1', h2', h3⟩
  refine ⟨_, { cloneOf R with handlerMiddlewares := (w0.append E R.handlerMiddlewares mws).1 },
    With_eq E w r R mws hr, ?_, ?_, ?_, ?_, rfl, rfl, rfl, rfl, rfl, ?_, ?_, ?_, ?_, ?_⟩
  · apply setRouter_get
    rw [append_routers]
    simp
  · simp [Heap.setRouter, append_routers]
  · intro i hi
    rw [setRouter_get_other _ _ _ _ (by omega), append_routers]
    simp [List.getElem?_append_left hi]
  · exact append_muxes E w0 _ mws
  · exact append_elems E w0 R.handlerMiddlewares mws h1'
  · exact append_elems_other E w0 _ _ mws h1' h1' (Or.inr (Or.inr (Or.inr (le_refl _))))
  · exact hsep.1
  · refine ⟨append_ok E w0 _ mws h1', append_ok_other E w0 _ _ mws h2', ?_⟩
    show (w0.append E R.handlerMiddlewares mws).1.arr ≠ R.subRouterMiddlewares.arr ∨
      (w0.append E R.handlerMiddlewares mws).1.cap = 0 ∨ R.subRouterMiddlewares.cap = 0
    rcases append_arr E w0 R.handlerMiddlewares mws with ⟨ha, hcap⟩ | ha
    · rw [ha, hcap]; exact h3
    · by_cases hz : R.subRouterMiddlewares.cap = 0
      · exact Or.inr (Or.inr hz)
      · refine Or.inl ?_
        rw [ha]
        have : R.subRouterMiddlewares.arr < w.arrays.length := h2.2.2 (by omega)
        show w.arrays.length ≠ _
        omega
  · exact ⟨append_ok_other E w0 _ _ mws h1', append_ok_other E w0 _ _ mws h2', h3⟩

/-! ### `Handle` -/

theorem muxHandle_ok (E : Env) (w w1 : Heap) (mux : Nat) (key : Str) (h0 : Handler)
    (hM : muxHandle E w mux key h0 = .ok w1) :
    ∃ es, w.muxes[mux]? = some es ∧ E.muxAccepts (es.map Prod.fst) key = true ∧
      w1 = w.setMux mux (es ++ [(key, h0)]) := by
  unfold muxHandle at hM
  cases hes : w.muxes[mux]? with
  | none => simp [hes] at hM
  | some es =>
    simp only [hes] at hM
    by_cases hacc : E.muxAccepts (es.map Prod.fst) key = true
    · simp only [hacc, if_true] at hM
      injection hM with hM
      exact ⟨es, rfl, hacc, hM.symm⟩
    · simp [hacc] at hM

theorem muxHandle_eq (E : Env) (w : Heap) (mux : Nat) (key : Str) (h0 : Handler) (es : Table)
    (hes : w.muxes[mux]? = some es) (hacc : E.muxAccepts (es.map Prod.fst) key = true) :
    muxHandle E w mux key h0
      = .ok (w.setMux mux (es ++ [(key, h0)])) := by
  simp [muxHandle, hes, hacc]

/-- What a successful `Handle` does. -/
theorem Handle_ok (E : Env) (w w1 : Heap) (r : Nat) (R : Router) (pattern : Str) (h0 : Handler)
    (hr : w.routers[r]? = some R) (hH : Handle E r pattern h0 w = .ok w1) :
    ∃ es, w.muxes[R.serveMux]? = some es ∧
      E.muxAccepts (es.map Prod.fst) (handleKey R.path pattern) = true ∧
      w1 = ((w.setMux R.serveMux
              (es ++ [(handleKey R.path pattern,
                chain (w.elems R.handlerMiddlewares) h0)])).setRouter r
            { R with executedRouteOrHandle := true }) := by
  unfold Handle at hH
  simp only [hr] at hH
  cases hM : muxHandle E w R.serveMux
      (joinMethodAndPath (methodAndPath pattern).1
        (joinPathAndPattern R.path (methodAndPath pattern).2))
      (chain (w.elems R.handlerMiddlewares) h0) with
  | error e => simp [hM] at hH
  | ok w2 =>
    obtain ⟨es, hes, hacc, hw2⟩ := muxHandle_ok E w w2 _ _ _ hM
    subst hw2
    have hrr : (w.setMux R.serveMux (es ++ [(handleKey R.path pattern,
        chain (w.elems R.handlerMiddlewares) h0)])).routers[r]? = some R := hr
    unfold handleKey at hrr
    simp only [hM, hrr] at hH
    injection hH with hH
    exact ⟨es, hes, hacc, hH.symm⟩

theorem Handle_eq (E : Env) (w : Heap) (r : Nat) (R : Router) (pattern : Str) (h0 : Handler)
    (es : Table) (hr : w.routers[r]? = some R) (hes : w.muxes[R.serveMux]? = some es)
    (hacc : E.muxAccepts (es.map Prod.fst) (handleKey R.path pattern) = true) :
    Handle E r pattern h0 w
      = .ok ((w.setMux R.serveMux
              (es ++ [(handleKey R.path pattern,
                chain (w.elems R.handlerMiddlewares) h0)])).setRouter r
            { R with executedRouteOrHandle := true }) := by
  unfold Handle
  simp only [hr]
  have := muxHandle_eq E w R.serveMux (handleKey R.path pattern)
    (chain (w.elems R.handlerMiddlewares) h0) es hes hacc
  have hrr : (w.setMux R.serveMux (es ++ [(handleKey R.path pattern,
      chain (w.elems R.handlerMiddlewares) h0)])).routers[r]? = some R := hr
  unfold handleKey at this hrr ⊢
  simp only [this, hrr]

/-- The effect of a successful `Handle` on the heap: one entry more in the
table of the router, the registered flag of the router set, nothing else. -/
theorem Handle_entry (E : Env) (w w1 : Heap) (r : Nat) (R : Router) (pattern : Str)
    (h0 : Handler) (hr : w.routers[r]? = some R) (hH : Handle E r pattern h0 w = .ok w1) :
    ∃ es, w.muxes[R.serveMux]? = some es ∧
      w1.muxes[R.serveMux]? = some (es ++ [(handleKey R.path pattern,
        chain (w.elems R.handlerMiddlewares) h0)]) ∧
      (∀ k, k ≠ R.serveMux → w1.muxes[k]? = w.muxes[k]?) ∧
      w1.arrays = w.arrays ∧
      w1.routers = w.routers.set r { R with executedRouteOrHandle := true } := by
  obtain ⟨es, hes, _, hw1⟩ := Handle_ok E w w1 r R pattern h0 hr hH
  subst hw1
  have hlt := lt_of_get _ _ _ hes
  refine ⟨es, hes, ?_, ?_, rfl, rfl⟩
  · simp [Heap.setRouter, Heap.setMux, List.getElem?_set, hlt]
  · intro k hk
    simp [Heap.setRouter, Heap.setMux, List.getElem?_set, Ne.symm hk]

/-! ### Tables only grow -/

theorem tableGrows_refl (w : Heap) : tableGrows w w :=
  fun _ es hes => ⟨[], by simpa using hes⟩

theorem tableGrows_of_eq (w w1 : Heap) (hm : w1.muxes = w.muxes) : tableGrows w w1 :=
  fun _ es hes => ⟨[], by rw [hm]; simpa using hes⟩

theorem tableGrows_trans (w w1 w2 : Heap) (h1 : tableGrows w w1) (h2 : tableGrows w1 w2) :
    tableGrows w w2 := by
  intro k es hes
  obtain ⟨x1, hx1⟩ := h1 k es hes
  obtain ⟨x2, hx2⟩ := h2 k _ hx1
  exact ⟨x1 ++ x2, by rw [hx2, List.append_assoc]⟩

theorem tableGrows_entry (w w1 : Heap) (hg : tableGrows w w1) (mux i : Nat)
    (e : Str × Handler) (he : w.entry mux i = some e) : w1.entry mux i = some e := by
  unfold Heap.entry at *
  cases hes : w.muxes[mux]? with
  | none => simp [hes] at he
  | some es =>
    simp only [hes] at he
    obtain ⟨extra, hx⟩ := hg mux es hes
    simp only [hx]
    have hi := lt_of_get _ _ _ he
    rw [List.getElem?_append_left hi]
    exact he

theorem tableGrows_setMux (w : Heap) (mux : Nat) (es : Table) (e : Str × Handler)
    (hes : w.muxes[mux]? = some es) : tableGrows w (w.setMux mux (es ++ [e])) := by
  intro k es2 hes2
  by_cases hk : mux = k
  · subst hk
    rw [hes] at hes2
    injection hes2 with hes2
    subst hes2
    exact ⟨[e], by simp [Heap.setMux, List.getElem?_set, lt_of_get _ _ _ hes]⟩
  · exact ⟨[], by simp [Heap.setMux, List.getElem?_set, hk, hes2]⟩

theorem tableGrows_newRouter (path : Str) (w : Heap) : tableGrows w (newRouter path w).2 := by
  intro k es hes
  refine ⟨[], ?_⟩
  have hlt := lt_of_get _ _ _ hes
  simp [newRouter, List.getElem?_append_left hlt, hes]

theorem Use_muxes (E : Env) (w w1 : Heap) (r : Nat) (mws : List Middleware)
    (hU : Use E r mws w = .ok w1) : w1.muxes = w.muxes := by
  unfold Use at hU
  cases hr : w.routers[r]? with
  | none => simp [hr] at hU
  | some R =>
    simp only [hr] at hU
    split at hU
    · exact Except.noConfusion hU
    · split at hU <;>
      · injection hU with hU
        subst hU
        exact append_muxes E w _ mws

theorem With_muxes (E : Env) (w w1 : Heap) (r c : Nat) (mws : List Middleware)
    (hW : With E r mws w = .ok (c, w1)) : w1.muxes = w.muxes := by
  cases hr : w.routers[r]? with
  | none => simp [With, cloneForWith, hr] at hW
  | some R =>
    rw [With_eq E w r R mws hr] at hW
    injection hW with hW
    injection hW with _ hW
    subst hW
    exact append_muxes E _ _ mws

theorem Handle_grows (E : Env) (w w1 : Heap) (r : Nat) (pattern : Str) (h0 : Handler)
    (hH : Handle E r pattern h0 w = .ok w1) : tableGrows w w1 := by
  cases hr : w.routers[r]? with
  | none => simp [Handle, hr] at hH
  | some R =>
    obtain ⟨es, hes, _, hw1⟩ := Handle_ok E w w1 r R pattern h0 hr hH
    subst hw1
    exact tableGrows_trans _ _ _ (tableGrows_setMux w R.serveMux es _ hes)
      (tableGrows_of_eq _ _ rfl)

theorem Group_grows (E : Env) (w w1 : Heap) (r : Nat) (fn : Option Callback)
    (hfn : ∀ f, fn = some f → f.grows) (hG : Group E r fn w = .ok w1) : tableGrows w w1 := by
  unfold Group at hG
  cases hW : With E r [] w with
  | error e => simp [hW] at hG
  | ok p =>
    obtain ⟨c, w0⟩ := p
    simp only [hW] at hG
    have hm := tableGrows_of_eq w w0 (With_muxes E w w0 r c [] hW)
    cases fn with
    | none =>
      injection hG with hG
      subst hG
      exact hm
    | some f => exact tableGrows_trans w w0 w1 hm (hfn f rfl c w0 w1 hG)

/-- What a successful `Route` did, step by step. -/
theorem Route_ok (E : Env) (w w4 : Heap) (r : Nat) (pattern : Str) (fn : Option Callback)
    (hR : Route E r pattern fn w = .ok w4) :
    ∃ f c R w2 R2 S es, fn = some f ∧ pattern.getLast? = some c ∧ w.routers[r]? = some R ∧
      f w.routers.length
        (newRouter (joinPathAndPattern R.path (addSlash c pattern)) w).2 = .ok w2 ∧
      w2.routers[r]? = some R2 ∧ w2.routers[w.routers.length]? = some S ∧
      w2.muxes[R2.serveMux]? = some es ∧ E.muxAccepts (es.map Prod.fst) S.path = true ∧
      w4 = (w2.setMux R2.serveMux (es ++ [(S.path, Handler.router w.routers.length)])).setRouter r
            { R2 with executedRouteOrHandle := true } := by
  unfold Route at hR
  cases fn with
  | none => exact Except.noConfusion hR
  | some f =>
    cases hc : pattern.getLast? with
    | none => simp [hc] at hR
    | some c =>
      cases hr : w.routers[r]? with
      | none => simp [hc, hr] at hR
      | some R =>
        simp only [hc, hr] at hR
        cases hf : f (newRouter (joinPathAndPattern R.path (addSlash c pattern)) w).1
            (newRouter (joinPathAndPattern R.path (addSlash c pattern)) w).2 with
        | error e => simp [hf] at hR
        | ok w2 =>
          simp only [hf] at hR
          have hid : (newRouter (joinPathAndPattern R.path (addSlash c pattern)) w).1
              = w.routers.length := rfl
          rw [hid] at hR hf
          cases hr2 : w2.routers[r]? with
          | none => simp [hr2] at hR
          | some R2 =>
            cases hs : w2.routers[w.routers.length]? with
            | none => simp [hr2, hs] at hR
            | some S =>
              simp only [hr2, hs] at hR
              cases hM : muxHandle E w2 R2.serveMux S.path (Handler.router w.routers.length) with
              | error e => simp [hM] at hR
              | ok w3 =>
                obtain ⟨es, hes, hacc, hw3⟩ := muxHandle_ok E w2 w3 _ _ _ hM
                subst hw3
                have hrr : (w2.setMux R2.serveMux
                    (es ++ [(S.path, Handler.router w.routers.length)])).routers[r]?
                    = some R2 := hr2
                simp only [hM, hrr] at hR
                injection hR with hR
                exact ⟨f, c, R, w2, R2, S, es, rfl, rfl, rfl, hf, hr2, hs, hes, hacc, hR.symm⟩

theorem Route_grows (E : Env) (w w1 : Heap) (r : Nat) (pattern : Str) (fn : Option Callback)
    (hfn : ∀ f, fn = some f → f.grows) (hR : Route E r pattern fn w = .ok w1) :
    tableGrows w w1 := by
  obtain ⟨f, c, R, w2, R2, S, es, hf, _, _, hcall, _, _, hes, _, hw1⟩ :=
    Route_ok E w w1 r pattern fn hR
  subst hw1
  refine tableGrows_trans _ _ _
    (tableGrows_newRouter (joinPathAndPattern R.path (addSlash c pattern)) w) ?_
  refine tableGrows_trans _ _ _ (hfn f hf _ _ _ hcall) ?_
  exact tableGrows_trans _ _ _ (tableGrows_setMux w2 R2.serveMux es _ hes)
    (tableGrows_of_eq _ _ rfl)

/-! ### Patterns without a method -/

theorem indexAny_none (chars : List Char) (s : Str) (hs : ∀ c ∈ s, c ∉ chars) :
    indexAny chars s = none := by
  induction s with
  | nil => rfl
  | cons c cs ih =>
    have hc : c ∉ chars := hs c (List.mem_cons_self c cs)
    have hcs : ∀ d ∈ cs, d ∉ chars := fun d hd => hs d (List.mem_cons_of_mem c hd)
    simp [indexAny, hc, ih hcs]

theorem methodAndPath_no_space (s : Str) (hs : ∀ c ∈ s, c ∉ spaceTab) :
    methodAndPath s = ([], s) := by
  simp [methodAndPath, indexAny_none spaceTab s hs]

/-! ### Frames -/

/-- A successful `Use` on `r` leaves every other router value as it is, and
every slice that the append cannot reach keeps its elements. -/
theorem Use_frame (E : Env) (w w1 : Heap) (r : Nat) (R : Router) (mws : List Middleware)
    (hr : w.routers[r]? = some R) (hU : Use E r mws w = .ok w1) :
    w1.routers.length = w.routers.length ∧
    (∀ i, i ≠ r → w1.routers[i]? = w.routers[i]?) ∧
    (∀ s2, w.ok s2 → w.ok (useTarget R) →
      (s2.arr ≠ (useTarget R).arr ∨ s2.cap = 0 ∨ (useTarget R).cap = 0 ∨
        s2.len ≤ (useTarget R).len) →
      w1.elems s2 = w.elems s2 ∧ w1.ok s2) := by
  cases hreg : R.executedRouteOrHandle with
  | true => rw [Use_registered E w r R mws hr hreg] at hU; exact Except.noConfusion hU
  | false =>
    cases hc : R.inGroupOrWith with
    | true =>
      rw [Use_clone E w r R mws hr hreg hc] at hU
      injection hU with hU
      subst hU
      refine ⟨by simp [Heap.setRouter, append_routers], ?_, ?_⟩
      · intro i hi
        rw [setRouter_get_other _ _ _ _ (Ne.symm hi), append_routers]
      · intro s2 hs2 hs hsep
        simp only [useTarget, hc, if_true] at hs hsep
        exact ⟨append_elems_other E w _ s2 mws hs hs2 hsep, append_ok_other E w _ s2 mws hs2⟩
    | false =>
      rw [Use_origin E w r R mws hr hreg hc] at hU
      injection hU with hU
      subst hU
      refine ⟨by simp [Heap.setRouter, append_routers], ?_, ?_⟩
      · intro i hi
        rw [setRouter_get_other _ _ _ _ (Ne.symm hi), append_routers]
      · intro s2 hs2 hs hsep
        simp only [useTarget, hc] at hs hsep
        exact ⟨append_elems_other E w _ s2 mws (by simpa using hs) hs2 (by simpa using hsep),
          append_ok_other E w _ s2 mws hs2⟩

/-- `With` on `r` leaves every slice that the append to the copy of
`r.handlerMiddlewares` cannot reach with its elements. -/
theorem With_frame (E : Env) (w w1 : Heap) (r c : Nat) (R : Router) (mws : List Middleware)
    (hr : w.routers[r]? = some R) (hW : With E r mws w = .ok (c, w1)) (s2 : Slice)
    (hs2 : w.ok s2) (hs : w.ok R.handlerMiddlewares)
    (hsep : s2.arr ≠ R.handlerMiddlewares.arr ∨ s2.cap = 0 ∨ R.handlerMiddlewares.cap = 0 ∨
      s2.len ≤ R.handlerMiddlewares.len) :
    w1.elems s2 = w.elems s2 ∧ w1.ok s2 := by
  rw [With_eq E w r R mws hr] at hW
  injection hW with hW
  injection hW with _ hW
  subst hW
  let w0 : Heap := { w with routers := w.routers ++ [cloneOf R] }
  have hs' : w0.ok R.handlerMiddlewares := ok_of_arrays w w0 _ rfl hs
  have hs2' : w0.ok s2 := ok_of_arrays w w0 _ rfl hs2
  exact ⟨append_elems_other E w0 _ s2 mws hs' hs2' hsep, append_ok_other E w0 _ s2 mws hs2'⟩

theorem nil_ok (w : Heap) : w.ok Slice.nil := by
  refine ⟨le_refl _, Nat.zero_le _, ?_⟩
  intro hpos
  exact absurd hpos (by decide)

theorem nil_elems (w : Heap) : w.elems Slice.nil = [] := by
  simp [Heap.elems, Slice.nil]

theorem freshRouter_ok (w : Heap) (path : Str) (mux : Nat) :
    w.okRouter (freshRouter path mux) :=
  ⟨nil_ok w, nil_ok w, Or.inr (Or.inl rfl)⟩

theorem newRouter_eq (path : Str) (w : Heap) :
    newRouter path w
      = (w.routers.length,
          { w with
            muxes := w.muxes ++ [[]]
            routers := w.routers ++ [freshRouter path w.muxes.length] }) := rfl

/-! ### A root, a `Route` child and a handler registered through `With` -/

theorem registerInChild_ok (E : Env) (C B : List Middleware) (pattern : Str) (h0 : Handler)
    (sub : Nat) (w w3 : Heap) (hf : registerInChild E C B pattern h0 sub w = .ok w3) :
    ∃ w1 c w2, Use E sub C w = .ok w1 ∧ With E sub B w1 = .ok (c, w2) ∧
      Handle E c pattern h0 w2 = .ok w3 := by
  unfold registerInChild at hf
  cases hU : Use E sub C w with
  | error e => simp [hU] at hf
  | ok w1 =>
    simp only [hU] at hf
    cases hW : With E sub B w1 with
    | error e => simp [hW] at hf
    | ok p =>
      obtain ⟨c, w2⟩ := p
      simp only [hW] at hf
      exact ⟨w1, c, w2, rfl, hW, hf⟩

theorem buildTree_ok (E : Env) (A C B : List Middleware) (rp hp : Str) (h0 : Handler)
    (w0 w : Heap) (root : Nat) (hB : buildTree E A C B rp hp h0 w0 = .ok (root, w)) :
    ∃ w1, root = w0.routers.length ∧
      Use E w0.routers.length A (NewRouter w0).2 = .ok w1 ∧
      Route E w0.routers.length rp (some (registerInChild E C B hp h0)) w1 = .ok w := by
  unfold buildTree at hB
  have hid : (NewRouter w0).1 = w0.routers.length := rfl
  rw [hid] at hB
  cases hU : Use E w0.routers.length A (NewRouter w0).2 with
  | error e => simp [hU] at hB
  | ok w1 =>
    simp only [hU] at hB
    cases hR : Route E w0.routers.length rp (some (registerInChild E C B hp h0)) w1 with
    | error e => simp [hR] at hB
    | ok w2 =>
      simp only [hR] at hB
      injection hB with hB
      injection hB with h1 h2
      subst h2
      exact ⟨w1, h1.symm, rfl, hR⟩

/-- What `Use` does to a router that `newRouter` has just allocated. -/
theorem Use_fresh (E : Env) (w w1 : Heap) (r : Nat) (path : Str) (mux : Nat)
    (mws : List Middleware) (hr : w.routers[r]? = some (freshRouter path mux))
    (hU : Use E r mws w = .ok w1) :
    ∃ R1, w1.routers[r]? = some R1 ∧ w1.okRouter R1 ∧ w1.muxes = w.muxes ∧
      w1.arrays.length ≥ w.arrays.length ∧
      R1.path = path ∧ R1.serveMux = mux ∧ R1.handlerMiddlewares = Slice.nil ∧
      w1.elems R1.subRouterMiddlewares = mws ∧
      w1.routers.length = w.routers.length ∧
      (∀ i, i ≠ r → w1.routers[i]? = w.routers[i]?) ∧
      (∀ s2, w.ok s2 → w1.elems s2 = w.elems s2 ∧ w1.ok s2) := by
  obtain ⟨R1, hr1, hok1, hm1, _, hv1, _, hh1⟩ :=
    Use_spec E w w1 r (freshRouter path mux) mws hr (freshRouter_ok w path mux) hU
  obtain ⟨hlen, hoth, hfr⟩ := Use_frame E w w1 r (freshRouter path mux) mws hr hU
  simp only [Heap.view, RouterView.mk.injEq, freshRouter, nil_elems] at hv1
  obtain ⟨e1, _, e3, e4, _, _⟩ := hv1
  refine ⟨R1, hr1, hok1, hm1, ?_, e1, e4, hh1 rfl, by simpa using e3, hlen, hoth, ?_⟩
  · have hreg : (freshRouter path mux).executedRouteOrHandle = false := rfl
    have hc : (freshRouter path mux).inGroupOrWith = false := rfl
    rw [Use_origin E w r _ mws hr hreg hc] at hU
    injection hU with hU
    subst hU
    show (w.append E _ mws).2.arrays.length ≥ w.arrays.length
    unfold Heap.append
    split <;> simp
  · intro s2 hs2
    exact hfr s2 hs2 (nil_ok w) (Or.inr (Or.inr (Or.inl rfl)))

/-- The heap `buildTree` leaves: the root holds `A` as subtree middlewares and
its table has the one entry for the child; the child is mounted at the joined
path, holds `C` as subtree middlewares, and its table has the one entry
`chain(B, h)`. -/
theorem buildTree_spec (E : Env) (A C B : List Middleware) (rp hp : Str) (h0 : Handler)
    (w0 w : Heap) (root : Nat) (hB : buildTree E A C B rp hp h0 w0 = .ok (root, w)) :
    ∃ c R S, rp.getLast? = some c ∧ root = w0.routers.length ∧
      w.routers[root]? = some R ∧ w.elems R.subRouterMiddlewares = A ∧
      R.serveMux = w0.muxes.length ∧
      w.muxes[w0.muxes.length]?
        = some [(joinPathAndPattern [] (addSlash c rp), Handler.router (root + 1))] ∧
      w.routers[root + 1]? = some S ∧ w.elems S.subRouterMiddlewares = C ∧
      S.serveMux = w0.muxes.length + 1 ∧
      w.muxes[w0.muxes.length + 1]?
        = some [(handleKey (joinPathAndPattern [] (addSlash c rp)) hp, chain B h0)] := by
  obtain ⟨w1, hroot, hU, hR⟩ := buildTree_ok E A C B rp hp h0 w0 w root hB
  subst hroot
  -- the root after `Use`
  have hrN : (NewRouter w0).2.routers[w0.routers.length]?
      = some (freshRouter [] w0.muxes.length) := by
    simp [NewRouter, newRouter_eq]
  obtain ⟨R1, hr1, hok1, hm1, _, hp1, hx1, _, hel1, hlen1, _, _⟩ :=
    Use_fresh E _ w1 _ [] _ A hrN hU
  have hlen1' : w1.routers.length = w0.routers.length + 1 := by
    rw [hlen1]; simp [NewRouter, newRouter_eq]
  have hmlen1 : w1.muxes.length = w0.muxes.length + 1 := by
    rw [hm1]; simp [NewRouter, newRouter_eq]
  -- `Route`
  obtain ⟨f, c, R, w2, R2, S, es, hf, hc, hr, hcall, hr2, hs, hes, _, hw⟩ :=
    Route_ok E w1 w _ rp _ hR
  injection hf with hf
  subst hf
  rw [hr1] at hr
  injection hr with hr
  subst hr
  rw [hp1] at hcall
  rw [hlen1'] at hcall hs
  -- the callback
  obtain ⟨wU, cl, wW, hUc, hWc, hHc⟩ := registerInChild_ok E C B hp h0 _ _ w2 hcall
  have hrC : (newRouter (joinPathAndPattern [] (addSlash c rp)) w1).2.routers[
      w0.routers.length + 1]?
      = some (freshRouter (joinPathAndPattern [] (addSlash c rp)) (w0.muxes.length + 1)) := by
    rw [newRouter_eq, hmlen1]
    simp [← hlen1']
  obtain ⟨S1, hrS1, hokS1, hmU, _, hpS1, hxS1, hhS1, helS1, hlenU, hothU, hfrU⟩ :=
    Use_fresh E _ wU _ _ _ C hrC hUc
  have hlenU' : wU.routers.length = w0.routers.length + 2 := by
    rw [hlenU, newRouter_eq]; simp [hlen1']
  have hr1U : wU.routers[w0.routers.length]? = some R1 := by
    rw [hothU _ (by omega), newRouter_eq]
    simp only []
    rw [List.getElem?_append_left (by omega)]
    exact hr1
  have hokC : (newRouter (joinPathAndPattern [] (addSlash c rp)) w1).2.ok
      R1.subRouterMiddlewares := ok_of_arrays w1 _ _ rfl hok1.2.1
  have helU : wU.elems R1.subRouterMiddlewares = A := by
    rw [(hfrU _ hokC).1]; exact hel1
  have hokU := (hfrU _ hokC).2
  -- the clone
  obtain ⟨w1', Rc, hWeq, hcl, _, hold, hmW, hpc, hxc, _, _, _, helc, _, helsrm, _, _⟩ :=
    With_spec E wU _ S1 B hrS1 hokS1
  rw [hWeq] at hWc
  injection hWc with hWc
  injection hWc with hcl' hWc
  subst hWc
  subst hcl'
  have hsepW : R1.subRouterMiddlewares.arr ≠ S1.handlerMiddlewares.arr ∨
      R1.subRouterMiddlewares.cap = 0 ∨ S1.handlerMiddlewares.cap = 0 ∨
      R1.subRouterMiddlewares.len ≤ S1.handlerMiddlewares.len := by
    rw [hhS1]; exact Or.inr (Or.inr (Or.inl rfl))
  have helW : w1'.elems R1.subRouterMiddlewares = A := by
    rw [(With_frame E wU w1' _ _ S1 B hrS1 hWeq _ hokU hokS1.1 hsepW).1]; exact helU
  -- `Handle` on the clone
  obtain ⟨es', hes', hent, hoth, harr, hrout⟩ := Handle_entry E w1' w2 _ Rc hp h0 hcl hHc
  have hmuxes : w1'.muxes = (w0.muxes ++ [[]]) ++ [[]] := by
    rw [hmW, hmU, newRouter_eq, hm1]; simp [NewRouter, newRouter_eq]
  rw [hxc, hxS1] at hes' hent hoth
  have hes'nil : es' = [] := by
    rw [hmuxes, List.getElem?_append_right (by simp)] at hes'
    simp at hes'
    exact hes'
  subst hes'nil
  have helcB : w1'.elems Rc.handlerMiddlewares = B := by
    rw [helc, hhS1, nil_elems]; rfl
  rw [helcB, hpc, hpS1] at hent
  -- back in `Route`
  have hr2' : w2.routers[w0.routers.length]? = some R1 := by
    rw [hrout, List.getElem?_set_ne (by omega), hold _ (by omega)]
    exact hr1U
  have hs' : w2.routers[w0.routers.length + 1]? = some S1 := by
    rw [hrout, List.getElem?_set_ne (by omega), hold _ (by omega)]
    exact hrS1
  rw [hr2'] at hr2
  injection hr2 with hr2
  subst hr2
  rw [hs'] at hs
  injection hs with hs
  subst hs
  rw [hx1] at hes
  have hesnil : es = [] := by
    rw [hoth _ (by omega), hmuxes, List.getElem?_append_left (by simp)] at hes
    simp at hes
    exact hes
  subst hesnil
  subst hw
  have hklt : w0.muxes.length < w2.muxes.length := lt_of_get _ _ _ hes
  refine ⟨c, _, S1, hc, rfl, setRouter_get _ _ _ (lt_of_get _ _ _ hr2'), ?_, hx1, ?_, ?_, ?_,
    hxS1, ?_⟩
  · show w2.elems R1.subRouterMiddlewares = A
    rw [elems_of_arrays w1' w2 _ harr]; exact helW
  · simp [Heap.setRouter, Heap.setMux, List.getElem?_set, hklt, hpS1, hx1, hlen1']
  · rw [setRouter_get_other _ _ _ _ (by omega)]; exact hs'
  · show w2.elems S1.subRouterMiddlewares = C
    rw [elems_of_arrays w1' w2 _ harr, helsrm]; exact helS1
  · simpa [Heap.setRouter, Heap.setMux, List.getElem?_set, hx1] using hent

/-! ### Middlewares that pass the request on -/

theorem ServeHTTP_chain_around (E : Env) (w : Heap) (fuel : Nat) (ps : List (Step × Step))
    (h0 : Handler) (req : Request) :
    ServeHTTP E w fuel (chain (ps.map around) h0) req
      = onion ps req (ServeHTTP E w fuel h0 req) := by
  induction ps with
  | nil => simp [chain_nil, onion]
  | cons p ps ih =>
    rw [List.map_cons, chain_cons]
    show ServeHTTP E w fuel (wrap _ _) req = _
    rw [ServeHTTP_wrap]
    funext t
    simp only [onion, List.foldr_cons]
    rw [ih]
    rfl

theorem m_eq_around (name : String) : m name = around (logSteps name) := by
  funext next
  show Handler.closure _ next = Handler.closure _ next
  congr 1
  funext nx req t
  simp only [logSteps, Option.some_bind]
  cases nx req (t ++ [Event.note (name ++ "1")]) <;> rfl

theorem map_m_eq (names : List String) : names.map m = (names.map logSteps).map around := by
  rw [List.map_map]
  apply List.map_congr_left
  intro n _
  exact m_eq_around n

theorem muxServe_entry (E : Env) (w : Heap) (k : Handler → Serve) (id i : Nat) (es : Table)
    (e : Str × Handler) (req : Request) (hes : w.muxes[id]? = some es)
    (hfind : E.muxFind (es.map Prod.fst) req = Outcome.entry i) (hi : es[i]? = some e) :
    muxServe E w k id req = k e.2 req := by
  funext t
  simp [muxServe, hes, hfind, hi]

/-- Serving through the tree of `buildTree`, when the root table selects the
child and the child table selects the handler, and the subtree middlewares
pass the request on: the behaviour is that of
`chain(A, chain(C, chain(B, h)))`. -/
theorem buildTree_serve (E : Env) (as cs : List (Step × Step)) (B : List Middleware)
    (rp hp : Str) (h0 : Handler) (w0 w : Heap) (root : Nat) (c : Char) (req : Request)
    (hB : buildTree E (as.map around) (cs.map around) B rp hp h0 w0 = .ok (root, w))
    (hc : rp.getLast? = some c)
    (hroot : E.muxFind [joinPathAndPattern [] (addSlash c rp)] req = Outcome.entry 0)
    (hchild : E.muxFind [handleKey (joinPathAndPattern [] (addSlash c rp)) hp] req
      = Outcome.entry 0) (fuel : Nat) :
    ServeHTTP E w (fuel + 4) (Handler.router root) req
      = ServeHTTP E w fuel
          (chain (as.map around) (chain (cs.map around) (chain B h0))) req := by
  obtain ⟨c', R, S, hc', _, hr, helR, hxR, hmR, hs, helS, hxS, hmS⟩ :=
    buildTree_spec E _ _ B rp hp h0 w0 w root hB
  rw [hc] at hc'
  injection hc' with hc'
  subst hc'
  rw [ServeHTTP_router E w (fuel + 3) root R hr, helR, ServeHTTP_chain_around,
    ServeHTTP_chain_around, ServeHTTP_chain_around, hxR, ServeHTTP_serveMux,
    muxServe_entry E w _ _ 0 _ _ req hmR (by simpa using hroot) rfl]
  show onion as req (ServeHTTP E w (fuel + 2) (Handler.router (root + 1)) req) = _
  rw [ServeHTTP_router E w (fuel + 1) (root + 1) S hs, helS, ServeHTTP_chain_around, hxS,
    ServeHTTP_serveMux, muxServe_entry E w _ _ 0 _ _ req hmS (by simpa using hchild) rfl]
  rfl

/-! ### The invariant of the heaps the operations build -/

theorem mem_of_get {α : Type} (l : List α) (i : Nat) (a : α) (hi : l[i]? = some a) :
    a ∈ l := by
  have hlt := lt_of_get l i a hi
  rw [List.getElem?_eq_getElem hlt] at hi
  injection hi with hi
  rw [← hi]
  exact List.getElem_mem hlt

theorem set_append_last {α : Type} (l : List α) (a b : α) :
    (l ++ [a]).set l.length b = l ++ [b] := by
  induction l with
  | nil => rfl
  | cons x xs ih => simp [ih]

theorem inv_okRouter (w : Heap) (hinv : w.inv) (r : Nat) (R : Router)
    (hr : w.routers[r]? = some R) : w.okRouter R := by
  have hmem := mem_of_get _ _ _ hr
  exact ⟨(hinv.1 R hmem).1, (hinv.1 R hmem).2, hinv.2 R hmem R hmem⟩

theorem inv_empty : Heap.empty.inv := by
  constructor
  · intro R hR; simp [Heap.empty] at hR
  · intro R hR; simp [Heap.empty] at hR

theorem inv_of_eq (w w1 : Heap) (hr : w1.routers = w.routers) (ha : w1.arrays = w.arrays)
    (hinv : w.inv) : w1.inv := by
  constructor
  · intro R hR
    rw [hr] at hR
    exact ⟨ok_of_arrays w w1 _ ha (hinv.1 R hR).1, ok_of_arrays w w1 _ ha (hinv.1 R hR).2⟩
  · intro R hR R2 hR2
    rw [hr] at hR hR2
    exact hinv.2 R hR R2 hR2

/-- The slice returned by `append` to `s` does not share a writable array with
a slice `s2` that did not share one with `s`. -/
theorem append_sep (E : Env) (w : Heap) (s s2 : Slice) (xs : List Middleware) (hs2 : w.ok s2)
    (hsep : s.arr ≠ s2.arr ∨ s.cap = 0 ∨ s2.cap = 0) :
    (w.append E s xs).1.arr ≠ s2.arr ∨ (w.append E s xs).1.cap = 0 ∨ s2.cap = 0 := by
  rcases append_arr E w s xs with ⟨ha, hcap⟩ | ha
  · rw [ha, hcap]; exact hsep
  · by_cases hz : s2.cap = 0
    · exact Or.inr (Or.inr hz)
    · refine Or.inl ?_
      rw [ha]
      have := hs2.2.2 (by omega)
      omega

/-- The invariant after one router value is stored or added whose
handler-scoped slice is the result of an `append` to that of a router `R` and
whose subtree-scoped slice is that of `R`. -/
theorem inv_step_hm (E : Env) (w w1 : Heap) (R R1 : Router) (mws : List Middleware)
    (hinv : w.inv) (hR : R ∈ w.routers)
    (ha : w1.arrays = (w.append E R.handlerMiddlewares mws).2.arrays)
    (h1 : R1.handlerMiddlewares = (w.append E R.handlerMiddlewares mws).1)
    (h2 : R1.subRouterMiddlewares = R.subRouterMiddlewares)
    (hsub : ∀ X ∈ w1.routers, X = R1 ∨ X ∈ w.routers) : w1.inv := by
  have hokR := hinv.1 R hR
  have hok1 : w1.ok R1.handlerMiddlewares ∧ w1.ok R1.subRouterMiddlewares := by
    rw [h1, h2]
    exact ⟨ok_of_arrays _ w1 _ ha (append_ok E w _ mws hokR.1),
      ok_of_arrays _ w1 _ ha (append_ok_other E w _ _ mws hokR.2)⟩
  have hsep1 : ∀ Y ∈ w.routers, R1.handlerMiddlewares.arr ≠ Y.subRouterMiddlewares.arr ∨
      R1.handlerMiddlewares.cap = 0 ∨ Y.subRouterMiddlewares.cap = 0 := by
    intro Y hY
    rw [h1]
    exact append_sep E w _ _ mws (hinv.1 Y hY).2 (hinv.2 R hR Y hY)
  constructor
  · intro X hX
    rcases hsub X hX with h | h
    · rw [h]; exact hok1
    · exact ⟨ok_of_arrays _ w1 _ ha (append_ok_other E w _ _ mws (hinv.1 X h).1),
        ok_of_arrays _ w1 _ ha (append_ok_other E w _ _ mws (hinv.1 X h).2)⟩
  · intro X hX Y hY
    rcases hsub X hX with hx | hx <;> rcases hsub Y hY with hy | hy
    · rw [hx, hy, h2]; exact hsep1 R hR
    · rw [hx]; exact hsep1 Y hy
    · rw [hy, h2]; exact hinv.2 X hx R hR
    · exact hinv.2 X hx Y hy

/-- The same for a router value whose subtree-scoped slice is the result of an
`append` to that of `R` and whose handler-scoped slice is that of `R`. -/
theorem inv_step_srm (E : Env) (w w1 : Heap) (R R1 : Router) (mws : List Middleware)
    (hinv : w.inv) (hR : R ∈ w.routers)
    (ha : w1.arrays = (w.append E R.subRouterMiddlewares mws).2.arrays)
    (h1 : R1.subRouterMiddlewares = (w.append E R.subRouterMiddlewares mws).1)
    (h2 : R1.handlerMiddlewares = R.handlerMiddlewares)
    (hsub : ∀ X ∈ w1.routers, X = R1 ∨ X ∈ w.routers) : w1.inv := by
  have hokR := hinv.1 R hR
  have hok1 : w1.ok R1.handlerMiddlewares ∧ w1.ok R1.subRouterMiddlewares := by
    rw [h1, h2]
    exact ⟨ok_of_arrays _ w1 _ ha (append_ok_other E w _ _ mws hokR.1),
      ok_of_arrays _ w1 _ ha (append_ok E w _ mws hokR.2)⟩
  have hsep1 : ∀ X ∈ w.routers, X.handlerMiddlewares.arr ≠ R1.subRouterMiddlewares.arr ∨
      X.handlerMiddlewares.cap = 0 ∨ R1.subRouterMiddlewares.cap = 0 := by
    intro X hX
    rw [h1]
    have hsym : R.subRouterMiddlewares.arr ≠ X.handlerMiddlewares.arr ∨
        R.subRouterMiddlewares.cap = 0 ∨ X.handlerMiddlewares.cap = 0 := by
      rcases hinv.2 X hX R hR with h | h | h
      · exact Or.inl (fun e => h e.symm)
      · exact Or.inr (Or.inr h)
      · exact Or.inr (Or.inl h)
    rcases append_sep E w _ _ mws (hinv.1 X hX).1 hsym with h | h | h
    · exact Or.inl (fun e => h e.symm)
    · exact Or.inr (Or.inr h)
    · exact Or.inr (Or.inl h)
  constructor
  · intro X hX
    rcases hsub X hX with h | h
    · rw [h]; exact hok1
    · exact ⟨ok_of_arrays _ w1 _ ha (append_ok_other E w _ _ mws (hinv.1 X h).1),
        ok_of_arrays _ w1 _ ha (append_ok_other E w _ _ mws (hinv.1 X h).2)⟩
  · intro X hX Y hY
    rcases hsub X hX with hx | hx <;> rcases hsub Y hY with hy | hy
    · rw [hx, hy, h2]; exact hsep1 R hR
    · rw [hx, h2]; exact hinv.2 R hR Y hy
    · rw [hy]; exact hsep1 X hx
    · exact hinv.2 X hx Y hy

theorem inv_newRouter (path : Str) (w : Heap) (hinv : w.inv) : (newRouter path w).2.inv := by
  rw [newRouter_eq]
  constructor
  · intro R hR
    simp only [List.mem_append, List.mem_singleton] at hR
    rcases hR with h | h
    · exact ⟨ok_of_arrays w _ _ rfl (hinv.1 R h).1, ok_of_arrays w _ _ rfl (hinv.1 R h).2⟩
    · rw [h]; exact ⟨nil_ok _, nil_ok _⟩
  · intro R hR R2 hR2
    simp only [List.mem_append, List.mem_singleton] at hR hR2
    rcases hR with h | h
    · rcases hR2 with h2 | h2
      · exact hinv.2 R h R2 h2
      · rw [h2]; exact Or.inr (Or.inr rfl)
    · rw [h]; exact Or.inr (Or.inl rfl)

theorem inv_Use (E : Env) (w w1 : Heap) (r : Nat) (mws : List Middleware) (hinv : w.inv)
    (hU : Use E r mws w = .ok w1) : w1.inv := by
  cases hr : w.routers[r]? with
  | none => simp [Use, hr] at hU
  | some R =>
    have hmem := mem_of_get _ _ _ hr
    cases hreg : R.executedRouteOrHandle with
    | true => rw [Use_registered E w r R mws hr hreg] at hU; exact Except.noConfusion hU
    | false =>
      cases hc : R.inGroupOrWith with
      | true =>
        rw [Use_clone E w r R mws hr hreg hc] at hU
        injection hU with hU
        subst hU
        refine inv_step_hm E w _ R
          { R with handlerMiddlewares := (w.append E R.handlerMiddlewares mws).1 } mws hinv hmem
          rfl rfl rfl ?_
        intro X hX
        rcases List.mem_or_eq_of_mem_set hX with h | h
        · right; rw [append_routers] at h; exact h
        · left; exact h
      | false =>
        rw [Use_origin E w r R mws hr hreg hc] at hU
        injection hU with hU
        subst hU
        refine inv_step_srm E w _ R
          { R with subRouterMiddlewares := (w.append E R.subRouterMiddlewares mws).1 } mws hinv
          hmem rfl rfl rfl ?_
        intro X hX
        rcases List.mem_or_eq_of_mem_set hX with h | h
        · right; rw [append_routers] at h; exact h
        · left; exact h

theorem inv_With (E : Env) (w w1 : Heap) (r c : Nat) (mws : List Middleware) (hinv : w.inv)
    (hW : With E r mws w = .ok (c, w1)) : w1.inv := by
  cases hr : w.routers[r]? with
  | none => simp [With, cloneForWith, hr] at hW
  | some R =>
    have hmem := mem_of_get _ _ _ hr
    rw [With_eq E w r R mws hr] at hW
    injection hW with hW
    injection hW with _ hW
    subst hW
    have happ : ({ w with routers := w.routers ++ [cloneOf R] } : Heap).append E
        R.handlerMiddlewares mws
        = ((w.append E R.handlerMiddlewares mws).1,
            { (w.append E R.handlerMiddlewares mws).2 with
              routers := w.routers ++ [cloneOf R] }) := by
      unfold Heap.append
      split <;> rfl
    rw [happ]
    refine inv_step_hm E w _ R
      { cloneOf R with handlerMiddlewares := (w.append E R.handlerMiddlewares mws).1 } mws hinv
      hmem rfl rfl rfl ?_
    intro X hX
    have hset : (w.routers ++ [cloneOf R]).set w.routers.length
        { cloneOf R with handlerMiddlewares := (w.append E R.handlerMiddlewares mws).1 }
        = w.routers ++ [{ cloneOf R with
            handlerMiddlewares := (w.append E R.handlerMiddlewares mws).1 }] :=
      set_append_last _ _ _
    simp only [Heap.setRouter] at hX
    rw [hset] at hX
    simp only [List.mem_append, List.mem_singleton] at hX
    rcases hX with h | h
    · exact Or.inr h
    · exact Or.inl h

theorem inv_Handle (E : Env) (w w1 : Heap) (r : Nat) (pattern : Str) (h0 : Handler)
    (hinv : w.inv) (hH : Handle E r pattern h0 w = .ok w1) : w1.inv := by
  cases hr : w.routers[r]? with
  | none => simp [Handle, hr] at hH
  | some R =>
    obtain ⟨es, _, _, _, harr, hrout⟩ := Handle_entry E w w1 r R pattern h0 hr hH
    have hmem := mem_of_get _ _ _ hr
    have hsub : ∀ X ∈ w1.routers, ∃ Y ∈ w.routers,
        X.handlerMiddlewares = Y.handlerMiddlewares ∧
        X.subRouterMiddlewares = Y.subRouterMiddlewares := by
      intro X hX
      rw [hrout] at hX
      rcases List.mem_or_eq_of_mem_set hX with h | h
      · exact ⟨X, h, rfl, rfl⟩
      · exact ⟨R, hmem, by rw [h], by rw [h]⟩
    constructor
    · intro X hX
      obtain ⟨Y, hY, e1, e2⟩ := hsub X hX
      rw [e1, e2]
      exact ⟨ok_of_arrays w w1 _ harr (hinv.1 Y hY).1, ok_of_arrays w w1 _ harr (hinv.1 Y hY).2⟩
    · intro X hX X2 hX2
      obtain ⟨Y, hY, e1, _⟩ := hsub X hX
      obtain ⟨Y2, hY2, _, e2⟩ := hsub X2 hX2
      rw [e1, e2]
      exact hinv.2 Y hY Y2 hY2

theorem inv_Group (E : Env) (w w1 : Heap) (r : Nat) (fn : Option Callback) (hinv : w.inv)
    (hfn : ∀ f, fn = some f → f.keepsInv) (hG : Group E r fn w = .ok w1) : w1.inv := by
  unfold Group at hG
  cases hW : With E r [] w with
  | error e => simp [hW] at hG
  | ok p =>
    obtain ⟨c, w0⟩ := p
    simp only [hW] at hG
    have h0 := inv_With E w w0 r c [] hinv hW
    cases fn with
    | none =>
      injection hG with hG
      subst hG
      exact h0
    | some f => exact hfn f rfl c w0 w1 h0 hG

theorem inv_Route (E : Env) (w w1 : Heap) (r : Nat) (pattern : Str) (fn : Option Callback)
    (hinv : w.inv) (hfn : ∀ f, fn = some f → f.keepsInv)
    (hR : Route E r pattern fn w = .ok w1) : w1.inv := by
  obtain ⟨f, c, R, w2, R2, S, es, hf, _, _, hcall, hr2, _, _, _, hw1⟩ :=
    Route_ok E w w1 r pattern fn hR
  subst hw1
  have h2 : w2.inv := hfn f hf _ _ w2 (inv_newRouter _ w hinv) hcall
  have hmem := mem_of_get _ _ _ hr2
  have hsub : ∀ X ∈ ((w2.setMux R2.serveMux
      (es ++ [(S.path, Handler.router w.routers.length)])).setRouter r
        { R2 with executedRouteOrHandle := true }).routers, ∃ Y ∈ w2.routers,
        X.handlerMiddlewares = Y.handlerMiddlewares ∧
        X.subRouterMiddlewares = Y.subRouterMiddlewares := by
    intro X hX
    rcases List.mem_or_eq_of_mem_set hX with h | h
    · exact ⟨X, h, rfl, rfl⟩
    · exact ⟨R2, hmem, by rw [h], by rw [h]⟩
  constructor
  · intro X hX
    obtain ⟨Y, hY, e1, e2⟩ := hsub X hX
    rw [e1, e2]
    exact ⟨ok_of_arrays w2 _ _ rfl (h2.1 Y hY).1, ok_of_arrays w2 _ _ rfl (h2.1 Y hY).2⟩
  · intro X hX X2 hX2
    obtain ⟨Y, hY, e1, _⟩ := hsub X hX
    obtain ⟨Y2, hY2, _, e2⟩ := hsub X2 hX2
    rw [e1, e2]
    exact h2.2 Y hY Y2 hY2

/-! ## The claims -/

/-- C1: `chain(ms, h)` is the right fold of application over `ms`:
`chain([], h) = h`, `chain(m :: rest, h) = m(chain(rest, h))`, and
`chain([m1, m2, m3], h) = m1(m2(m3(h)))`, the first middleware outermost. -/
theorem C1_chain_right_fold (ms : List Middleware) (h0 : Handler) :
    chain ms h0 = ms.foldr (fun mw acc => mw acc) h0 ∧
    chain [] h0 = h0 ∧
    (∀ mw rest, chain (mw :: rest) h0 = mw (chain rest h0)) ∧
    (∀ m1 m2 m3 : Middleware, chain [m1, m2, m3] h0 = m1 (m2 (m3 h0))) := by
  refine ⟨chain_eq_foldr ms h0, chain_nil h0, fun mw rest => chain_cons mw rest h0, ?_⟩
  intro m1 m2 m3
  simp [chain_eq_foldr]

/-- C2: serving one request with `chain([m(n1), ..., m(nk)], h)` records the
enters `n1 .. nk` in registration order, then what `h` records, then the exits
`nk .. n1` in reverse order; with the test handler `h(name)` the call returns
with exactly these records. -/
theorem C2_logging_chain_order (E : Env) (w : Heap) (fuel : Nat) (names : List String)
    (h0 : Handler) (req : Request) (t : List Event) :
    ServeHTTP E w fuel (chain (names.map m) h0) req t
      = (ServeHTTP E w fuel h0 req (t ++ enters names)).map (· ++ exits names) ∧
    (∀ name, ServeHTTP E w fuel (chain (names.map m) (h name)) req t
      = some (t ++ enters names ++ [Event.note (name ++ "h")] ++ exits names)) := by
  refine ⟨ServeHTTP_chain_m E w fuel names h0 req t, ?_⟩
  intro name
  rw [ServeHTTP_chain_m, h, ServeHTTP_func]
  rfl

/-- C3: `ServeHTTP` of a router is `chain(r.subRouterMiddlewares, table)`:
the subtree middlewares run around the dispatch of the table in registration
order whatever the table answers; with the logging middlewares `m(n1..nk)`
the record is the enters, the outcome of the table, the exits in reverse, also
when the table finds no pattern and replies with a status itself. -/
theorem C3_ServeHTTP_wraps_table (E : Env) (w : Heap) (r : Nat) (R : Router)
    (hr : w.routers[r]? = some R) :
    (∀ fuel, ServeHTTP E w (fuel + 1) (Handler.router r)
      = ServeHTTP E w fuel
          (chain (w.elems R.subRouterMiddlewares) (Handler.serveMux R.serveMux))) ∧
    (∀ names, w.elems R.subRouterMiddlewares = names.map m → ∀ fuel req t,
      ServeHTTP E w (fuel + 2) (Handler.router r) req t
        = (muxServe E w (ServeHTTP E w fuel) R.serveMux req (t ++ enters names)).map
            (· ++ exits names)) ∧
    (∀ names es code req, w.elems R.subRouterMiddlewares = names.map m →
      w.muxes[R.serveMux]? = some es → E.muxFind (es.map Prod.fst) req = Outcome.reply code →
      ∀ fuel t, ServeHTTP E w (fuel + 2) (Handler.router r) req t
        = some (t ++ enters names ++ [Event.status code] ++ exits names)) := by
  have hserve : ∀ names, w.elems R.subRouterMiddlewares = names.map m → ∀ fuel req t,
      ServeHTTP E w (fuel + 2) (Handler.router r) req t
        = (muxServe E w (ServeHTTP E w fuel) R.serveMux req (t ++ enters names)).map
            (· ++ exits names) := by
    intro names hn fuel req t
    rw [ServeHTTP_router E w (fuel + 1) r R hr, hn, ServeHTTP_chain_m, ServeHTTP_serveMux]
  refine ⟨fun fuel => ServeHTTP_router E w fuel r R hr, hserve, ?_⟩
  intro names es code req hn hes hfind fuel t
  rw [hserve names hn]
  simp [muxServe, hes, hfind]

/-- C3, on the test "root handler with / not found": the request for `/a/b`
matches no pattern, and the record is `a1`, the 404 of the table, `a2`. -/
theorem C3_ServeHTTP_wraps_table_witness :
    ServeHTTP exampleEnv notFoundHeap 2 (Handler.router 0) (get "/a/b") []
      = some [Event.note "a1", Event.status 404, Event.note "a2"] :=
  (C3_ServeHTTP_wraps_table exampleEnv notFoundHeap 0
    { path := [], handlerMiddlewares := Slice.nil,
      subRouterMiddlewares := { arr := 0, len := 1, cap := 1 }, serveMux := 0,
      executedRouteOrHandle := true, inGroupOrWith := false } rfl).2.2
    ["a"] [("/a/{$}".toList, h "a")] 404 (get "/a/b") rfl rfl rfl 0 []

/-! ## `Use` in two calls and in one call, evaluated -/

theorem useTwice_slice :
    useTwiceHeap.routers[1]?.map Router.handlerMiddlewares
      = some { arr := 1, len := 3, cap := 4 } := by
  rfl

theorem useOnce_slice :
    useOnceHeap.routers[1]?.map Router.handlerMiddlewares
      = some { arr := 0, len := 3, cap := 3 } := by
  rfl

theorem useTwice_names :
    handlerNames useTwiceHeap 1
      = some [Event.note "a1", Event.note "b1", Event.note "c1"] := by
  rfl

theorem useOnce_names :
    handlerNames useOnceHeap 1
      = some [Event.note "a1", Event.note "b1", Event.note "c1"] := by
  rfl

theorem useTwice_serve :
    ServeHTTP exampleEnv (withWithHandle useTwiceHeap) 2 (Handler.router 0) (get "/one") []
      = some [Event.note "a1", Event.note "b1", Event.note "c1", Event.note "y1",
          Event.note "oneh",
          Event.note "y2", Event.note "c2", Event.note "b2", Event.note "a2"] := by
  rfl

theorem useOnce_serve :
    ServeHTTP exampleEnv (withWithHandle useOnceHeap) 2 (Handler.router 0) (get "/one") []
      = some [Event.note "a1", Event.note "b1", Event.note "c1", Event.note "x1",
          Event.note "oneh",
          Event.note "x2", Event.note "c2", Event.note "b2", Event.note "a2"] := by
  decide

/-- C7 (what the code does): a successful `Use(mws...)` on a scoped clone
appends `mws`, in order, to `handlerMiddlewares` and leaves
`subRouterMiddlewares` as it was; on any other router it appends to
`subRouterMiddlewares` and leaves `handlerMiddlewares`; the path, the table and
both flags are unchanged.  `Use(a)` followed by `Use(b)` gives the same lists,
path, flags and tables as `Use(a, b)`, but not the same state: on a clone `g`,
`g.Use(m("a"), m("b")); g.Use(m("c"))` leaves a slice of capacity 4 and
`g.Use(m("a"), m("b"), m("c"))` one of capacity 3, both holding `a, b, c`, and
after `c1 := g.With(m("x")); c2 := g.With(m("y")); c1.Handle("/one", h("one"))`
the handler registered through `c1` is wrapped by `y` in the first case and by
`x` in the second. -/
theorem C7_Use_appends (E : Env) (w w1 : Heap) (r : Nat) (R : Router) (mws : List Middleware)
    (hr : w.routers[r]? = some R) (hok : w.okRouter R) (hU : Use E r mws w = .ok w1) :
    (∃ R1, w1.routers[r]? = some R1 ∧
      R1.path = R.path ∧ R1.serveMux = R.serveMux ∧ w1.muxes = w.muxes ∧
      R1.executedRouteOrHandle = R.executedRouteOrHandle ∧
      R1.inGroupOrWith = R.inGroupOrWith ∧
      (R.inGroupOrWith = true →
        w1.elems R1.handlerMiddlewares = w.elems R.handlerMiddlewares ++ mws ∧
        R1.subRouterMiddlewares = R.subRouterMiddlewares ∧
        w1.elems R1.subRouterMiddlewares = w.elems R.subRouterMiddlewares) ∧
      (R.inGroupOrWith = false →
        w1.elems R1.subRouterMiddlewares = w.elems R.subRouterMiddlewares ++ mws ∧
        R1.handlerMiddlewares = R.handlerMiddlewares ∧
        w1.elems R1.handlerMiddlewares = w.elems R.handlerMiddlewares)) ∧
    (∀ a b, mws = a ++ b → ∃ wa wab Ra Rab R1,
      Use E r a w = .ok wa ∧ wa.routers[r]? = some Ra ∧
      Use E r b wa = .ok wab ∧ wab.routers[r]? = some Rab ∧
      w1.routers[r]? = some R1 ∧
      wab.view Rab = w1.view R1 ∧ wab.muxes = w1.muxes) ∧
    useTwiceHeap.routers[1]?.map Router.handlerMiddlewares
      = some { arr := 1, len := 3, cap := 4 } ∧
    useOnceHeap.routers[1]?.map Router.handlerMiddlewares
      = some { arr := 0, len := 3, cap := 3 } ∧
    handlerNames useTwiceHeap 1
      = some [Event.note "a1", Event.note "b1", Event.note "c1"] ∧
    handlerNames useOnceHeap 1
      = some [Event.note "a1", Event.note "b1", Event.note "c1"] ∧
    ServeHTTP exampleEnv (withWithHandle useTwiceHeap) 2 (Handler.router 0) (get "/one") []
      = some [Event.note "a1", Event.note "b1", Event.note "c1", Event.note "y1",
          Event.note "oneh",
          Event.note "y2", Event.note "c2", Event.note "b2", Event.note "a2"] ∧
    ServeHTTP exampleEnv (withWithHandle useOnceHeap) 2 (Handler.router 0) (get "/one") []
      = some [Event.note "a1", Event.note "b1", Event.note "c1", Event.note "x1",
          Event.note "oneh",
          Event.note "x2", Event.note "c2", Event.note "b2", Event.note "a2"] := by
  obtain ⟨R1, hr1, _, hm1, hreg, hv1, hs1, hh1⟩ := Use_spec E w w1 r R mws hr hok hU
  have hv1' := hv1
  simp only [Heap.view, RouterView.mk.injEq] at hv1
  obtain ⟨e1, e2, e3, e4, e5, e6⟩ := hv1
  refine ⟨?_, ?_, useTwice_slice, useOnce_slice, useTwice_names, useOnce_names,
    useTwice_serve, useOnce_serve⟩
  · refine ⟨R1, hr1, e1, e4, hm1, e5, e6, ?_, ?_⟩
    · intro hc
      simp only [hc, if_true] at e2 e3
      exact ⟨e2, hs1 hc, e3⟩
    · intro hc
      simp only [hc] at e2 e3
      exact ⟨e3, hh1 hc, by simpa using e2⟩
  · intro a b hab
    subst hab
    have hUa : ∃ wa, Use E r a w = .ok wa := by
      cases hc : R.inGroupOrWith with
      | true => exact ⟨_, Use_clone E w r R a hr hreg hc⟩
      | false => exact ⟨_, Use_origin E w r R a hr hreg hc⟩
    obtain ⟨wa, hUa⟩ := hUa
    obtain ⟨Ra, hra, hoka, hma, _, hva, _, _⟩ := Use_spec E w wa r R a hr hok hUa
    have hva' := hva
    simp only [Heap.view, RouterView.mk.injEq] at hva'
    obtain ⟨a1, a2, a3, a4, a5, a6⟩ := hva'
    have hrega : Ra.executedRouteOrHandle = false := by rw [a5]; exact hreg
    have hUb : ∃ wab, Use E r b wa = .ok wab := by
      cases hc : Ra.inGroupOrWith with
      | true => exact ⟨_, Use_clone E wa r Ra b hra hrega hc⟩
      | false => exact ⟨_, Use_origin E wa r Ra b hra hrega hc⟩
    obtain ⟨wab, hUb⟩ := hUb
    obtain ⟨Rab, hrab, _, hmab, _, hvab, _, _⟩ := Use_spec E wa wab r Ra b hra hoka hUb
    refine ⟨wa, wab, Ra, Rab, R1, hUa, hra, hUb, hrab, hr1, ?_, ?_⟩
    · rw [hvab, hv1', a1, a2, a3, a4, a5, a6]
      cases R.inGroupOrWith <;> simp
    · rw [hmab, hma, hm1]

/-- C7, on the clone of `r := NewRouter(); c := r.With(m("a"))`:
`c.Use(m("b"), m("c"))` succeeds and the clone then holds `a, b, c`. -/
theorem C7_Use_appends_witness :
    ∃ R1, (heapOf (Use exampleEnv 1 [m "b", m "c"] cloneHeap)).routers[1]? = some R1 ∧
      (heapOf (Use exampleEnv 1 [m "b", m "c"] cloneHeap)).elems R1.handlerMiddlewares
        = [m "a"] ++ [m "b", m "c"] :=
  have hspec := (C7_Use_appends exampleEnv cloneHeap
    (heapOf (Use exampleEnv 1 [m "b", m "c"] cloneHeap)) 1
    { path := [], handlerMiddlewares := { arr := 0, len := 1, cap := 1 },
      subRouterMiddlewares := Slice.nil, serveMux := 0,
      executedRouteOrHandle := false, inGroupOrWith := true }
    [m "b", m "c"] rfl (by decide) rfl).1
  match hspec with
  | ⟨R1, hget, _, _, _, _, _, hclone, _⟩ => ⟨R1, hget, (hclone rfl).1⟩

/-- C8 (as the code has it): `Use` on a router fails if and only if `Route` or
`Handle` has already been executed on that router value, whether or not it is
a scoped clone; on a scoped clone on which neither has been executed it
succeeds and appends to the clone's `handlerMiddlewares`. -/
theorem C8_Use_fails_iff_registered (E : Env) (w : Heap) (r : Nat) (R : Router)
    (mws : List Middleware) (hr : w.routers[r]? = some R) (hok : w.okRouter R) :
    ((∃ e, Use E r mws w = .error e) ↔ R.executedRouteOrHandle = true) ∧
    (R.executedRouteOrHandle = true → Use E r mws w = .error usePanic) ∧
    (R.executedRouteOrHandle = false → R.inGroupOrWith = true →
      ∃ w1 R1, Use E r mws w = .ok w1 ∧ w1.routers[r]? = some R1 ∧
        w1.elems R1.handlerMiddlewares = w.elems R.handlerMiddlewares ++ mws) := by
  refine ⟨?_, Use_registered E w r R mws hr, ?_⟩
  · constructor
    · rintro ⟨e, he⟩
      cases hreg : R.executedRouteOrHandle with
      | true => rfl
      | false =>
        cases hc : R.inGroupOrWith with
        | true => rw [Use_clone E w r R mws hr hreg hc] at he; exact Except.noConfusion he
        | false => rw [Use_origin E w r R mws hr hreg hc] at he; exact Except.noConfusion he
    · intro hreg
      exact ⟨usePanic, Use_registered E w r R mws hr hreg⟩
  · intro hreg hc
    have hU := Use_clone E w r R mws hr hreg hc
    obtain ⟨R1, hr1, _, _, _, hv, _, _⟩ := Use_spec E w _ r R mws hr hok hU
    simp only [Heap.view, RouterView.mk.injEq, hc, if_true] at hv
    exact ⟨_, R1, hU, hr1, hv.2.1⟩

/-- C8, on the clone of `r := NewRouter(); c := r.With(); c.Handle("/a", h("a"))`:
`Handle` has been executed on the clone, and `c.Use(m("b"))` panics. -/
theorem C8_Use_fails_iff_registered_witness :
    Use exampleEnv 1 [m "b"] cloneAfterHandle = .error usePanic :=
  (C8_Use_fails_iff_registered exampleEnv cloneAfterHandle 1
    { path := [], handlerMiddlewares := Slice.nil, subRouterMiddlewares := Slice.nil,
      serveMux := 0, executedRouteOrHandle := true, inGroupOrWith := true }
    [m "b"] rfl (by decide)).2.1 rfl

/-- C8 as stated fails: after `r := NewRouter(); c := r.With();
c.Handle("/a", h("a"))` the clone `c` is a scoped clone on which `Handle` has
been executed, and `c.Use(m("b"))` panics; so failing is not equivalent to
"registered and not a scoped clone", and `Use` on a scoped clone after
`Handle` on that clone does not succeed. -/
theorem C8_counterexample :
    cloneAfterHandle.routers[1]? = some registeredClone ∧
    registeredClone.inGroupOrWith = true ∧
    registeredClone.executedRouteOrHandle = true ∧
    Use exampleEnv 1 [m "b"] cloneAfterHandle = .error usePanic ∧
    ¬ ((∃ e, Use exampleEnv 1 [m "b"] cloneAfterHandle = .error e) ↔
        (registeredClone.executedRouteOrHandle = true ∧
          registeredClone.inGroupOrWith = false)) := by
  refine ⟨rfl, rfl, rfl, rfl, ?_⟩
  intro hiff
  have := hiff.mp ⟨usePanic, rfl⟩
  exact Bool.noConfusion this.2

/-- C9: `With(mws...)` returns a new router with the path, the table and the
`subRouterMiddlewares` of `r`, whose `handlerMiddlewares` is that of `r`
followed by `mws`, with registered = false and scoped clone = true; every
field of `r` and every table is unchanged, so a handler registered on `r`
afterwards is wrapped by the middlewares `r` had, not by `mws`. -/
theorem C9_With_returns_clone (E : Env) (w : Heap) (r : Nat) (R : Router)
    (mws : List Middleware) (hr : w.routers[r]? = some R) (hok : w.okRouter R) :
    ∃ c w1 Rc, With E r mws w = .ok (c, w1) ∧ c ≠ r ∧
      w1.routers[c]? = some Rc ∧
      Rc.path = R.path ∧ Rc.serveMux = R.serveMux ∧
      Rc.subRouterMiddlewares = R.subRouterMiddlewares ∧
      w1.elems Rc.subRouterMiddlewares = w.elems R.subRouterMiddlewares ∧
      w1.elems Rc.handlerMiddlewares = w.elems R.handlerMiddlewares ++ mws ∧
      Rc.executedRouteOrHandle = false ∧ Rc.inGroupOrWith = true ∧
      w1.routers[r]? = some R ∧ w1.view R = w.view R ∧ w1.muxes = w.muxes ∧
      (∀ pattern h0 w2, Handle E r pattern h0 w1 = .ok w2 →
        ∃ es, w.muxes[R.serveMux]? = some es ∧
          w2.muxes[R.serveMux]? = some (es ++
            [(handleKey R.path pattern, chain (w.elems R.handlerMiddlewares) h0)])) := by
  obtain ⟨w1, Rc, hW, hc, _, hold, hmux, e1, e2, e3, e4, e5, e6, e7, e8, _, _⟩ :=
    With_spec E w r R mws hr hok
  have hlt := lt_of_get _ _ _ hr
  have hr1 : w1.routers[r]? = some R := by rw [hold r hlt]; exact hr
  refine ⟨_, w1, Rc, hW, by omega, hc, e1, e2, e3, ?_, e6, e4, e5, hr1, ?_, hmux, ?_⟩
  · rw [e3]; exact e8
  · simp only [Heap.view, e7, e8]
  · intro pattern h0 w2 hH
    obtain ⟨es, hes, hent, _⟩ := Handle_entry E w1 w2 r R pattern h0 hr1 hH
    rw [hmux] at hes
    rw [e7] at hent
    exact ⟨es, hes, hent⟩

/-- C9, on `r := NewRouter(); c := r.With(m("a"))`: the clone is router 1, it
holds `a`, and the root is as it was. -/
theorem C9_With_returns_clone_witness :
    ∃ c w1 Rc, With exampleEnv 0 [m "a"] (NewRouter Heap.empty).2 = .ok (c, w1) ∧
      w1.routers[c]? = some Rc ∧
      w1.elems Rc.handlerMiddlewares = [] ++ [m "a"] ∧
      w1.routers[0]? = (NewRouter Heap.empty).2.routers[0]? :=
  match C9_With_returns_clone exampleEnv (NewRouter Heap.empty).2 0
    { path := [], handlerMiddlewares := Slice.nil, subRouterMiddlewares := Slice.nil,
      serveMux := 0, executedRouteOrHandle := false, inGroupOrWith := false }
    [m "a"] rfl (by decide) with
  | ⟨c, w1, Rc, hW, _, hc, _, _, _, _, hel, _, _, hr, _, _, _⟩ =>
    ⟨c, w1, Rc, hW, hc, hel, hr⟩

/-- C5: the entry `Handle` adds to the table is `chain(ms, h)` with `ms` the
`handlerMiddlewares` of the router at the moment of the call, and every later
`Use`, `With`, `Handle`, `Group` or `Route`, on any router, only adds entries to
tables: an entry that is registered stays as it is at its place. -/
theorem C5_Handle_snapshot (E : Env) (w w1 : Heap) (r : Nat) (R : Router) (pattern : Str)
    (h0 : Handler) (hr : w.routers[r]? = some R) (hH : Handle E r pattern h0 w = .ok w1) :
    (∃ es, w.muxes[R.serveMux]? = some es ∧
      w1.entry R.serveMux es.length
        = some (handleKey R.path pattern, chain (w.elems R.handlerMiddlewares) h0)) ∧
    (∀ (w2 w3 : Heap) (mux i : Nat) (e : Str × Handler), w2.entry mux i = some e →
      (∀ r2 mws, Use E r2 mws w2 = .ok w3 → w3.entry mux i = some e) ∧
      (∀ r2 mws c, With E r2 mws w2 = .ok (c, w3) → w3.entry mux i = some e) ∧
      (∀ r2 p2 h2, Handle E r2 p2 h2 w2 = .ok w3 → w3.entry mux i = some e) ∧
      (∀ r2 fn, (∀ f, fn = some f → f.grows) → Group E r2 fn w2 = .ok w3 →
        w3.entry mux i = some e) ∧
      (∀ r2 p2 fn, (∀ f, fn = some f → f.grows) → Route E r2 p2 fn w2 = .ok w3 →
        w3.entry mux i = some e)) := by
  constructor
  · obtain ⟨es, hes, hent, _⟩ := Handle_entry E w w1 r R pattern h0 hr hH
    refine ⟨es, hes, ?_⟩
    simp [Heap.entry, hent]
  · intro w2 w3 mux i e he
    refine ⟨?_, ?_, ?_, ?_, ?_⟩
    · intro r2 mws hU
      exact tableGrows_entry w2 w3 (tableGrows_of_eq _ _ (Use_muxes E w2 w3 r2 mws hU)) mux i e he
    · intro r2 mws c hW
      exact tableGrows_entry w2 w3 (tableGrows_of_eq _ _ (With_muxes E w2 w3 r2 c mws hW))
        mux i e he
    · intro r2 p2 h2 hH2
      exact tableGrows_entry w2 w3 (Handle_grows E w2 w3 r2 p2 h2 hH2) mux i e he
    · intro r2 fn hfn hG
      exact tableGrows_entry w2 w3 (Group_grows E w2 w3 r2 fn hfn hG) mux i e he
    · intro r2 p2 fn hfn hR
      exact tableGrows_entry w2 w3 (Route_grows E w2 w3 r2 p2 fn hfn hR) mux i e he

/-- C5, on `r := NewRouter(); c := r.With(m("a")); c.Handle("/x", h("x"))`:
the entry is `m("a")` around `h("x")`. -/
theorem C5_Handle_snapshot_witness :
    ∃ es, cloneHeap.muxes[0]? = some es ∧
      (heapOf (Handle exampleEnv 1 "/x".toList (h "x") cloneHeap)).entry 0 es.length
        = some (handleKey [] "/x".toList, chain ([] ++ [m "a"]) (h "x")) :=
  (C5_Handle_snapshot exampleEnv cloneHeap
    (heapOf (Handle exampleEnv 1 "/x".toList (h "x") cloneHeap)) 1
    { path := [], handlerMiddlewares := { arr := 0, len := 1, cap := 1 },
      subRouterMiddlewares := Slice.nil, serveMux := 0,
      executedRouteOrHandle := false, inGroupOrWith := true }
    "/x".toList (h "x") rfl rfl).1

/-- C6: `Handle(s, h)` on a router with path `P` registers its entry under the
key `joinMethodAndPath(m, joinPathAndPattern(P, p))` with
`(m, p) = methodAndPath(s)`: a method stays in front of the joined path after
exactly one space, and a pattern without space or tab is registered as
`joinPathAndPattern(P, s)`.  On the root `"POST   /a"` gives `"POST /a"`; on a
router mounted at `"/{id}/"`, `"POST /{id2}"` gives `"POST /{id}/{id2}"`. -/
theorem C6_Handle_key (E : Env) (w w1 : Heap) (r : Nat) (R : Router) (pattern : Str)
    (h0 : Handler) (hr : w.routers[r]? = some R) (hH : Handle E r pattern h0 w = .ok w1) :
    (∃ es hd, w.muxes[R.serveMux]? = some es ∧
      w1.muxes[R.serveMux]? = some (es ++
        [(joinMethodAndPath (methodAndPath pattern).1
            (joinPathAndPattern R.path (methodAndPath pattern).2), hd)])) ∧
    ((methodAndPath pattern).1 ≠ [] →
      joinMethodAndPath (methodAndPath pattern).1
          (joinPathAndPattern R.path (methodAndPath pattern).2)
        = (methodAndPath pattern).1 ++ [Char.ofNat 32]
            ++ joinPathAndPattern R.path (methodAndPath pattern).2) ∧
    ((∀ c ∈ pattern, c ∉ spaceTab) →
      joinMethodAndPath (methodAndPath pattern).1
          (joinPathAndPattern R.path (methodAndPath pattern).2)
        = joinPathAndPattern R.path pattern) ∧
    handleKey [] "POST   /a".toList = "POST /a".toList ∧
    handleKey "/{id}/".toList "POST /{id2}".toList = "POST /{id}/{id2}".toList := by
  refine ⟨?_, ?_, ?_, by decide, by decide⟩
  · obtain ⟨es, hes, hent, _⟩ := Handle_entry E w w1 r R pattern h0 hr hH
    exact ⟨es, _, hes, hent⟩
  · intro hm
    simp [joinMethodAndPath, hm]
  · intro hs
    rw [methodAndPath_no_space pattern hs]
    simp [joinMethodAndPath]

/-- C6, on the tests "Handler POST and multi spaces, request POST" and
"Handler POST, request POST PathValue": on the root the key is `"POST /a"`;
on the child that `Route("/{id}/", ...)` creates (router 1, table 1) the key
is `"POST /{id}/{id2}"`. -/
theorem C6_Handle_key_witness :
    (∃ es hd, (NewRouter Heap.empty).2.muxes[0]? = some es ∧
      postHeap.muxes[0]? = some (es ++ [("POST /a".toList, hd)])) ∧
    (∃ es hd, (newRouter "/{id}/".toList (NewRouter Heap.empty).2).2.muxes[1]? = some es ∧
      (heapOf (Handle exampleEnv 1 "POST /{id2}".toList (h "a")
          (newRouter "/{id}/".toList (NewRouter Heap.empty).2).2)).muxes[1]?
        = some (es ++ [("POST /{id}/{id2}".toList, hd)])) :=
  ⟨(C6_Handle_key exampleEnv (NewRouter Heap.empty).2 postHeap 0
      { path := [], handlerMiddlewares := Slice.nil, subRouterMiddlewares := Slice.nil,
        serveMux := 0, executedRouteOrHandle := false, inGroupOrWith := false }
      "POST   /a".toList (h "a") rfl rfl).1,
   (C6_Handle_key exampleEnv (newRouter "/{id}/".toList (NewRouter Heap.empty).2).2
      (heapOf (Handle exampleEnv 1 "POST /{id2}".toList (h "a")
        (newRouter "/{id}/".toList (NewRouter Heap.empty).2).2)) 1
      { path := "/{id}/".toList, handlerMiddlewares := Slice.nil,
        subRouterMiddlewares := Slice.nil, serveMux := 1,
        executedRouteOrHandle := false, inGroupOrWith := false }
      "POST /{id2}".toList (h "a") rfl rfl).1⟩

/-- C10 (what the code does): the handler-scoped slice of `g`, built by three
`Use` calls, has length 3 and capacity 4.  `c1 := g.With(m("x"))` holds
`a, b, c, x`; after `c2 := g.With(m("y"))` both `c2` and `c1` hold
`a, b, c, y`, because both appends wrote into the spare slot of the backing
array of `g`; a handler registered through `c1` afterwards is wrapped by `y`,
not by `x`. -/
theorem C10_clones_share_backing_array :
    spareHeap.routers[1]?.map Router.handlerMiddlewares = some { arr := 2, len := 3, cap := 4 } ∧
    handlerNames firstCloneHeap 2
      = some [Event.note "a1", Event.note "b1", Event.note "c1", Event.note "x1"] ∧
    handlerNames secondCloneHeap 3
      = some [Event.note "a1", Event.note "b1", Event.note "c1", Event.note "y1"] ∧
    handlerNames secondCloneHeap 2
      = some [Event.note "a1", Event.note "b1", Event.note "c1", Event.note "y1"] ∧
    ServeHTTP exampleEnv aliasedHandleHeap 2 (Handler.router 0) (get "/one") []
      = some [Event.note "a1", Event.note "b1", Event.note "c1", Event.note "y1",
          Event.note "oneh",
          Event.note "y2", Event.note "c2", Event.note "b2", Event.note "a2"] := by
  refine ⟨by rfl, by rfl, by rfl, by rfl, by rfl⟩

/-- C4: for a root with subtree middlewares `A` (added by `Use`), a `Route`
child with subtree middlewares `C` (added by `Use` in the callback) and a
handler `h` registered on the child through `With(B...).Handle`:
`chain(A, chain(C, chain(B, h))) = chain(A ++ C ++ B, h)`; the root table holds
the child, the child table holds `chain(B, h)`; when the tables select these
entries for a request, serving the request at the root behaves as this chain
around `h`, and with logging middlewares the record is the enters of `A`, `C`,
`B`, the record of `h`, the exits of `B`, `C`, `A`. -/
theorem C4_nested_scopes_order (E : Env) (A C B : List Middleware) (rp hp : Str)
    (h0 : Handler) (w0 w : Heap) (root : Nat)
    (hB : buildTree E A C B rp hp h0 w0 = .ok (root, w)) :
    chain A (chain C (chain B h0)) = chain (A ++ C ++ B) h0 ∧
    (∃ c R S, rp.getLast? = some c ∧
      w.routers[root]? = some R ∧ w.elems R.subRouterMiddlewares = A ∧
      w.muxes[R.serveMux]?
        = some [(joinPathAndPattern [] (addSlash c rp), Handler.router (root + 1))] ∧
      w.routers[root + 1]? = some S ∧ w.elems S.subRouterMiddlewares = C ∧
      w.muxes[S.serveMux]?
        = some [(handleKey (joinPathAndPattern [] (addSlash c rp)) hp, chain B h0)]) ∧
    (∀ c req, rp.getLast? = some c →
      E.muxFind [joinPathAndPattern [] (addSlash c rp)] req = Outcome.entry 0 →
      E.muxFind [handleKey (joinPathAndPattern [] (addSlash c rp)) hp] req = Outcome.entry 0 →
      (∀ as cs : List (Step × Step), A = as.map around → C = cs.map around → ∀ fuel,
        ServeHTTP E w (fuel + 4) (Handler.router root) req
          = ServeHTTP E w fuel (chain (A ++ C ++ B) h0) req) ∧
      (∀ as cs bs name, A = as.map m → C = cs.map m → B = bs.map m → h0 = h name →
        ∀ fuel t, ServeHTTP E w (fuel + 4) (Handler.router root) req t
          = some (t ++ enters as ++ enters cs ++ enters bs ++ [Event.note (name ++ "h")]
              ++ exits bs ++ exits cs ++ exits as))) := by
  have hchain : chain A (chain C (chain B h0)) = chain (A ++ C ++ B) h0 := by
    rw [chain_append, chain_append]
  refine ⟨hchain, ?_, ?_⟩
  · obtain ⟨c, R, S, hc, _, hr, helR, hxR, hmR, hs, helS, hxS, hmS⟩ :=
      buildTree_spec E A C B rp hp h0 w0 w root hB
    exact ⟨c, R, S, hc, hr, helR, by rw [hxR]; exact hmR, hs, helS, by rw [hxS]; exact hmS⟩
  · intro c req hc hroot hchild
    have hserve : ∀ as cs : List (Step × Step), A = as.map around → C = cs.map around →
        ∀ fuel,
        ServeHTTP E w (fuel + 4) (Handler.router root) req
          = ServeHTTP E w fuel (chain (A ++ C ++ B) h0) req := by
      intro as cs hA hC fuel
      subst hA
      subst hC
      rw [← hchain]
      exact buildTree_serve E as cs B rp hp h0 w0 w root c req hB hc hroot hchild fuel
    refine ⟨hserve, ?_⟩
    intro as cs bs name hA hC hB' hh fuel t
    rw [hserve (as.map logSteps) (cs.map logSteps) (by rw [hA, map_m_eq])
      (by rw [hC, map_m_eq]) fuel, ← hchain, hA, hC, hB', hh,
      ServeHTTP_chain_m, ServeHTTP_chain_m, ServeHTTP_chain_m, h, ServeHTTP_func]
    simp

/-- C4, on the test "handler not found, exec middleware with Route": the
request for `/a/b` records `/1 a1 b1 bh b2 a2 /2`. -/
theorem C4_nested_scopes_order_witness :
    ServeHTTP exampleEnv routeHeap 4 (Handler.router 0) (get "/a/b") []
      = some ([] ++ enters ["/"] ++ enters ["a"] ++ enters ["b"] ++ [Event.note ("b" ++ "h")]
          ++ exits ["b"] ++ exits ["a"] ++ exits ["/"]) :=
  ((C4_nested_scopes_order exampleEnv [m "/"] [m "a"] [m "b"] "/a/".toList "/b".toList
      (h "b") Heap.empty routeHeap 0 rfl).2.2 '/' (get "/a/b") rfl rfl rfl).2
    ["/"] ["a"] ["b"] "b" rfl rfl rfl rfl 0 []

/-! ## Lemmas on `path.go` -/

theorem indexAny_eq_none (chars : List Char) (s : Str) (hn : indexAny chars s = none) :
    ∀ c ∈ s, c ∉ chars := by
  induction s with
  | nil => intro c hc; simp at hc
  | cons x xs ih =>
    unfold indexAny at hn
    by_cases hx : x ∈ chars
    · simp [hx] at hn
    · simp only [hx, if_false, Option.map_eq_none'] at hn
      intro c hc
      rcases List.mem_cons.mp hc with h | h
      · rw [h]; exact hx
      · exact ih hn c h

/-- `indexAny` finds the first character of the set: the characters before it
are not in the set. -/
theorem indexAny_hit (chars : List Char) (pre : Str) (x : Char) (rest : Str)
    (hpre : ∀ c ∈ pre, c ∉ chars) (hx : x ∈ chars) :
    indexAny chars (pre ++ x :: rest) = some pre.length := by
  induction pre with
  | nil => simp [indexAny, hx]
  | cons c cs ih =>
    have hc : c ∉ chars := hpre c (List.mem_cons_self c cs)
    have hcs : ∀ d ∈ cs, d ∉ chars := fun d hd => hpre d (List.mem_cons_of_mem c hd)
    simp [indexAny, hc, ih hcs]

/-- When `indexAny` answers `i`, the string splits at `i` into characters
outside the set, one character of the set, and the rest. -/
theorem indexAny_some (chars : List Char) (s : Str) (i : Nat)
    (hi : indexAny chars s = some i) :
    (∀ c ∈ s.take i, c ∉ chars) ∧ ∃ x, x ∈ chars ∧ s = s.take i ++ x :: s.drop (i + 1) := by
  induction s generalizing i with
  | nil => simp [indexAny] at hi
  | cons y ys ih =>
    unfold indexAny at hi
    by_cases hy : y ∈ chars
    · simp only [hy, if_true, Option.some.injEq] at hi
      subst hi
      exact ⟨by simp, y, hy, by simp⟩
    · simp only [hy, if_false, Option.map_eq_some'] at hi
      obtain ⟨j, hj, hij⟩ := hi
      subst hij
      obtain ⟨h1, x, hx, hsplit⟩ := ih j hj
      refine ⟨?_, x, hx, ?_⟩
      · intro c hc
        simp only [List.take_succ_cons, List.mem_cons] at hc
        rcases hc with h | h
        · rw [h]; exact hy
        · exact h1 c h
      · simp only [List.take_succ_cons, List.drop_succ_cons, List.cons_append]
        rw [← hsplit]

theorem trimLeft_run (cutset : List Char) (ws p : Str) (hws : ∀ c ∈ ws, c ∈ cutset)
    (hp : ∀ c, p.head? = some c → c ∉ cutset) : trimLeft cutset (ws ++ p) = p := by
  induction ws with
  | nil =>
    cases p with
    | nil => rfl
    | cons c cs =>
      have : c ∉ cutset := hp c rfl
      simp [trimLeft, this]
  | cons x xs ih =>
    have hx : x ∈ cutset := hws x (List.mem_cons_self x xs)
    have hxs : ∀ d ∈ xs, d ∈ cutset := fun d hd => hws d (List.mem_cons_of_mem x hd)
    simp [trimLeft, hx, ih hxs]

theorem trimLeft_head (cutset : List Char) (s : Str) :
    ∀ c, (trimLeft cutset s).head? = some c → c ∉ cutset := by
  induction s with
  | nil => intro c hc; simp [trimLeft] at hc
  | cons x xs ih =>
    intro c hc
    unfold trimLeft at hc
    by_cases hx : x ∈ cutset
    · simp only [hx, if_true] at hc
      exact ih c hc
    · simp only [hx, if_false, List.head?_cons, Option.some.injEq] at hc
      rw [← hc]; exact hx

/-- What `methodAndPath` answers on a method, a run of separators and a path. -/
theorem methodAndPath_split (mth ws p : Str) (x : Char) (hm : ∀ c ∈ mth, c ∉ spaceTab)
    (hx : x ∈ spaceTab) (hws : ∀ c ∈ ws, c ∈ spaceTab)
    (hp : ∀ c, p.head? = some c → c ∉ spaceTab) :
    methodAndPath (mth ++ x :: (ws ++ p)) = (mth, p) := by
  unfold methodAndPath
  rw [indexAny_hit spaceTab mth x (ws ++ p) hm hx]
  simp only [List.take_left', Prod.mk.injEq, true_and]
  have hdrop : (mth ++ x :: (ws ++ p)).drop (mth.length + 1) = ws ++ p := by
    rw [show mth ++ x :: (ws ++ p) = (mth ++ [x]) ++ (ws ++ p) by simp]
    exact List.drop_left' (by simp)
  rw [hdrop]
  exact trimLeft_run spaceTab ws p hws hp

theorem replaceAllFrom_pair (rest : Str) :
    replaceAllFrom ['/', '/'] ['/'] 0 ('/' :: '/' :: rest)
      = '/' :: replaceAllFrom ['/', '/'] ['/'] 0 rest := by
  simp [replaceAllFrom, List.isPrefixOf]

theorem replaceAllFrom_other (c : Char) (rest : Str)
    (hne : ¬ (c = '/' ∧ rest.head? = some '/')) :
    replaceAllFrom ['/', '/'] ['/'] 0 (c :: rest)
      = c :: replaceAllFrom ['/', '/'] ['/'] 0 rest := by
  cases rest with
  | nil => simp [replaceAllFrom, List.isPrefixOf]
  | cons d ds =>
    have hpre : List.isPrefixOf ['/', '/'] (c :: d :: ds) = false := by
      simp only [List.head?_cons, Option.some.injEq] at hne
      simp only [List.isPrefixOf, Bool.and_true, Bool.and_eq_false_imp, beq_iff_eq]
      intro hc
      by_contra hd
      simp only [beq_eq_false_iff_ne, ne_eq, not_not] at hd
      exact hne ⟨hc.symm, hd.symm⟩
    simp [replaceAllFrom, hpre]

theorem collapsePairs_pair (rest : Str) :
    collapsePairs ('/' :: '/' :: rest) = '/' :: collapsePairs rest := by
  rw [collapsePairs]

theorem collapsePairs_other (c : Char) (rest : Str)
    (hne : c = '/' → rest.head? = some '/' → False) :
    collapsePairs (c :: rest) = c :: collapsePairs rest := by
  rw [collapsePairs]
  intro rest1 hc hr
  exact hne hc (by rw [hr]; rfl)

/-- `strings.ReplaceAll(s, "//", "/")` is the collapse of the specification. -/
theorem replaceAll_eq_collapsePairs (s : Str) :
    replaceAll s ['/', '/'] ['/'] = collapsePairs s := by
  unfold replaceAll
  have key : ∀ n, ∀ s : Str, s.length ≤ n →
      replaceAllFrom ['/', '/'] ['/'] 0 s = collapsePairs s := by
    intro n
    induction n with
    | zero =>
      intro s hs
      have : s = [] := List.length_eq_zero.mp (Nat.le_zero.mp hs)
      subst this
      rfl
    | succ n ih =>
      intro s hs
      match s, hs with
      | [], _ => rfl
      | [c], _ =>
        rw [replaceAllFrom_other c [] (by simp), collapsePairs_other c [] (by simp)]
        rfl
      | c :: d :: rest, hs =>
        by_cases hcd : c = '/' ∧ d = '/'
        · obtain ⟨hc, hd⟩ := hcd
          subst hc
          subst hd
          rw [replaceAllFrom_pair, collapsePairs_pair, ih rest (by simp at hs; omega)]
        · rw [replaceAllFrom_other c (d :: rest) (by simpa using hcd),
            ih (d :: rest) (by simp at hs ⊢; omega), collapsePairs_other c (d :: rest)]
          intro hc hd
          simp only [List.head?_cons, Option.some.injEq] at hd
          exact hcd ⟨hc, hd⟩
  exact key s.length s (le_refl _)

theorem collapsePairs_sublist (s : Str) : (collapsePairs s).Sublist s := by
  induction s using collapsePairs.induct with
  | case1 => simp [collapsePairs]
  | case2 rest ih =>
    rw [collapsePairs]
    exact (List.Sublist.cons₂ _ ih).cons _
  | case3 c rest hne ih =>
    rw [collapsePairs.eq_3 c rest hne]
    exact List.Sublist.cons₂ _ ih

theorem collapsePairs_filter (s : Str) :
    (collapsePairs s).filter (· != '/') = s.filter (· != '/') := by
  induction s using collapsePairs.induct with
  | case1 => simp [collapsePairs]
  | case2 rest ih =>
    rw [collapsePairs]
    simpa [List.filter_cons] using ih
  | case3 c rest hne ih =>
    rw [collapsePairs.eq_3 c rest hne]
    simp only [List.filter_cons, ih]

theorem joinPathAndPattern_eq (path pattern : Str) :
    joinPathAndPattern path pattern = collapsePairs (path ++ pattern) := by
  unfold joinPathAndPattern
  exact replaceAll_eq_collapsePairs _

theorem methodAndPath_fst_clean (s : Str) : ∀ c ∈ (methodAndPath s).1, c ∉ spaceTab := by
  unfold methodAndPath
  cases hi : indexAny spaceTab s with
  | none => intro c hc; simp at hc
  | some i => exact (indexAny_some spaceTab s i hi).1

theorem methodAndPath_snd_head (s : Str) :
    ∀ c, (methodAndPath s).2.head? = some c → c ∉ spaceTab := by
  unfold methodAndPath
  cases hi : indexAny spaceTab s with
  | none =>
    intro c hc
    have hall := indexAny_eq_none spaceTab s hi
    cases s with
    | nil => simp at hc
    | cons x xs =>
      simp only [List.head?_cons, Option.some.injEq] at hc
      rw [← hc]
      exact hall x (List.mem_cons_self x xs)
  | some i => exact trimLeft_head spaceTab _

/-- When the round trip through `joinMethodAndPath` gives the pair back. -/
theorem roundtrip_iff (s : Str) :
    methodAndPath (joinMethodAndPath (methodAndPath s).1 (methodAndPath s).2) = methodAndPath s
      ↔ ((methodAndPath s).1 ≠ [] ∨ ∀ c ∈ (methodAndPath s).2, c ∉ spaceTab) := by
  have hm := methodAndPath_fst_clean s
  have hp := methodAndPath_snd_head s
  generalize methodAndPath s = mp at hm hp
  obtain ⟨mth, p⟩ := mp
  simp only at hm hp ⊢
  constructor
  · intro hrt
    by_cases hmth : mth = []
    · right
      subst hmth
      simp only [joinMethodAndPath, if_true] at hrt
      intro c hc hcs
      cases hi : indexAny spaceTab p with
      | none => exact indexAny_eq_none spaceTab p hi c hc hcs
      | some j =>
        obtain ⟨_, x, hx, hsplit⟩ := indexAny_some spaceTab p j hi
        simp only [methodAndPath, hi, Prod.mk.injEq] at hrt
        have hj : j = 0 := by
          rcases List.take_eq_nil_iff.mp hrt.1 with h | h
          · exact h
          · rw [h] at hc; simp at hc
        subst hj
        rw [List.take_zero, List.nil_append] at hsplit
        exact hp x (by rw [hsplit]; rfl) hx
    · exact Or.inl hmth
  · intro hcond
    by_cases hmth : mth = []
    · subst hmth
      rcases hcond with h | h
      · exact absurd rfl h
      · simp only [joinMethodAndPath, if_true]
        exact methodAndPath_no_space p h
    · simp only [joinMethodAndPath, hmth, if_false]
      have := methodAndPath_split mth [] p (Char.ofNat 32) hm (by simp [spaceTab])
        (by intro c hc; simp at hc) hp
      simpa using this

/-- C17: for a method token `mth` without space or tab, a non-empty run `ws`
of spaces and tabs and a path `p` that does not begin with a space or tab,
`methodAndPath(mth ++ ws ++ p) = (mth, p)`: the separating run is collapsed,
whatever its length (also for the empty method token). -/
theorem C17_methodAndPath_collapses_run (mth ws p : Str) (hm : ∀ c ∈ mth, c ∉ spaceTab)
    (hne : ws ≠ []) (hws : ∀ c ∈ ws, c ∈ spaceTab)
    (hp : ∀ c, p.head? = some c → c ∉ spaceTab) :
    methodAndPath (mth ++ ws ++ p) = (mth, p) := by
  cases ws with
  | nil => exact absurd rfl hne
  | cons x xs =>
    have hx : x ∈ spaceTab := hws x (List.mem_cons_self x xs)
    have hxs : ∀ c ∈ xs, c ∈ spaceTab := fun c hc => hws c (List.mem_cons_of_mem x hc)
    have := methodAndPath_split mth xs p x hm hx hxs hp
    simpa using this

/-- C17, on the test "POST  /a/{b}": two spaces between method and path. -/
theorem C17_methodAndPath_collapses_run_witness :
    methodAndPath ("POST".toList ++ "  ".toList ++ "/a/{b}".toList)
      = ("POST".toList, "/a/{b}".toList) :=
  C17_methodAndPath_collapses_run "POST".toList "  ".toList "/a/{b}".toList
    (by decide) (by decide) (by decide) (by decide)

/-- C18: for a pattern without space and tab, `methodAndPath(s) = ("", s)`. -/
theorem C18_methodAndPath_no_method (s : Str) (hs : ∀ c ∈ s, c ∉ spaceTab) :
    methodAndPath s = ([], s) :=
  methodAndPath_no_space s hs

/-- C18, on the test "/a". -/
theorem C18_methodAndPath_no_method_witness :
    methodAndPath "/a".toList = ([], "/a".toList) :=
  C18_methodAndPath_no_method "/a".toList (by decide)

/-- C19 (as the code has it): `joinMethodAndPath("", p) = p` and
`joinMethodAndPath(m, p) = m ++ " " ++ p` for a non-empty `m`; with
`(m, p) = methodAndPath(s)`, `methodAndPath(joinMethodAndPath(m, p)) = (m, p)`
holds exactly when `m` is non-empty or `p` contains no space or tab, and so
for every pattern `s` that does not begin with a space or tab. -/
theorem C19_join_inverts_split (s : Str) (hs : ∀ c, s.head? = some c → c ∉ spaceTab) :
    methodAndPath (joinMethodAndPath (methodAndPath s).1 (methodAndPath s).2)
      = methodAndPath s ∧
    (∀ s2 : Str,
      methodAndPath (joinMethodAndPath (methodAndPath s2).1 (methodAndPath s2).2)
          = methodAndPath s2
        ↔ ((methodAndPath s2).1 ≠ [] ∨ ∀ c ∈ (methodAndPath s2).2, c ∉ spaceTab)) ∧
    (∀ p, joinMethodAndPath [] p = p) ∧
    (∀ mth p, mth ≠ [] → joinMethodAndPath mth p = mth ++ [Char.ofNat 32] ++ p) := by
  refine ⟨?_, roundtrip_iff, fun p => by simp [joinMethodAndPath],
    fun mth p hmth => by simp [joinMethodAndPath, hmth]⟩
  rw [roundtrip_iff]
  cases hi : indexAny spaceTab s with
  | none =>
    right
    simp only [methodAndPath, hi]
    exact indexAny_eq_none spaceTab s hi
  | some i =>
    left
    obtain ⟨_, x, hx, hsplit⟩ := indexAny_some spaceTab s i hi
    simp only [methodAndPath, hi]
    intro hnil
    rw [hnil, List.nil_append] at hsplit
    exact hs x (by rw [hsplit]; rfl) hx

/-- C19, on "POST  /a": the pair `("POST", "/a")` comes back from
`"POST /a"`. -/
theorem C19_join_inverts_split_witness :
    methodAndPath (joinMethodAndPath (methodAndPath "POST  /a".toList).1
        (methodAndPath "POST  /a".toList).2)
      = methodAndPath "POST  /a".toList :=
  (C19_join_inverts_split "POST  /a".toList (by decide)).1

/-- C19 as stated fails: `methodAndPath(" GET /a") = ("", "GET /a")`, the join
of this pair is `"GET /a"`, and `methodAndPath("GET /a") = ("GET", "/a")`. -/
theorem C19_counterexample :
    methodAndPath " GET /a".toList = ([], "GET /a".toList) ∧
    joinMethodAndPath [] "GET /a".toList = "GET /a".toList ∧
    methodAndPath (joinMethodAndPath [] "GET /a".toList) = ("GET".toList, "/a".toList) ∧
    methodAndPath (joinMethodAndPath (methodAndPath " GET /a".toList).1
        (methodAndPath " GET /a".toList).2)
      ≠ methodAndPath " GET /a".toList := by
  decide

/-- C20: `joinPathAndPattern(path, pattern)` is the concatenation in which,
scanning once from the left, every non-overlapping `"//"` is replaced by `"/"`
(`collapsePairs`); only separators are removed (the result is a subsequence of
the concatenation with the same characters other than separators);
`("/a/", "/b")` gives `"/a/b"` and `("/a", "/")` gives `"/a/"`. -/
theorem C20_join_collapses_pairs (path pattern : Str) :
    joinPathAndPattern path pattern = collapsePairs (path ++ pattern) ∧
    (joinPathAndPattern path pattern).Sublist (path ++ pattern) ∧
    (joinPathAndPattern path pattern).filter (· != '/')
      = (path ++ pattern).filter (· != '/') ∧
    joinPathAndPattern "/a/".toList "/b".toList = "/a/b".toList ∧
    joinPathAndPattern "/a".toList "/".toList = "/a/".toList := by
  rw [joinPathAndPattern_eq]
  exact ⟨rfl, collapsePairs_sublist _, collapsePairs_filter _, by decide, by decide⟩

/-! ## Lemmas on `Route` -/

/-- `Route` with a callback: the child is allocated by `newRouter`, the
callback runs on it, then `routeFinish`. -/
theorem Route_eq_bind (E : Env) (w : Heap) (r : Nat) (R : Router) (pattern : Str) (c : Char)
    (f : Callback) (hr : w.routers[r]? = some R) (hc : pattern.getLast? = some c) :
    Route E r pattern (some f) w
      = match f w.routers.length
          (newRouter (joinPathAndPattern R.path (addSlash c pattern)) w).2 with
        | .error e => .error e
        | .ok w2 => routeFinish E r w.routers.length w2 := by
  unfold Route routeFinish
  simp only [hc, hr]
  rfl

theorem getLast?_collapsePairs (s : Str) (hs : s.getLast? = some '/') :
    (collapsePairs s).getLast? = some '/' := by
  induction s using collapsePairs.induct with
  | case1 => simp at hs
  | case2 rest ih =>
    rw [collapsePairs]
    cases rest with
    | nil => rfl
    | cons x xs =>
      have hne : collapsePairs (x :: xs) ≠ [] := by
        intro hnil
        have := ih (by simpa [List.getLast?_cons_cons] using hs)
        rw [hnil] at this
        simp at this
      rw [List.getLast?_eq_getLast _ (List.cons_ne_nil _ _), List.getLast_cons hne,
        ← List.getLast?_eq_getLast]
      exact ih (by simpa [List.getLast?_cons_cons] using hs)
  | case3 c rest hne ih =>
    rw [collapsePairs.eq_3 c rest hne]
    cases rest with
    | nil => simpa [collapsePairs] using hs
    | cons x xs =>
      have hne2 : collapsePairs (x :: xs) ≠ [] := by
        intro hnil
        have := ih (by simpa [List.getLast?_cons_cons] using hs)
        rw [hnil] at this
        simp at this
      rw [List.getLast?_eq_getLast _ (List.cons_ne_nil _ _), List.getLast_cons hne2,
        ← List.getLast?_eq_getLast]
      exact ih (by simpa [List.getLast?_cons_cons] using hs)

theorem addSlash_getLast? (s : Str) (c : Char) :
    (addSlash c (s ++ [c])).getLast? = some '/' := by
  unfold addSlash
  by_cases hc : c = '/'
  · simp [hc]
  · simp [hc]

/-- The path of the child that `Route` mounts for a non-empty pattern ends
with a separator. -/
theorem childPath_getLast? (path s : Str) (c : Char) :
    (joinPathAndPattern path (addSlash c (s ++ [c]))).getLast? = some '/' := by
  rw [joinPathAndPattern_eq]
  apply getLast?_collapsePairs
  have h := addSlash_getLast? s c
  cases hadd : addSlash c (s ++ [c]) with
  | nil => rw [hadd] at h; simp at h
  | cons x xs =>
    rw [hadd] at h
    rw [List.getLast?_append_of_ne_nil _ (List.cons_ne_nil x xs)]
    exact h

/-- C12: for every router `r`, also one on which `Route` or `Handle` has been
executed, the router `With` returns starts with registered = false, and so
does the router `Group` hands to its callback: a first `Use` on that clone
succeeds and appends to the clone's `handlerMiddlewares`. -/
theorem C12_clone_starts_unregistered (E : Env) (w : Heap) (r : Nat) (R : Router)
    (mws : List Middleware) (hr : w.routers[r]? = some R) (hok : w.okRouter R) :
    (∃ c w1 Rc, With E r mws w = .ok (c, w1) ∧ w1.routers[c]? = some Rc ∧
      Rc.executedRouteOrHandle = false ∧
      ∀ mws2, ∃ w2 R2, Use E c mws2 w1 = .ok w2 ∧ w2.routers[c]? = some R2 ∧
        w2.elems R2.handlerMiddlewares = w.elems R.handlerMiddlewares ++ mws ++ mws2) ∧
    (∀ mws2, ∃ c w1 Rc w2, With E r [] w = .ok (c, w1) ∧ w1.routers[c]? = some Rc ∧
      Rc.executedRouteOrHandle = false ∧
      Group E r (some (fun sub => Use E sub mws2)) w = .ok w2 ∧
      Use E c mws2 w1 = .ok w2) := by
  have hclone : ∀ ms, ∃ c w1 Rc, With E r ms w = .ok (c, w1) ∧ w1.routers[c]? = some Rc ∧
      Rc.executedRouteOrHandle = false ∧
      ∀ mws2, ∃ w2 R2, Use E c mws2 w1 = .ok w2 ∧ w2.routers[c]? = some R2 ∧
        w2.elems R2.handlerMiddlewares = w.elems R.handlerMiddlewares ++ ms ++ mws2 := by
    intro ms
    obtain ⟨w1, Rc, hW, hc, _, _, _, _, _, _, hreg, hclone, hel, _, _, hokc, _⟩ :=
      With_spec E w r R ms hr hok
    refine ⟨_, w1, Rc, hW, hc, hreg, ?_⟩
    intro mws2
    have hU := Use_clone E w1 _ Rc mws2 hc hreg hclone
    obtain ⟨R2, hr2, _, _, _, hv, _, _⟩ := Use_spec E w1 _ _ Rc mws2 hc hokc hU
    simp only [Heap.view, RouterView.mk.injEq, hclone, if_true] at hv
    exact ⟨_, R2, hU, hr2, hv.2.1.trans (by rw [hel])⟩
  refine ⟨hclone mws, ?_⟩
  intro mws2
  obtain ⟨c, w1, Rc, hW, hc, hreg, huse⟩ := hclone []
  obtain ⟨w2, _, hU, _, _⟩ := huse mws2
  refine ⟨c, w1, Rc, w2, hW, hc, hreg, ?_, hU⟩
  simp [Group, hW, hU]

/-- C12, on the test "/ middleware affect to b handler": `Handle` has been
executed on the root, and `Use(m("b"))` as the first statement of the callback
of `Group` succeeds. -/
theorem C12_clone_starts_unregistered_witness :
    registeredRootHeap.routers[0]?.map Router.executedRouteOrHandle = some true ∧
    ∃ c w1 Rc w2, With exampleEnv 0 [] registeredRootHeap = .ok (c, w1) ∧
      w1.routers[c]? = some Rc ∧ Rc.executedRouteOrHandle = false ∧
      Group exampleEnv 0 (some (fun sub => Use exampleEnv sub [m "b"])) registeredRootHeap
        = .ok w2 ∧
      Use exampleEnv c [m "b"] w1 = .ok w2 :=
  ⟨rfl, (C12_clone_starts_unregistered exampleEnv registeredRootHeap 0
    { path := [], handlerMiddlewares := Slice.nil,
      subRouterMiddlewares := { arr := 0, len := 1, cap := 1 }, serveMux := 0,
      executedRouteOrHandle := true, inGroupOrWith := false } [] rfl (by decide)).2 [m "b"]⟩

/-- C14: whatever the middleware lists of the parent are, the callback of
`Route` receives a router that `newRouter` has just allocated: empty
`handlerMiddlewares`, empty `subRouterMiddlewares`, a new empty table of its
own, registered = false and scoped clone = false; so a handler registered on
it is stored as it is, without the handler-scoped middlewares of the
parent. -/
theorem C14_Route_child_is_fresh (E : Env) (w : Heap) (r : Nat) (R : Router) (s : Str)
    (c : Char) (hr : w.routers[r]? = some R) (hc : s.getLast? = some c) :
    (∀ f : Callback, Route E r s (some f) w
      = match f w.routers.length
          (newRouter (joinPathAndPattern R.path (addSlash c s)) w).2 with
        | .error e => .error e
        | .ok w2 => routeFinish E r w.routers.length w2) ∧
    (∃ S, (newRouter (joinPathAndPattern R.path (addSlash c s)) w).2.routers[w.routers.length]?
        = some S ∧
      S.path = joinPathAndPattern R.path (addSlash c s) ∧
      (newRouter (joinPathAndPattern R.path (addSlash c s)) w).2.elems S.handlerMiddlewares
        = [] ∧
      (newRouter (joinPathAndPattern R.path (addSlash c s)) w).2.elems S.subRouterMiddlewares
        = [] ∧
      S.executedRouteOrHandle = false ∧ S.inGroupOrWith = false ∧
      w.muxes[S.serveMux]? = none ∧
      (∀ X ∈ w.routers, X.serveMux ≠ S.serveMux ∨ w.muxes[X.serveMux]? = none) ∧
      (newRouter (joinPathAndPattern R.path (addSlash c s)) w).2.muxes[S.serveMux]? = some [] ∧
      (∀ pattern h0 w2,
        Handle E w.routers.length pattern h0
            (newRouter (joinPathAndPattern R.path (addSlash c s)) w).2 = .ok w2 →
        w2.muxes[S.serveMux]?
          = some [(handleKey (joinPathAndPattern R.path (addSlash c s)) pattern, h0)])) := by
  refine ⟨fun f => Route_eq_bind E w r R s c f hr hc, ?_⟩
  have hS : (newRouter (joinPathAndPattern R.path (addSlash c s)) w).2.routers[w.routers.length]?
      = some (freshRouter (joinPathAndPattern R.path (addSlash c s)) w.muxes.length) := by
    simp [newRouter_eq]
  refine ⟨_, hS, rfl, nil_elems _, nil_elems _, rfl, rfl, ?_, ?_, ?_, ?_⟩
  · exact List.getElem?_eq_none (le_refl _)
  · intro X _
    by_cases hX : X.serveMux = w.muxes.length
    · right; rw [hX]; exact List.getElem?_eq_none (le_refl _)
    · left; exact hX
  · simp [newRouter_eq, freshRouter]
  · intro pattern h0 w2 hH
    obtain ⟨es, hes, hent, _⟩ := Handle_entry E _ w2 _ _ pattern h0 hS hH
    have hnil : es = [] := by
      simp [newRouter_eq, freshRouter] at hes
      exact hes
    subst hnil
    rw [hent]
    have hel : (newRouter (joinPathAndPattern R.path (addSlash c s)) w).2.elems
        (freshRouter (joinPathAndPattern R.path (addSlash c s)) w.muxes.length).handlerMiddlewares
        = [] := nil_elems _
    rw [hel, chain_nil]
    rfl

/-- C14, on the clone `c` of `r := NewRouter(); c := r.With(m("a"))` as parent:
`c.Route("/x", func(sub) { sub.Handle("/y", h("y")) })` stores `h("y")` itself
in the table of the child (table 1), not `m("a")` around it. -/
theorem C14_Route_child_is_fresh_witness :
    cloneHeap.elems { arr := 0, len := 1, cap := 1 } = [m "a"] ∧
    ∃ S, (newRouter (joinPathAndPattern [] (addSlash 'x' "/x".toList)) cloneHeap).2.routers[2]?
        = some S ∧
      ∀ pattern h0 w2,
        Handle exampleEnv 2 pattern h0
            (newRouter (joinPathAndPattern [] (addSlash 'x' "/x".toList)) cloneHeap).2
          = .ok w2 →
        w2.muxes[S.serveMux]?
          = some [(handleKey (joinPathAndPattern [] (addSlash 'x' "/x".toList)) pattern, h0)] :=
  ⟨rfl,
   match (C14_Route_child_is_fresh exampleEnv cloneHeap 1
      { path := [], handlerMiddlewares := { arr := 0, len := 1, cap := 1 },
        subRouterMiddlewares := Slice.nil, serveMux := 0,
        executedRouteOrHandle := false, inGroupOrWith := true }
      "/x".toList 'x' rfl rfl).2 with
   | ⟨S, hS, _, _, _, _, _, _, _, _, hH⟩ => ⟨S, hS, hH⟩⟩

/-- The result of `Route` is the outcome of `RouteHeap`: the panic, or else
the heap. -/
theorem Route_eq_RouteHeap (E : Env) (r : Nat) (pattern : Str) (fn : Option CallbackHeap)
    (w : Heap) :
    Route E r pattern (fn.map CallbackHeap.result) w = outcome (RouteHeap E r pattern fn w) := by
  cases fn with
  | none => rfl
  | some f =>
    unfold Route RouteHeap
    simp only [Option.map_some']
    cases pattern.getLast? with
    | none => rfl
    | some c =>
      simp only []
      cases w.routers[r]? with
      | none => rfl
      | some R =>
        simp only [CallbackHeap.result]
        generalize f (newRouter (joinPathAndPattern R.path (addSlash c pattern)) w).1
          (newRouter (joinPathAndPattern R.path (addSlash c pattern)) w).2 = x
        obtain ⟨w2, o⟩ := x
        cases o with
        | some e => rfl
        | none =>
          simp only [outcome]
          cases w2.routers[r]? with
          | none => rfl
          | some R2 =>
            cases w2.routers[(newRouter (joinPathAndPattern R.path (addSlash c pattern)) w).1]? with
            | none => rfl
            | some S =>
              simp only []
              cases muxHandle E w2 R2.serveMux S.path
                  (Handler.router (newRouter (joinPathAndPattern R.path (addSlash c pattern)) w).1) with
              | error e => rfl
              | ok w3 =>
                simp only []
                cases w3.routers[r]? with
                | none => rfl
                | some R3 => rfl

/-- C15: `Route(s, nil)` fails for every router and every pattern, the empty
one included, with the error that names `s`; the check is the first statement,
before the pattern is looked at, before `r` is dereferenced and before a child
is created: the heap at the panic is the heap before the call, with no router
and no table more, and with the router value of `r`, the elements of its two
middleware lists, its registered flag and its table as they were. -/
theorem C15_Route_nil_callback (E : Env) (w : Heap) (r : Nat) (s : Str) :
    Route E r s none w = .error (routePanic s) ∧
    routePanic s = "michi: sub router function cannot be nil on '" ++ String.mk s ++ "'" ∧
    Route E r [] none w = .error (routePanic []) ∧
    (w.routers[r]? = none → Route E r s none w = .error (routePanic s)) ∧
    RouteHeap E r s none w = (w, some (routePanic s)) ∧
    (RouteHeap E r s none w).1.routers.length = w.routers.length ∧
    (RouteHeap E r s none w).1.muxes.length = w.muxes.length ∧
    (∀ R, w.routers[r]? = some R →
      (RouteHeap E r s none w).1.routers[r]? = some R ∧
      (RouteHeap E r s none w).1.muxes[R.serveMux]? = w.muxes[R.serveMux]? ∧
      (RouteHeap E r s none w).1.elems R.handlerMiddlewares = w.elems R.handlerMiddlewares ∧
      (RouteHeap E r s none w).1.elems R.subRouterMiddlewares
        = w.elems R.subRouterMiddlewares) ∧
    (RouteHeap E r s none w).1 = w ∧
    (∀ fn : Option CallbackHeap,
      Route E r s (fn.map CallbackHeap.result) w = outcome (RouteHeap E r s fn w)) :=
  ⟨rfl, rfl, rfl, fun _ => rfl, rfl, rfl, rfl, fun _ hR => ⟨hR, rfl, rfl, rfl⟩, rfl,
    fun fn => Route_eq_RouteHeap E r s fn w⟩

/-- C15, on the root of `r := NewRouter()` and `r.Route("/a/", nil)`: the
call panics with the message that names `"/a/"`, and the root and its empty
table are as before. -/
theorem C15_Route_nil_callback_witness :
    Route exampleEnv 0 "/a/".toList none (NewRouter Heap.empty).2
      = .error "michi: sub router function cannot be nil on '/a/'" ∧
    (RouteHeap exampleEnv 0 "/a/".toList none (NewRouter Heap.empty).2).1.routers[0]?
      = some (freshRouter [] 0) ∧
    (RouteHeap exampleEnv 0 "/a/".toList none (NewRouter Heap.empty).2).1.muxes[0]?
      = (NewRouter Heap.empty).2.muxes[0]? :=
  ⟨(C15_Route_nil_callback exampleEnv (NewRouter Heap.empty).2 0 "/a/".toList).1,
   ((C15_Route_nil_callback exampleEnv (NewRouter Heap.empty).2 0 "/a/".toList).2.2.2.2.2.2.2.1
      (freshRouter [] 0) rfl).1,
   ((C15_Route_nil_callback exampleEnv (NewRouter Heap.empty).2 0 "/a/".toList).2.2.2.2.2.2.2.1
      (freshRouter [] 0) rfl).2.1⟩

/-- C16 (what the code does): on the empty pattern `Route` with a callback
panics at `pattern[len(pattern)-1]`, for every router and every callback; on
a non-empty pattern (with last character `c`) the pattern is normalized and
the path of the child ends with a separator. -/
theorem C16_Route_empty_pattern_panics (E : Env) (w : Heap) (r : Nat) (f : Callback) :
    Route E r [] (some f) w = .error "runtime error: index out of range [-1]" ∧
    (∀ (path s : Str) (c : Char),
      (addSlash c (s ++ [c])).getLast? = some '/' ∧
      (joinPathAndPattern path (addSlash c (s ++ [c]))).getLast? = some '/') :=
  ⟨rfl, fun path s c => ⟨addSlash_getLast? s c, childPath_getLast? path s c⟩⟩

/-! ## Frames of registration blocks -/

theorem Frame_refl (n : Nat) (p : Slice) (w : Heap) (hinv : w.inv) (hg : w.guards n p) :
    Frame n p w w :=
  ⟨hinv, hg, rfl, fun _ _ => rfl, le_refl _, fun _ X hX => ⟨X, hX, rfl, rfl⟩, tableGrows_refl w⟩

theorem Frame_trans (n : Nat) (p : Slice) (w w1 w2 : Heap) (h1 : Frame n p w w1)
    (h2 : Frame n p w1 w2) : Frame n p w w2 := by
  obtain ⟨_, _, a3, a4, a5, a6, a7⟩ := h1
  obtain ⟨b1, b2, b3, b4, b5, b6, b7⟩ := h2
  refine ⟨b1, b2, b3.trans a3, fun i hi => (b4 i hi).trans (a4 i hi), le_trans a5 b5, ?_,
    tableGrows_trans w w1 w2 a7 b7⟩
  intro i X hX
  obtain ⟨X1, hX1, e1, e2⟩ := a6 i X hX
  obtain ⟨X2, hX2, f1, f2⟩ := b6 i X1 hX1
  exact ⟨X2, hX2, f1.trans e1, f2.trans e2⟩

/-- The slice `append` returns is as safe for `p` as the slice appended to. -/
theorem append_safe (E : Env) (w : Heap) (p t : Slice) (xs : List Middleware) (hp : w.ok p)
    (hs : safe p t) : safe p (w.append E t xs).1 := by
  unfold Heap.append
  split
  · show p.arr ≠ t.arr ∨ p.cap = 0 ∨ t.cap = 0 ∨ p.len ≤ t.len + xs.length
    rcases hs with h | h | h | h
    · exact Or.inl h
    · exact Or.inr (Or.inl h)
    · exact Or.inr (Or.inr (Or.inl h))
    · exact Or.inr (Or.inr (Or.inr (by omega)))
  · show p.arr ≠ w.arrays.length ∨ p.cap = 0 ∨ _
    by_cases hz : p.cap = 0
    · exact Or.inr (Or.inl hz)
    · left
      have := hp.2.2 (by omega)
      omega

/-- The invariant carries over to a heap with the same arrays whose routers
have slices that routers of the old heap had. -/
theorem inv_of_slices (w w1 : Heap) (hinv : w.inv) (ha : w1.arrays = w.arrays)
    (hsub : ∀ X ∈ w1.routers, ∃ Y ∈ w.routers,
      X.handlerMiddlewares = Y.handlerMiddlewares ∧
      X.subRouterMiddlewares = Y.subRouterMiddlewares) : w1.inv := by
  constructor
  · intro X hX
    obtain ⟨Y, hY, e1, e2⟩ := hsub X hX
    rw [e1, e2]
    exact ⟨ok_of_arrays w w1 _ ha (hinv.1 Y hY).1, ok_of_arrays w w1 _ ha (hinv.1 Y hY).2⟩
  · intro X hX X2 hX2
    obtain ⟨Y, hY, e1, _⟩ := hsub X hX
    obtain ⟨Y2, hY2, _, e2⟩ := hsub X2 hX2
    rw [e1, e2]
    exact hinv.2 Y hY Y2 hY2

/-- Adding an entry to a table and setting the registered flag of a router
with index `n` or more: what `Handle` does, and `Route` after its callback. -/
theorem register_Frame (n : Nat) (p : Slice) (w : Heap) (r : Nat) (R : Router) (k : Nat)
    (es : Table) (e : Str × Handler) (hn : n ≤ r) (hinv : w.inv) (hg : w.guards n p)
    (hr : w.routers[r]? = some R) (hes : w.muxes[k]? = some es) :
    Frame n p w ((w.setMux k (es ++ [e])).setRouter r
      { R with executedRouteOrHandle := true }) := by
  have hmem := mem_of_get _ _ _ hr
  have hlt := lt_of_get _ _ _ hr
  have hself : ((w.setMux k (es ++ [e])).setRouter r
      { R with executedRouteOrHandle := true }).routers[r]?
      = some { R with executedRouteOrHandle := true } :=
    setRouter_get (w.setMux k (es ++ [e])) r _ hlt
  have hother : ∀ i, r ≠ i → ((w.setMux k (es ++ [e])).setRouter r
      { R with executedRouteOrHandle := true }).routers[i]? = w.routers[i]? :=
    fun i hi => setRouter_get_other (w.setMux k (es ++ [e])) r i _ hi
  refine ⟨?_, ⟨ok_of_arrays w _ _ rfl hg.1, ?_⟩, rfl, ?_, ?_, ?_, ?_⟩
  · refine inv_of_slices w _ hinv rfl ?_
    intro X hX
    rcases List.mem_or_eq_of_mem_set hX with h | h
    · exact ⟨X, h, rfl, rfl⟩
    · exact ⟨R, hmem, by rw [h], by rw [h]⟩
  · intro i X hi hX
    by_cases hir : r = i
    · subst hir
      rw [hself] at hX
      injection hX with hX
      rw [← hX]
      exact hg.2 r R hi hr
    · rw [hother i hir] at hX
      exact hg.2 i X hi hX
  · intro i hi
    exact hother i (by omega)
  · simp [Heap.setRouter, Heap.setMux]
  · intro i X hX
    by_cases hir : r = i
    · subst hir
      rw [hr] at hX
      injection hX with hX
      subst hX
      exact ⟨_, hself, rfl, rfl⟩
    · exact ⟨X, by rw [hother i hir]; exact hX, rfl, rfl⟩
  · exact tableGrows_trans _ _ _ (tableGrows_setMux w k es e hes) (tableGrows_of_eq _ _ rfl)

theorem Handle_Frame (E : Env) (n : Nat) (p : Slice) (w w1 : Heap) (r : Nat) (pattern : Str)
    (h0 : Handler) (hn : n ≤ r) (hinv : w.inv) (hg : w.guards n p)
    (hH : Handle E r pattern h0 w = .ok w1) : Frame n p w w1 := by
  cases hr : w.routers[r]? with
  | none => simp [Handle, hr] at hH
  | some R =>
    obtain ⟨es, hes, _, hw1⟩ := Handle_ok E w w1 r R pattern h0 hr hH
    subst hw1
    exact register_Frame n p w r R _ es _ hn hinv hg hr hes

theorem newRouter_Frame (n : Nat) (p : Slice) (w : Heap) (path : Str)
    (hn : n ≤ w.routers.length) (hinv : w.inv) (hg : w.guards n p) :
    Frame n p w (newRouter path w).2 := by
  refine ⟨inv_newRouter path w hinv, ⟨ok_of_arrays w _ _ rfl hg.1, ?_⟩, rfl, ?_, ?_, ?_,
    tableGrows_newRouter path w⟩
  · intro i X hi hX
    rw [newRouter_eq] at hX
    by_cases hlt : i < w.routers.length
    · simp only [List.getElem?_append_left hlt] at hX
      exact hg.2 i X hi hX
    · have hX' : (w.routers ++ [freshRouter path w.muxes.length])[i]? = some X := hX
      rw [List.getElem?_append_right (by omega)] at hX'
      have hX2 : X = freshRouter path w.muxes.length := by
        cases hidx : i - w.routers.length with
        | zero => rw [hidx] at hX'; simpa using hX'.symm
        | succ j => rw [hidx] at hX'; simp at hX'
      rw [hX2]
      exact ⟨Or.inr (Or.inr (Or.inl rfl)), Or.inr (Or.inr (Or.inl rfl))⟩
  · intro i hi
    rw [newRouter_eq]
    exact List.getElem?_append_left (by omega)
  · rw [newRouter_eq]; simp
  · intro i X hX
    refine ⟨X, ?_, rfl, rfl⟩
    rw [newRouter_eq]
    show (w.routers ++ _)[i]? = some X
    rw [List.getElem?_append_left (lt_of_get _ _ _ hX)]
    exact hX

theorem Use_Frame (E : Env) (n : Nat) (p : Slice) (w w1 : Heap) (r : Nat)
    (mws : List Middleware) (hn : n ≤ r) (hinv : w.inv) (hg : w.guards n p)
    (hU : Use E r mws w = .ok w1) : Frame n p w w1 := by
  cases hr : w.routers[r]? with
  | none => simp [Use, hr] at hU
  | some R =>
    have hmem := mem_of_get _ _ _ hr
    have hlt := lt_of_get _ _ _ hr
    have hokR := hinv.1 R hmem
    have hsafeR := hg.2 r R hn hr
    obtain ⟨hlen, hoth, hfr⟩ := Use_frame E w w1 r R mws hr hU
    have hsafeT : safe p (useTarget R) := by
      unfold useTarget
      split
      · exact hsafeR.1
      · exact hsafeR.2
    have hokT : w.ok (useTarget R) := by
      unfold useTarget
      split
      · exact hokR.1
      · exact hokR.2
    obtain ⟨hel, hokp⟩ := hfr p hg.1 hokT hsafeT
    have hnew : ∃ R1, w1.routers[r]? = some R1 ∧ R1.path = R.path ∧ R1.serveMux = R.serveMux ∧
        safe p R1.handlerMiddlewares ∧ safe p R1.subRouterMiddlewares := by
      cases hreg : R.executedRouteOrHandle with
      | true => rw [Use_registered E w r R mws hr hreg] at hU; exact Except.noConfusion hU
      | false =>
        cases hc : R.inGroupOrWith with
        | true =>
          rw [Use_clone E w r R mws hr hreg hc] at hU
          injection hU with hU
          subst hU
          exact ⟨_, setRouter_get _ _ _ (by rw [append_routers]; exact hlt), rfl, rfl,
            append_safe E w p _ mws hg.1 hsafeR.1, hsafeR.2⟩
        | false =>
          rw [Use_origin E w r R mws hr hreg hc] at hU
          injection hU with hU
          subst hU
          exact ⟨_, setRouter_get _ _ _ (by rw [append_routers]; exact hlt), rfl, rfl,
            hsafeR.1, append_safe E w p _ mws hg.1 hsafeR.2⟩
    obtain ⟨R1, hr1, hp1, hx1, hs1, hs2⟩ := hnew
    refine ⟨inv_Use E w w1 r mws hinv hU, ⟨hokp, ?_⟩, hel, ?_, by omega, ?_,
      tableGrows_of_eq _ _ (Use_muxes E w w1 r mws hU)⟩
    · intro i X hi hX
      by_cases hir : i = r
      · subst hir
        rw [hr1] at hX
        injection hX with hX
        subst hX
        exact ⟨hs1, hs2⟩
      · rw [hoth i hir] at hX
        exact hg.2 i X hi hX
    · intro i hi
      exact hoth i (by omega)
    · intro i X hX
      by_cases hir : i = r
      · subst hir
        rw [hr] at hX
        injection hX with hX
        subst hX
        exact ⟨R1, hr1, hp1, hx1⟩
      · exact ⟨X, by rw [hoth i hir]; exact hX, rfl, rfl⟩

theorem With_Frame (E : Env) (n : Nat) (p : Slice) (w w1 : Heap) (r c : Nat)
    (mws : List Middleware) (hn : n ≤ r) (hinv : w.inv) (hg : w.guards n p)
    (hW : With E r mws w = .ok (c, w1)) : Frame n p w w1 ∧ n ≤ c := by
  cases hr : w.routers[r]? with
  | none => simp [With, cloneForWith, hr] at hW
  | some R =>
    have hmem := mem_of_get _ _ _ hr
    have hlt := lt_of_get _ _ _ hr
    have hokR := inv_okRouter w hinv r R hr
    have hsafeR := hg.2 r R hn hr
    obtain ⟨w1', Rc, hWeq, hcl, hlen, hold, hmux, hpc, hxc, hsrm, _, _, _, _, _, _, _⟩ :=
      With_spec E w r R mws hr hokR
    rw [hWeq] at hW
    injection hW with hW
    injection hW with hc hw
    subst hc
    subst hw
    obtain ⟨hel, hokp⟩ := With_frame E w w1' r _ R mws hr hWeq p hg.1 hokR.1 hsafeR.1
    have hRc : safe p Rc.handlerMiddlewares := by
      have heq := With_eq E w r R mws hr
      rw [hWeq] at heq
      injection heq with heq
      injection heq with _ heq
      have hcl2 := hcl
      rw [heq] at hcl2
      rw [setRouter_get _ _ _ (by rw [append_routers]; simp)] at hcl2
      injection hcl2 with hcl2
      rw [← hcl2]
      exact append_safe E _ p _ mws (ok_of_arrays w _ _ rfl hg.1) hsafeR.1
    refine ⟨⟨inv_With E w w1' r _ mws hinv hWeq, ⟨hokp, ?_⟩, hel, ?_, by omega, ?_,
      tableGrows_of_eq _ _ hmux⟩, by omega⟩
    · intro i X hi hX
      by_cases hil : i < w.routers.length
      · rw [hold i hil] at hX
        exact hg.2 i X hi hX
      · have hi' : i = w.routers.length := by
          have := lt_of_get _ _ _ hX
          omega
        subst hi'
        rw [hcl] at hX
        injection hX with hX
        subst hX
        exact ⟨hRc, by rw [hsrm]; exact hsafeR.2⟩
    · intro i hi
      exact hold i (by omega)
    · intro i X hX
      exact ⟨X, by rw [hold i (lt_of_get _ _ _ hX)]; exact hX, rfl, rfl⟩

theorem Group_Frame (E : Env) (n : Nat) (p : Slice) (w w1 : Heap) (r : Nat) (f : Callback)
    (hn : n ≤ r) (hinv : w.inv) (hg : w.guards n p)
    (hf : ∀ cur v v1, n ≤ cur → v.inv → v.guards n p → f cur v = .ok v1 → Frame n p v v1)
    (hG : Group E r (some f) w = .ok w1) : Frame n p w w1 := by
  unfold Group at hG
  cases hW : With E r [] w with
  | error e => simp [hW] at hG
  | ok q =>
    obtain ⟨c, w0⟩ := q
    simp only [hW] at hG
    obtain ⟨hF, hc⟩ := With_Frame E n p w w0 r c [] hn hinv hg hW
    exact Frame_trans n p w w0 w1 hF (hf c w0 w1 hc hF.1 hF.2.1 hG)

theorem Route_Frame (E : Env) (n : Nat) (p : Slice) (w w1 : Heap) (r : Nat) (pattern : Str)
    (f : Callback) (hn : n ≤ r) (hinv : w.inv) (hg : w.guards n p)
    (hf : ∀ cur v v1, n ≤ cur → v.inv → v.guards n p → f cur v = .ok v1 → Frame n p v v1)
    (hR : Route E r pattern (some f) w = .ok w1) : Frame n p w w1 := by
  obtain ⟨f', c, R, w2, R2, S, es, hf', _, hr, hcall, hr2, _, hes, _, hw1⟩ :=
    Route_ok E w w1 r pattern _ hR
  injection hf' with hf'
  subst hf'
  subst hw1
  have hlt := lt_of_get _ _ _ hr
  have hF1 := newRouter_Frame n p w (joinPathAndPattern R.path (addSlash c pattern))
    (by omega) hinv hg
  have hF2 := hf _ _ w2 (by omega) hF1.1 hF1.2.1 hcall
  have hF3 := register_Frame n p w2 r R2 R2.serveMux es
    (S.path, Handler.router w.routers.length) hn hF2.1 hF2.2.1 hr2 hes
  exact Frame_trans n p _ _ _ hF1 (Frame_trans n p _ _ _ hF2 hF3)

/-- A registration block run on a router with index `n` or more keeps the
frame. -/
theorem Prog_frame (E : Env) (n : Nat) (p : Slice) (prog : Prog) :
    ∀ (cur : Nat) (w w1 : Heap), n ≤ cur → w.inv → w.guards n p →
      prog.run E cur w = .ok w1 → Frame n p w w1 := by
  induction prog with
  | done =>
    intro cur w w1 _ hinv hg hrun
    simp only [Prog.run] at hrun
    injection hrun with hrun
    subst hrun
    exact Frame_refl n p w hinv hg
  | use mws rest ih =>
    intro cur w w1 hn hinv hg hrun
    simp only [Prog.run] at hrun
    cases hU : Use E cur mws w with
    | error e => simp [hU] at hrun
    | ok w0 =>
      simp only [hU] at hrun
      have hF := Use_Frame E n p w w0 cur mws hn hinv hg hU
      exact Frame_trans n p w w0 w1 hF (ih cur w0 w1 hn hF.1 hF.2.1 hrun)
  | handle pattern handler rest ih =>
    intro cur w w1 hn hinv hg hrun
    simp only [Prog.run] at hrun
    cases hH : Handle E cur pattern handler w with
    | error e => simp [hH] at hrun
    | ok w0 =>
      simp only [hH] at hrun
      have hF := Handle_Frame E n p w w0 cur pattern handler hn hinv hg hH
      exact Frame_trans n p w w0 w1 hF (ih cur w0 w1 hn hF.1 hF.2.1 hrun)
  | withDo mws body rest ihb ihr =>
    intro cur w w1 hn hinv hg hrun
    simp only [Prog.run] at hrun
    cases hW : With E cur mws w with
    | error e => simp [hW] at hrun
    | ok q =>
      obtain ⟨c, w0⟩ := q
      simp only [hW] at hrun
      obtain ⟨hF, hc⟩ := With_Frame E n p w w0 cur c mws hn hinv hg hW
      cases hb : body.run E c w0 with
      | error e => simp [hb] at hrun
      | ok w2 =>
        simp only [hb] at hrun
        have hF2 := ihb c w0 w2 hc hF.1 hF.2.1 hb
        exact Frame_trans n p w w0 w1 hF
          (Frame_trans n p w0 w2 w1 hF2 (ihr cur w2 w1 hn hF2.1 hF2.2.1 hrun))
  | group body rest ihb ihr =>
    intro cur w w1 hn hinv hg hrun
    simp only [Prog.run] at hrun
    cases hG : Group E cur (some (body.run E)) w with
    | error e => simp [hG] at hrun
    | ok w0 =>
      simp only [hG] at hrun
      have hF := Group_Frame E n p w w0 cur (body.run E) hn hinv hg ihb hG
      exact Frame_trans n p w w0 w1 hF (ihr cur w0 w1 hn hF.1 hF.2.1 hrun)
  | route pattern body rest ihb ihr =>
    intro cur w w1 hn hinv hg hrun
    simp only [Prog.run] at hrun
    cases hR : Route E cur pattern (some (body.run E)) w with
    | error e => simp [hR] at hrun
    | ok w0 =>
      simp only [hR] at hrun
      have hF := Route_Frame E n p w w0 cur pattern (body.run E) hn hinv hg ihb hR
      exact Frame_trans n p w w0 w1 hF (ihr cur w0 w1 hn hF.1 hF.2.1 hrun)

theorem set_getD_self (l : List (List Middleware)) (i : Nat) : l.set i (l.getD i []) = l := by
  by_cases hi : i < l.length
  · apply List.ext_getElem?
    intro j
    by_cases hij : i = j
    · subst hij
      simp [List.getElem?_set, hi, List.getD_eq_getElem?_getD, List.getElem?_eq_getElem hi]
    · simp [List.getElem?_set, hij]
  · exact List.set_eq_of_length_le (by omega)

/-- An `append` of no elements to a slice in order leaves the arrays as they
are. -/
theorem append_nil_arrays (E : Env) (w : Heap) (s : Slice) (hs : w.ok s) :
    (w.append E s []).2.arrays = w.arrays := by
  unfold Heap.append
  have hle : s.len + ([] : List Middleware).length ≤ s.cap := by simpa using hs.1
  simp only [hle, if_true, overwrite_nil]
  exact set_getD_self _ _

/-- The heap after `With` on `r`: the slices of `r` are guarded against every
append through the clone. -/
theorem With_guards (E : Env) (w w0 : Heap) (r c : Nat) (R : Router) (mws : List Middleware)
    (hr : w.routers[r]? = some R) (hinv : w.inv) (hW : With E r mws w = .ok (c, w0)) :
    c = w.routers.length ∧ w0.inv ∧
    w0.guards w.routers.length R.handlerMiddlewares ∧
    w0.guards w.routers.length R.subRouterMiddlewares := by
  have hokR := inv_okRouter w hinv r R hr
  obtain ⟨w1', Rc, hWeq, hcl, hlen, _, _, _, _, hsrm, _, _, _, _, _, _, hokR1⟩ :=
    With_spec E w r R mws hr hokR
  rw [hWeq] at hW
  injection hW with hW
  injection hW with hc hw
  subst hc
  subst hw
  have hRc : Rc.handlerMiddlewares
      = (({ w with routers := w.routers ++ [cloneOf R] } : Heap).append E
          R.handlerMiddlewares mws).1 := by
    have heq := With_eq E w r R mws hr
    rw [hWeq] at heq
    injection heq with heq
    injection heq with _ heq
    have hcl2 := hcl
    rw [heq] at hcl2
    rw [setRouter_get _ _ _ (by rw [append_routers]; simp)] at hcl2
    injection hcl2 with hcl2
    rw [← hcl2]
  have hself1 : safe R.handlerMiddlewares R.handlerMiddlewares :=
    Or.inr (Or.inr (Or.inr (le_refl _)))
  have hself2 : safe R.subRouterMiddlewares R.subRouterMiddlewares :=
    Or.inr (Or.inr (Or.inr (le_refl _)))
  have h12 : safe R.handlerMiddlewares R.subRouterMiddlewares := by
    rcases hokR.2.2 with h | h | h
    · exact Or.inl h
    · exact Or.inr (Or.inl h)
    · exact Or.inr (Or.inr (Or.inl h))
  have h21 : safe R.subRouterMiddlewares R.handlerMiddlewares := by
    rcases hokR.2.2 with h | h | h
    · exact Or.inl (fun e => h e.symm)
    · exact Or.inr (Or.inr (Or.inl h))
    · exact Or.inr (Or.inl h)
  have hactive : ∀ (i : Nat) (X : Router), w.routers.length ≤ i → w1'.routers[i]? = some X →
      X = Rc := by
    intro i X hi hX
    have hi' : i = w.routers.length := by
      have := lt_of_get _ _ _ hX
      omega
    subst hi'
    rw [hcl] at hX
    injection hX with hX
    exact hX.symm
  refine ⟨rfl, inv_With E w w1' r _ mws hinv hWeq, ⟨hokR1.1, ?_⟩, ⟨hokR1.2.1, ?_⟩⟩
  · intro i X hi hX
    rw [hactive i X hi hX, hRc, hsrm]
    exact ⟨append_safe E _ _ _ mws (ok_of_arrays w _ _ rfl hokR.1) hself1, h12⟩
  · intro i X hi hX
    rw [hactive i X hi hX, hRc, hsrm]
    exact ⟨append_safe E _ _ _ mws (ok_of_arrays w _ _ rfl hokR.2.1) h21, hself2⟩

theorem newRouter_guards (w : Heap) (p : Slice) (path : Str) (hp : w.ok p) :
    (newRouter path w).2.guards w.routers.length p := by
  refine ⟨ok_of_arrays w _ _ rfl hp, ?_⟩
  intro i X hi hX
  rw [newRouter_eq] at hX
  have hX' : (w.routers ++ [freshRouter path w.muxes.length])[i]? = some X := hX
  rw [List.getElem?_append_right hi] at hX'
  have hX2 : X = freshRouter path w.muxes.length := by
    cases hidx : i - w.routers.length with
    | zero => rw [hidx] at hX'; simpa using hX'.symm
    | succ j => rw [hidx] at hX'; simp at hX'
  rw [hX2]
  exact ⟨Or.inr (Or.inr (Or.inl rfl)), Or.inr (Or.inr (Or.inl rfl))⟩

theorem routeFinish_eq (E : Env) (w2 : Heap) (r sub : Nat) (R2 S : Router) (es : Table)
    (hr2 : w2.routers[r]? = some R2) (hs : w2.routers[sub]? = some S)
    (hes : w2.muxes[R2.serveMux]? = some es)
    (hacc : E.muxAccepts (es.map Prod.fst) S.path = true) :
    routeFinish E r sub w2
      = .ok ((w2.setMux R2.serveMux (es ++ [(S.path, Handler.router sub)])).setRouter r
          { R2 with executedRouteOrHandle := true }) := by
  unfold routeFinish
  have hrr : (w2.setMux R2.serveMux (es ++ [(S.path, Handler.router sub)])).routers[r]?
      = some R2 := hr2
  simp only [hr2, hs, muxHandle_eq E w2 R2.serveMux S.path (Handler.router sub) es hes hacc, hrr]

/-- C11: `Group(fn)` is `fn` called on `r.With()`: the callback receives a
scoped clone with the path, the table and the handler-scoped middlewares of
`r`; when the callback is a registration block on the clone (`Use`, `Handle`,
`With`, `Group`, `Route`, nested as one likes), `r` is the same router value
after `Group` and its two middleware lists hold what they held, so a handler
registered on `r` afterwards, and the clone of a sibling `Group`, carry the
handler-scoped middlewares `r` had and nothing added inside the group;
`Group(nil)` leaves every router, every table and every slice as it was. -/
theorem C11_Group_is_With_then_callback (E : Env) (w w1 : Heap) (r : Nat) (R : Router)
    (body : Prog) (hr : w.routers[r]? = some R) (hinv : w.inv)
    (hG : Group E r (some (body.run E)) w = .ok w1) :
    (∀ fn : Option Callback, Group E r fn w
      = match With E r [] w with
        | .error e => .error e
        | .ok q =>
          match fn with
          | none => .ok q.2
          | some f => f q.1 q.2) ∧
    (∃ c w0 Rc, With E r [] w = .ok (c, w0) ∧ w0.routers[c]? = some Rc ∧
      Rc.path = R.path ∧ Rc.serveMux = R.serveMux ∧ Rc.inGroupOrWith = true ∧
      w0.elems Rc.handlerMiddlewares = w.elems R.handlerMiddlewares ∧
      body.run E c w0 = .ok w1) ∧
    (w1.routers[r]? = some R ∧ w1.view R = w.view R) ∧
    (∀ pattern h0 w2, Handle E r pattern h0 w1 = .ok w2 →
      ∃ es, w1.muxes[R.serveMux]? = some es ∧
        w2.muxes[R.serveMux]? = some (es ++
          [(handleKey R.path pattern, chain (w.elems R.handlerMiddlewares) h0)])) ∧
    (∃ c2 w2 Rc2, With E r [] w1 = .ok (c2, w2) ∧ w2.routers[c2]? = some Rc2 ∧
      w2.elems Rc2.handlerMiddlewares = w.elems R.handlerMiddlewares) ∧
    (∃ w0, Group E r none w = .ok w0 ∧
      (∀ i, i < w.routers.length → w0.routers[i]? = w.routers[i]?) ∧
      w0.muxes = w.muxes ∧ ∀ s, w0.elems s = w.elems s) := by
  have hokR := inv_okRouter w hinv r R hr
  have hlt := lt_of_get _ _ _ hr
  obtain ⟨w0, Rc, hW, hcl, _, hold, hmux, hpc, hxc, _, _, hclone, helc, hel1, hel2, _, _⟩ :=
    With_spec E w r R [] hr hokR
  have hrun : body.run E w.routers.length w0 = .ok w1 := by
    simpa [Group, hW] using hG
  obtain ⟨_, hinv0, hg1, hg2⟩ := With_guards E w w0 r _ R [] hr hinv hW
  have hF1 := Prog_frame E w.routers.length R.handlerMiddlewares body _ w0 w1 (le_refl _)
    hinv0 hg1 hrun
  have hF2 := Prog_frame E w.routers.length R.subRouterMiddlewares body _ w0 w1 (le_refl _)
    hinv0 hg2 hrun
  have hr1 : w1.routers[r]? = some R := by
    rw [hF1.2.2.2.1 r hlt, hold r hlt]; exact hr
  have hv1 : w1.elems R.handlerMiddlewares = w.elems R.handlerMiddlewares := by
    rw [hF1.2.2.1, hel1]
  have hv2 : w1.elems R.subRouterMiddlewares = w.elems R.subRouterMiddlewares := by
    rw [hF2.2.2.1, hel2]
  refine ⟨?_, ?_, ⟨hr1, ?_⟩, ?_, ?_, ?_⟩
  · intro fn
    unfold Group
    cases With E r [] w with
    | error e => rfl
    | ok q => cases q; cases fn <;> rfl
  · exact ⟨_, w0, Rc, hW, hcl, hpc, hxc, hclone, by simpa using helc, hrun⟩
  · simp only [Heap.view, hv1, hv2]
  · intro pattern h0 w2 hH
    obtain ⟨es, hes, hent, _⟩ := Handle_entry E w1 w2 r R pattern h0 hr1 hH
    rw [hv1] at hent
    exact ⟨es, hes, hent⟩
  · obtain ⟨w2, Rc2, hW2, hcl2, _, _, _, _, _, _, _, _, helc2, _, _, _, _⟩ :=
      With_spec E w1 r R [] hr1 (inv_okRouter w1 hF1.1 r R hr1)
    exact ⟨_, w2, Rc2, hW2, hcl2, by rw [helc2, hv1]; simp⟩
  · refine ⟨w0, by simp [Group, hW], hold, hmux, ?_⟩
    intro s
    have heq := With_eq E w r R [] hr
    rw [hW] at heq
    injection heq with heq
    injection heq with _ heq
    rw [heq]
    show Heap.elems (Heap.append E _ R.handlerMiddlewares []).2 s = _
    unfold Heap.elems
    have harr := append_nil_arrays E ({ w with routers := w.routers ++ [cloneOf R] } : Heap)
      R.handlerMiddlewares (ok_of_arrays w _ _ rfl hokR.1)
    rw [harr]

/-- C11, on the first block of the test "a not affected by b middleware":
after `r.Group(func(r) { r.Use(m("a")); r.Handle("/a/", h("a")) })` the root is
the router value it was, with the lists it had. -/
theorem C11_Group_is_With_then_callback_witness :
    (heapOf (Group exampleEnv 0 (some (blockA.run exampleEnv))
        (NewRouter Heap.empty).2)).routers[0]? = some (freshRouter [] 0) ∧
    (heapOf (Group exampleEnv 0 (some (blockA.run exampleEnv)) (NewRouter Heap.empty).2)).view
        (freshRouter [] 0)
      = (NewRouter Heap.empty).2.view (freshRouter [] 0) :=
  (C11_Group_is_With_then_callback exampleEnv (NewRouter Heap.empty).2
    (heapOf (Group exampleEnv 0 (some (blockA.run exampleEnv)) (NewRouter Heap.empty).2))
    0 (freshRouter [] 0) blockA rfl (inv_newRouter [] Heap.empty inv_empty) rfl).2.2.1

/-- C13: for a router `r` with path `P`, a pattern `s` with last character `c`
and a registration block as callback that returns: `Route(s, fn)` returns; the
child is allocated with the path `joinPathAndPattern(P, s')`, where `s'` is `s`
with `"/"` appended unless `s` ends in `"/"`; the callback runs on the child;
then the table of `r` gets one entry more, whose key is the path of the child
and whose handler is the child as the callback left it; the registered flag is
set on `r` and nothing else is stored; the path and both middleware lists of
`r` are as before. -/
theorem C13_Route_mounts_child (E : Env) (w w2 : Heap) (r : Nat) (R : Router) (s : Str)
    (c : Char) (body : Prog) (es0 : Table) (hr : w.routers[r]? = some R) (hinv : w.inv)
    (hes0 : w.muxes[R.serveMux]? = some es0) (hc : s.getLast? = some c)
    (hbody : body.run E w.routers.length
      (newRouter (joinPathAndPattern R.path (addSlash c s)) w).2 = .ok w2)
    (hacc : ∀ es, w2.muxes[R.serveMux]? = some es →
      E.muxAccepts (es.map Prod.fst) (joinPathAndPattern R.path (addSlash c s)) = true) :
    (c = '/' → addSlash c s = s) ∧ (c ≠ '/' → addSlash c s = s ++ ['/']) ∧
    (newRouter (joinPathAndPattern R.path (addSlash c s)) w).2.routers[w.routers.length]?
      = some (freshRouter (joinPathAndPattern R.path (addSlash c s)) w.muxes.length) ∧
    ∃ w1 S es, Route E r s (some (body.run E)) w = .ok w1 ∧
      w2.routers[w.routers.length]? = some S ∧
      S.path = joinPathAndPattern R.path (addSlash c s) ∧
      w2.muxes[R.serveMux]? = some es ∧
      w1.muxes[R.serveMux]?
        = some (es ++ [(joinPathAndPattern R.path (addSlash c s),
            Handler.router w.routers.length)]) ∧
      (∀ k, k ≠ R.serveMux → w1.muxes[k]? = w2.muxes[k]?) ∧
      w1.routers[r]? = some { R with executedRouteOrHandle := true } ∧
      w1.elems R.handlerMiddlewares = w.elems R.handlerMiddlewares ∧
      w1.elems R.subRouterMiddlewares = w.elems R.subRouterMiddlewares ∧
      (∀ i, i ≠ r → w1.routers[i]? = w2.routers[i]?) ∧
      w1.arrays = w2.arrays := by
  have hokR := inv_okRouter w hinv r R hr
  have hlt := lt_of_get _ _ _ hr
  have hS0 : (newRouter (joinPathAndPattern R.path (addSlash c s)) w).2.routers[
      w.routers.length]?
      = some (freshRouter (joinPathAndPattern R.path (addSlash c s)) w.muxes.length) := by
    simp [newRouter_eq]
  refine ⟨fun h => by simp [addSlash, h], fun h => by simp [addSlash, h], hS0, ?_⟩
  have hinvC := inv_newRouter (joinPathAndPattern R.path (addSlash c s)) w hinv
  have hF1 := Prog_frame E w.routers.length R.handlerMiddlewares body _ _ w2 (le_refl _)
    hinvC (newRouter_guards w _ _ hokR.1) hbody
  have hF2 := Prog_frame E w.routers.length R.subRouterMiddlewares body _ _ w2 (le_refl _)
    hinvC (newRouter_guards w _ _ hokR.2.1) hbody
  have hr2 : w2.routers[r]? = some R := by
    rw [hF1.2.2.2.1 r hlt, newRouter_eq]
    show (w.routers ++ _)[r]? = some R
    rw [List.getElem?_append_left hlt]
    exact hr
  obtain ⟨S, hs, hSp, _⟩ := hF1.2.2.2.2.2.1 _ _ hS0
  obtain ⟨extra, hes⟩ := tableGrows_trans _ _ _
    (tableGrows_newRouter (joinPathAndPattern R.path (addSlash c s)) w) hF1.2.2.2.2.2.2
    R.serveMux es0 hes0
  have hSp' : S.path = joinPathAndPattern R.path (addSlash c s) := hSp
  have hfin := routeFinish_eq E w2 r w.routers.length R S _ hr2 hs hes
    (by rw [hSp']; exact hacc _ hes)
  have hroute0 : Route E r s (some (body.run E)) w
      = routeFinish E r w.routers.length w2 := by
    rw [Route_eq_bind E w r R s c _ hr hc, hbody]
  have hroute := hroute0.trans hfin
  have hklt := lt_of_get _ _ _ hes
  have hlt2 := lt_of_get _ _ _ hr2
  refine ⟨_, S, _, hroute, hs, hSp', hes, ?_, ?_, ?_, ?_, ?_, ?_, rfl⟩
  · simp [Heap.setRouter, Heap.setMux, List.getElem?_set, hklt, hSp']
  · intro k hk
    simp [Heap.setRouter, Heap.setMux, List.getElem?_set, Ne.symm hk]
  · exact setRouter_get (w2.setMux _ _) r _ hlt2
  · exact hF1.2.2.1
  · exact hF2.2.2.1
  · intro i hi
    exact setRouter_get_other (w2.setMux _ _) r i _ (Ne.symm hi)

/-- C13, on the test "Route /a and Handler /b":
`r.Route("/a", func(r) { r.Handle("/b", h("b")) })` on the root mounts the
child at `"/a/"`, and the child's table holds `h("b")` under `"/a/b"`. -/
theorem C13_Route_mounts_child_witness :
    ∃ (S : Router) (es : Table),
      Route exampleEnv 0 "/a".toList
          (some ((Prog.handle "/b".toList (h "b") Prog.done).run exampleEnv))
          (NewRouter Heap.empty).2 = .ok routeABHeap ∧
      S.path = "/a/".toList ∧
      routeABHeap.muxes[0]? = some (es ++ [("/a/".toList, Handler.router 1)]) ∧
      routeABHeap.muxes[0]? = some [("/a/".toList, Handler.router 1)] ∧
      routeABHeap.muxes[1]? = some [("/a/b".toList, h "b")] :=
  match (C13_Route_mounts_child exampleEnv (NewRouter Heap.empty).2
      (heapOf ((Prog.handle "/b".toList (h "b") Prog.done).run exampleEnv 1
        (newRouter "/a/".toList (NewRouter Heap.empty).2).2))
      0 (freshRouter [] 0) "/a".toList 'a'
      (Prog.handle "/b".toList (h "b") Prog.done) [] rfl (inv_newRouter [] Heap.empty inv_empty)
      rfl rfl rfl (fun es hes => by
        have : es = [] := by
          have h0 : (heapOf ((Prog.handle "/b".toList (h "b") Prog.done).run exampleEnv 1
            (newRouter "/a/".toList (NewRouter Heap.empty).2).2)).muxes[0]? = some [] := rfl
          rw [show (freshRouter [] 0).serveMux = 0 from rfl, h0] at hes
          injection hes with hes
          exact hes.symm
        subst this
        rfl)).2.2.2 with
  | ⟨w1, S, es, hR, _, hSp, _, hm, _, _, _, _, _, _⟩ =>
    have hw : w1 = routeABHeap := Except.ok.inj (hR.symm.trans rfl)
    ⟨S, es, hw ▸ hR, hSp, hw ▸ hm, rfl, rfl⟩

/-! ## Lemmas on doubled separators -/

theorem slash_prefix_iff (s : Str) : ['/'] <+: s ↔ s.head? = some '/' := by
  cases s with
  | nil => simp
  | cons d ds =>
    simp only [List.cons_prefix_cons, List.nil_prefix, and_true, List.head?_cons,
      Option.some.injEq]
    exact eq_comm

theorem hasDouble_cons (c : Char) (s : Str) :
    hasDouble (c :: s) ↔ (c = '/' ∧ s.head? = some '/') ∨ hasDouble s := by
  unfold hasDouble
  rw [List.infix_cons_iff, List.cons_prefix_cons, slash_prefix_iff]
  constructor
  · rintro (⟨h1, h2⟩ | h)
    · exact Or.inl ⟨h1.symm, h2⟩
    · exact Or.inr h
  · rintro (⟨h1, h2⟩ | h)
    · exact Or.inl ⟨h1.symm, h2⟩
    · exact Or.inr h

theorem hasDouble_nil : ¬ hasDouble [] := by
  unfold hasDouble
  simp

/-- Without doubled separators the collapse changes nothing. -/
theorem collapsePairs_id (s : Str) (hs : ¬ hasDouble s) : collapsePairs s = s := by
  induction s with
  | nil => rfl
  | cons c rest ih =>
    rw [hasDouble_cons] at hs
    rw [collapsePairs_other c rest (fun h1 h2 => hs (Or.inl ⟨h1, h2⟩)),
      ih (fun h => hs (Or.inr h))]

theorem not_hasDouble_of_no_slash (s : Str) (hs : '/' ∉ s) : ¬ hasDouble s := by
  induction s with
  | nil => exact hasDouble_nil
  | cons c rest ih =>
    rw [hasDouble_cons]
    rintro (⟨h1, _⟩ | h)
    · exact hs (by rw [h1]; exact List.mem_cons_self _ _)
    · exact ih (fun hm => hs (List.mem_cons_of_mem c hm)) h

/-- Characters other than the separator pass through the collapse. -/
theorem collapsePairs_no_slash_append (x z : Str) (hx : '/' ∉ x) :
    collapsePairs (x ++ z) = x ++ collapsePairs z := by
  induction x with
  | nil => rfl
  | cons c rest ih =>
    have hc : c ≠ '/' := fun h => hx (by rw [h]; exact List.mem_cons_self _ _)
    rw [List.cons_append, collapsePairs_other c (rest ++ z) (fun h1 _ => hc h1),
      ih (fun hm => hx (List.mem_cons_of_mem c hm)), List.cons_append]

/-- A run of `n` separators before a string without separators collapses to a
run of `(n + 1) / 2`. -/
theorem collapsePairs_slashes (y : Str) (hy : '/' ∉ y) :
    ∀ n, collapsePairs (slashes n ++ y) = slashes ((n + 1) / 2) ++ y := by
  have hid : collapsePairs y = y := collapsePairs_id y (not_hasDouble_of_no_slash y hy)
  have hhead : y.head? ≠ some '/' := by
    intro h
    cases y with
    | nil => simp at h
    | cons d ds =>
      simp only [List.head?_cons, Option.some.injEq] at h
      exact hy (by rw [h]; exact List.mem_cons_self _ _)
  have key : ∀ k, ∀ n, n ≤ k →
      collapsePairs (slashes n ++ y) = slashes ((n + 1) / 2) ++ y := by
    intro k
    induction k with
    | zero =>
      intro n hn
      have : n = 0 := Nat.le_zero.mp hn
      subst this
      simpa [slashes] using hid
    | succ k ih =>
      intro n hn
      match n, hn with
      | 0, _ => simpa [slashes] using hid
      | 1, _ =>
        show collapsePairs ('/' :: y) = '/' :: y
        rw [collapsePairs_other '/' y (fun _ h => hhead h), hid]
      | n + 2, hn =>
        have hstep : (n + 2 + 1) / 2 = (n + 1) / 2 + 1 := by omega
        rw [hstep]
        show collapsePairs ('/' :: '/' :: (slashes n ++ y)) = '/' :: (slashes ((n + 1) / 2) ++ y)
        rw [collapsePairs_pair, ih n (by omega)]
  intro n
  exact key n n (le_refl _)

/-- The doubled separator at the junction of a string that ends with a
separator and a string that begins with one becomes one separator. -/
theorem collapsePairs_junction (p q : Str) (hp : ¬ hasDouble (p ++ ['/']))
    (hq : ¬ hasDouble ('/' :: q)) :
    collapsePairs (p ++ '/' :: '/' :: q) = p ++ '/' :: q := by
  induction p with
  | nil =>
    rw [hasDouble_cons] at hq
    show collapsePairs ('/' :: '/' :: q) = '/' :: q
    rw [collapsePairs_pair, collapsePairs_id q (fun h => hq (Or.inr h))]
  | cons c rest ih =>
    rw [List.cons_append, hasDouble_cons] at hp
    have hhead : (rest ++ '/' :: '/' :: q).head? = (rest ++ ['/']).head? := by
      cases rest <;> rfl
    rw [List.cons_append,
      collapsePairs_other c _ (fun h1 h2 => hp (Or.inl ⟨h1, by rw [← hhead]; exact h2⟩)),
      ih (fun h => hp (Or.inr h)), List.cons_append]

/-- Two strings without doubled separators have a concatenation without one,
unless the first ends and the second begins with a separator. -/
theorem not_hasDouble_append (p q : Str) (hp : ¬ hasDouble p) (hq : ¬ hasDouble q)
    (hj : ¬ (p.getLast? = some '/' ∧ q.head? = some '/')) : ¬ hasDouble (p ++ q) := by
  induction p with
  | nil => exact hq
  | cons c rest ih =>
    rw [hasDouble_cons] at hp
    rw [List.cons_append, hasDouble_cons]
    rintro (⟨h1, h2⟩ | h)
    · cases rest with
      | nil =>
        apply hj
        exact ⟨by rw [h1]; rfl, by simpa using h2⟩
      | cons d ds =>
        exact hp (Or.inl ⟨h1, by simpa using h2⟩)
    · refine ih (fun h' => hp (Or.inr h')) ?_ h
      rintro ⟨h3, h4⟩
      apply hj
      refine ⟨?_, h4⟩
      cases rest with
      | nil => simp at h3
      | cons d ds =>
        rw [List.getLast?_cons_cons]
        exact h3

/-! ## Lemmas on `stripPath` -/

/-- The path `StripSlashes` passes on, in terms of the last character. -/
theorem stripPath_eq (path : Str) :
    stripPath path
      = if 1 < path.length ∧ path.getLast? = some '/' then path.dropLast else path := by
  unfold stripPath
  rw [List.getLast?_eq_getElem?, List.dropLast_eq_take]

theorem stripPath_concat (p : Str) (hp : p ≠ []) : stripPath (p ++ ['/']) = p := by
  have hlen : 1 < (p ++ ['/']).length := by
    cases p with
    | nil => exact absurd rfl hp
    | cons c rest => simp
  rw [stripPath_eq, if_pos ⟨hlen, List.getLast?_concat p⟩, List.dropLast_concat]

theorem stripPath_ne_nil (q : Str) (hq : q ≠ []) : stripPath q ≠ [] := by
  rw [stripPath_eq]
  split
  · rename_i hc
    intro hd
    have hl : q.dropLast.length = 0 := by rw [hd]; rfl
    rw [List.length_dropLast] at hl
    omega
  · exact hq

theorem ServeHTTP_StripSlashes (E : Env) (w : Heap) (fuel : Nat) (next : Handler)
    (req : Request) (t : List Event) :
    ServeHTTP E w fuel (StripSlashes next) req t
      = ServeHTTP E w fuel next { req with path := stripPath req.path } t := by
  unfold StripSlashes
  rw [ServeHTTP_wrap]

/-! ## The claims on joining paths and on `StripSlashes` -/

/-- C21, as the code has it: `joinPathAndPattern("/a/", "//b")` is `"/a//b"`.
The concatenation is `"/a///b"`; the single pass replaces the first two of the
three separators by one and leaves the third. -/
theorem C21_join_triple_separator :
    joinPathAndPattern "/a/".toList "//b".toList = "/a//b".toList ∧
    "/a/".toList ++ "//b".toList = "/a///b".toList ∧
    hasDouble (joinPathAndPattern "/a/".toList "//b".toList) := by
  decide

/-- C21 as stated fails: `joinPathAndPattern("/a/", "//b")` is `"/a//b"`, not
`"/a/b"`. -/
theorem C21_counterexample :
    joinPathAndPattern "/a/".toList "//b".toList = "/a//b".toList ∧
    joinPathAndPattern "/a/".toList "//b".toList ≠ "/a/b".toList := by
  decide

/-- C22: for `x` and `y` without separator, `joinPathAndPattern` of `x` followed
by `a` separators and of `b` separators followed by `y` is `x`, then `k`
separators, then `y`, with `k = (a + b + 1) / 2`, the half of `a + b` rounded
up (for every `a` and `b`, also `a + b = 0`).  So three separators become two:
the result then contains `"//"`; `("a/", "//b")` gives `"a//b"`. -/
theorem C22_join_one_pass (x y : Str) (a b : Nat) (hx : '/' ∉ x) (hy : '/' ∉ y) :
    joinPathAndPattern (x ++ slashes a) (slashes b ++ y)
      = x ++ slashes ((a + b + 1) / 2) ++ y ∧
    2 * ((a + b + 1) / 2) < a + b + 2 ∧ a + b ≤ 2 * ((a + b + 1) / 2) ∧
    (a + b = 3 → joinPathAndPattern (x ++ slashes a) (slashes b ++ y) = x ++ slashes 2 ++ y ∧
      hasDouble (joinPathAndPattern (x ++ slashes a) (slashes b ++ y))) ∧
    joinPathAndPattern "a/".toList "//b".toList = "a//b".toList := by
  have hmain : joinPathAndPattern (x ++ slashes a) (slashes b ++ y)
      = x ++ slashes ((a + b + 1) / 2) ++ y := by
    have hcat : x ++ slashes a ++ (slashes b ++ y) = x ++ (slashes (a + b) ++ y) := by
      unfold slashes
      rw [List.replicate_add]
      simp only [List.append_assoc]
    rw [joinPathAndPattern_eq, hcat, collapsePairs_no_slash_append x _ hx,
      collapsePairs_slashes y hy (a + b), List.append_assoc]
  refine ⟨hmain, by omega, by omega, ?_, by decide⟩
  intro h3
  rw [hmain]
  have hk : (a + b + 1) / 2 = 2 := by omega
  rw [hk]
  exact ⟨rfl, ⟨x, y, rfl⟩⟩

/-- C22, on `x = "a"`, `a = 2`, `b = 1`, `y = "b"`: `("a//", "/b")` gives
`"a//b"`. -/
theorem C22_join_one_pass_witness :
    joinPathAndPattern ("a".toList ++ slashes 2) (slashes 1 ++ "b".toList)
      = "a".toList ++ slashes ((2 + 1 + 1) / 2) ++ "b".toList :=
  (C22_join_one_pass "a".toList "b".toList 2 1 (by decide) (by decide)).1

/-- C23: serving with `StripSlashes(next)` is serving with `next`, once, on the
request whose path is `stripPath` of the request path: the path without its
last character when it is longer than one character and its last character is
`"/"`, the path itself otherwise, so for `"/"` and `""`.  In the test "a
handler and middleware.StripSlashes" the request for `"/a/"` reaches the
handler registered at `"/a"`. -/
theorem C23_StripSlashes_strips_one (E : Env) (w : Heap) (fuel : Nat) (next : Handler)
    (req : Request) (t : List Event) :
    ServeHTTP E w fuel (StripSlashes next) req t
      = ServeHTTP E w fuel next { req with path := stripPath req.path } t ∧
    (1 < req.path.length → req.path.getLast? = some '/' →
      stripPath req.path = req.path.dropLast) ∧
    (¬ (1 < req.path.length ∧ req.path.getLast? = some '/') →
      stripPath req.path = req.path) ∧
    stripPath "/".toList = "/".toList ∧ stripPath [] = [] ∧
    stripPath "/a/".toList = "/a".toList ∧
    ServeHTTP exampleEnv stripHeap 2 (Handler.router 0) (get "/a/") []
      = some [Event.note "ah"] := by
  refine ⟨ServeHTTP_StripSlashes E w fuel next req t, ?_, ?_, by decide, by decide,
    by decide, by rfl⟩
  · intro h1 h2
    rw [stripPath_eq, if_pos ⟨h1, h2⟩]
  · intro hn
    rw [stripPath_eq, if_neg hn]

/-- C23, on the request for `"/a/"` and the handler `h("a")`: the handler
runs, on the path `"/a"`. -/
theorem C23_StripSlashes_strips_one_witness :
    ServeHTTP exampleEnv Heap.empty 1 (StripSlashes (h "a")) (get "/a/") []
      = ServeHTTP exampleEnv Heap.empty 1 (h "a")
          { get "/a/" with path := stripPath (get "/a/").path } [] ∧
    stripPath (get "/a/").path = (get "/a/").path.dropLast :=
  ⟨(C23_StripSlashes_strips_one exampleEnv Heap.empty 1 (h "a") (get "/a/") []).1,
   (C23_StripSlashes_strips_one exampleEnv Heap.empty 1 (h "a") (get "/a/") []).2.1
     (by decide) (by decide)⟩

/-- C25: for `path` and `pattern` that each contain no `"//"`,
`joinPathAndPattern(path, pattern)` contains no `"//"`; it is
`path ++ pattern` unless `path` ends and `pattern` begins with `"/"`, and then
it is `path` followed by `pattern` without its first character. -/
theorem C25_join_no_double (path pattern : Str) (hp : ¬ hasDouble path)
    (hq : ¬ hasDouble pattern) :
    ¬ hasDouble (joinPathAndPattern path pattern) ∧
    (¬ (path.getLast? = some '/' ∧ pattern.head? = some '/') →
      joinPathAndPattern path pattern = path ++ pattern) ∧
    (path.getLast? = some '/' → pattern.head? = some '/' →
      joinPathAndPattern path pattern = path ++ pattern.tail) := by
  rw [joinPathAndPattern_eq]
  by_cases hj : path.getLast? = some '/' ∧ pattern.head? = some '/'
  · obtain ⟨p, rfl⟩ := List.getLast?_eq_some_iff.mp hj.1
    obtain ⟨q, rfl⟩ : ∃ q, pattern = '/' :: q := by
      cases pattern with
      | nil => exact absurd hj.2 (by simp)
      | cons d ds =>
        have hd : d = '/' := by simpa using hj.2
        exact ⟨ds, by rw [hd]⟩
    have hcat : p ++ ['/'] ++ '/' :: q = p ++ '/' :: '/' :: q := by simp
    have hres : collapsePairs (p ++ ['/'] ++ '/' :: q) = p ++ ['/'] ++ q := by
      rw [hcat, collapsePairs_junction p q hp hq]
      simp
    have hq2 := hq
    rw [hasDouble_cons] at hq2
    refine ⟨?_, fun hn => absurd hj hn, fun _ _ => hres⟩
    rw [hres]
    exact not_hasDouble_append (p ++ ['/']) q hp (fun h => hq2 (Or.inr h))
      (fun h => hq2 (Or.inl ⟨rfl, h.2⟩))
  · have hnd := not_hasDouble_append path pattern hp hq hj
    rw [collapsePairs_id _ hnd]
    exact ⟨hnd, fun _ => rfl, fun h1 h2 => absurd ⟨h1, h2⟩ hj⟩

/-- C25, on `("/a/", "/b")`: the result is `"/a/b"`, without `"//"`. -/
theorem C25_join_no_double_witness :
    ¬ hasDouble (joinPathAndPattern "/a/".toList "/b".toList) ∧
    joinPathAndPattern "/a/".toList "/b".toList = "/a/".toList ++ "/b".toList.tail :=
  ⟨(C25_join_no_double "/a/".toList "/b".toList (by decide) (by decide)).1,
   (C25_join_no_double "/a/".toList "/b".toList (by decide) (by decide)).2.2
     (by decide) (by decide)⟩

/-- C27: for a non-empty path `p`, the request for `p ++ "/"` is passed on by
`StripSlashes` with path `p`; when `p` ends with `"/"` the path passed on still
ends with `"/"`, and when `p` is also longer than one character a second
`StripSlashes` changes it again (`"/a//"` is passed on as `"/a/"`, and `"/a/"`
as `"/a"`).  The path passed on for a non-empty request path is not empty. -/
theorem C27_StripSlashes_one_slash_only (E : Env) (w : Heap) (fuel : Nat) (next : Handler)
    (req : Request) (t : List Event) (p : Str) (hp : p ≠ []) (hlast : p.getLast? = some '/')
    (hreq : req.path = p ++ ['/']) :
    ServeHTTP E w fuel (StripSlashes next) req t
      = ServeHTTP E w fuel next { req with path := p } t ∧
    stripPath (p ++ ['/']) = p ∧
    (stripPath (p ++ ['/'])).getLast? = some '/' ∧
    (1 < p.length → stripPath (stripPath (p ++ ['/'])) ≠ stripPath (p ++ ['/'])) ∧
    stripPath "/a//".toList = "/a/".toList ∧ stripPath "/a/".toList = "/a".toList ∧
    (∀ q : Str, q ≠ [] → stripPath q ≠ []) := by
  have hs := stripPath_concat p hp
  refine ⟨?_, hs, by rw [hs]; exact hlast, ?_, by decide, by decide, stripPath_ne_nil⟩
  · rw [ServeHTTP_StripSlashes, hreq, hs]
  · intro hlen
    rw [hs, stripPath_eq, if_pos ⟨hlen, hlast⟩]
    intro hd
    have hl : p.dropLast.length = p.length := by rw [hd]
    rw [List.length_dropLast] at hl
    omega

/-- C27, on the request for `"/a//"`: it is passed on with path `"/a/"`, and
stripping again gives another path. -/
theorem C27_StripSlashes_one_slash_only_witness :
    ServeHTTP exampleEnv Heap.empty 1 (StripSlashes (h "a")) (get "/a//") []
      = ServeHTTP exampleEnv Heap.empty 1 (h "a")
          { get "/a//" with path := "/a/".toList } [] ∧
    stripPath (stripPath ("/a/".toList ++ ['/'])) ≠ stripPath ("/a/".toList ++ ['/']) :=
  ⟨(C27_StripSlashes_one_slash_only exampleEnv Heap.empty 1 (h "a") (get "/a//") []
      "/a/".toList (by decide) (by decide) rfl).1,
   (C27_StripSlashes_one_slash_only exampleEnv Heap.empty 1 (h "a") (get "/a//") []
      "/a/".toList (by decide) (by decide) rfl).2.2.2.1 (by decide)⟩

/-! ## The claims on `With` then `Handle`, and on a failing `Use` -/

/-- C24: `chain(xs ++ ys, h) = chain(xs, chain(ys, h))` for all lists and
handlers; and on a router `r` whose table accepts the key,
`r.With(ys...).Handle(pattern, h)` returns and the entry it adds to the table
of `r` is `chain(r.handlerMiddlewares, chain(ys, h))`: the inline middlewares
are inside the handler-scoped middlewares of `r`. -/
theorem C24_inline_inside_scoped (E : Env) (w : Heap) (r : Nat) (R : Router)
    (ys : List Middleware) (pattern : Str) (h0 : Handler) (es : Table)
    (hr : w.routers[r]? = some R) (hok : w.okRouter R)
    (hes : w.muxes[R.serveMux]? = some es)
    (hacc : E.muxAccepts (es.map Prod.fst) (handleKey R.path pattern) = true) :
    (∀ (xs zs : List Middleware) (g : Handler), chain (xs ++ zs) g = chain xs (chain zs g)) ∧
    ∃ c w1 w2, With E r ys w = .ok (c, w1) ∧ Handle E c pattern h0 w1 = .ok w2 ∧
      w2.muxes[R.serveMux]? = some (es ++ [(handleKey R.path pattern,
        chain (w.elems R.handlerMiddlewares) (chain ys h0))]) := by
  refine ⟨chain_append, ?_⟩
  obtain ⟨w1, Rc, hW, hc, _, _, hmux, e1, e2, _, _, _, e6, _, _, _, _⟩ :=
    With_spec E w r R ys hr hok
  have hes1 : w1.muxes[Rc.serveMux]? = some es := by rw [hmux, e2]; exact hes
  have hacc1 : E.muxAccepts (es.map Prod.fst) (handleKey Rc.path pattern) = true := by
    rw [e1]; exact hacc
  obtain ⟨w2, hH⟩ : ∃ w2, Handle E w.routers.length pattern h0 w1 = .ok w2 :=
    ⟨_, Handle_eq E w1 w.routers.length Rc pattern h0 es hc hes1 hacc1⟩
  obtain ⟨es2, hes2, hent, _⟩ := Handle_entry E w1 w2 w.routers.length Rc pattern h0 hc hH
  have hsame : es2 = es := by
    rw [hes1] at hes2
    exact (Option.some.inj hes2).symm
  refine ⟨_, w1, w2, hW, hH, ?_⟩
  rw [hsame, e1, e2, e6, chain_append] at hent
  exact hent

/-- C24, on `r := NewRouter(); c := r.With(m("a"))` and then
`c.With(m("b")).Handle("/x", h("x"))`: the entry is `m("a")` around `m("b")`
around `h("x")`. -/
theorem C24_inline_inside_scoped_witness :
    ∃ c w1 w2, With exampleEnv 1 [m "b"] cloneHeap = .ok (c, w1) ∧
      Handle exampleEnv c "/x".toList (h "x") w1 = .ok w2 ∧
      w2.muxes[0]? = some ([] ++ [(handleKey [] "/x".toList,
        chain ([] ++ [m "a"]) (chain [m "b"] (h "x")))]) :=
  (C24_inline_inside_scoped exampleEnv cloneHeap 1
    { path := [], handlerMiddlewares := { arr := 0, len := 1, cap := 1 },
      subRouterMiddlewares := Slice.nil, serveMux := 0,
      executedRouteOrHandle := false, inGroupOrWith := true }
    [m "b"] "/x".toList (h "x") [] rfl (by decide) rfl rfl).2

/-- The result of `Use` is the outcome of `UseHeap`: the panic, or else the
heap. -/
theorem Use_eq_UseHeap (E : Env) (r : Nat) (mws : List Middleware) (w : Heap) :
    Use E r mws w
      = match (UseHeap E r mws w).2 with
        | some e => .error e
        | none => .ok (UseHeap E r mws w).1 := by
  unfold Use UseHeap
  cases w.routers[r]? with
  | none => rfl
  | some R =>
    by_cases h1 : R.executedRouteOrHandle = true
    · simp [h1]
    · by_cases h2 : R.inGroupOrWith = true
      · simp [h1, h2]
      · simp [h1, h2]

/-- C26: when `Use` fails, the heap at the panic is the heap before the call:
the router value, the elements of its `handlerMiddlewares` and of its
`subRouterMiddlewares`, and every table are as they were; the check comes
before the append, so the arguments play no part in the failure. -/
theorem C26_Use_atomic_on_failure (E : Env) (r : Nat) (mws : List Middleware) (w : Heap)
    (e : String) (hfail : Use E r mws w = .error e) :
    UseHeap E r mws w = (w, some e) ∧
    (UseHeap E r mws w).1.routers = w.routers ∧
    (∀ R, w.routers[r]? = some R →
      (UseHeap E r mws w).1.elems R.handlerMiddlewares = w.elems R.handlerMiddlewares ∧
      (UseHeap E r mws w).1.elems R.subRouterMiddlewares = w.elems R.subRouterMiddlewares) ∧
    (UseHeap E r mws w).1.muxes = w.muxes ∧
    (∀ mws2, Use E r mws2 w = .error e) := by
  have hU : UseHeap E r mws w = (w, some e) ∧ ∀ mws2, Use E r mws2 w = .error e := by
    unfold Use at hfail ⊢
    unfold UseHeap
    cases hr : w.routers[r]? with
    | none =>
      simp only [hr] at hfail
      injection hfail with he
      subst he
      exact ⟨rfl, fun _ => rfl⟩
    | some R =>
      simp only [hr] at hfail
      by_cases h1 : R.executedRouteOrHandle = true
      · simp only [h1, if_true] at hfail ⊢
        injection hfail with he
        subst he
        exact ⟨rfl, fun _ => rfl⟩
      · by_cases h2 : R.inGroupOrWith = true
        · simp [h1, h2] at hfail
        · simp [h1, h2] at hfail
  obtain ⟨hU1, hU2⟩ := hU
  rw [hU1]
  exact ⟨rfl, rfl, fun _ _ => ⟨rfl, rfl⟩, rfl, hU2⟩

/-- C26, on `r := NewRouter(); c := r.With(); c.Handle("/a", h("a"))` and then
`c.Use(m("x"))`: the call panics and the heap is as before. -/
theorem C26_Use_atomic_on_failure_witness :
    Use exampleEnv 1 [m "x"] cloneAfterHandle = .error usePanic ∧
    UseHeap exampleEnv 1 [m "x"] cloneAfterHandle = (cloneAfterHandle, some usePanic) :=
  ⟨rfl, (C26_Use_atomic_on_failure exampleEnv 1 [m "x"] cloneAfterHandle usePanic rfl).1⟩

end Michi
